import Mathlib

/-!
# repo-scraper: a Lean model of `main.go`

The development embeds the pure parts of `main.go` (filtering, Link-header
parsing, URL and CSV formatting) as Lean functions and the stateful parts
(the paginated collector, the CSV writer) as explicit state passing over a
model of the HTTP client and of the output file.

Conventions.
* A Go `string` is a Lean `String`; the functions of package `strings` are
  modelled on the underlying `List Char`. Splitting on `,` and searching for
  an ASCII needle give the same answer on code points as on UTF-8 bytes;
  byte strings that are not valid UTF-8 are outside the model.
* A Go `error` is modelled by its message, a `String`; `nil` is `none`.
* A Go slice result is a `Slice`: `nil` is kept apart from an empty
  non-nil slice, because `append` and the JSON encoder tell them apart.
* Go `int` is 64 bit; the page counter and the totals of `PrintSummary` are
  `Int`s that wrap at `2^63`.
* Package `encoding/json` is library code: its encoder and its decoder on
  `[]Repository` are modelled here, so that the exporter and the page decoder
  can be composed. The collector takes the decoder as a parameter (`Lib`).
-/

set_option autoImplicit false

namespace RepoScraper

/-! ## Data model -/

/-- The `Repository` struct of `main.go`, field for field. -/
structure Repository where
  ID : Int
  Name : String
  FullName : String
  HTMLURL : String
  CloneURL : String
  SSHURL : String
  Description : String
  Language : String
  Stars : Int
  Forks : Int
  CreatedAt : String
  UpdatedAt : String
  Private : Bool
  Fork : Bool
  Archived : Bool
deriving DecidableEq

/-- A Go slice value as seen by its reader: either `nil` or a non-nil slice
holding a sequence of elements (possibly none). -/
inductive Slice (α : Type) where
  | nil : Slice α
  | of : List α → Slice α
deriving DecidableEq

/-- The elements of a slice, in order (what `range` visits). -/
def Slice.toList {α : Type} : Slice α → List α
  | .nil => []
  | .of xs => xs

/-- Go `len(s)`. -/
def Slice.len {α : Type} (s : Slice α) : Nat := s.toList.length

/-- Go `append(s, xs...)`: with nothing to add the slice comes back unchanged
(a `nil` slice stays `nil`), otherwise the result is a non-nil slice. -/
def Slice.append {α : Type} (s : Slice α) (xs : List α) : Slice α :=
  match xs with
  | [] => s
  | x :: rest => .of (s.toList ++ x :: rest)

/-! ## `FilterRepos` -/

/-- One iteration of the loop of `FilterRepos`: the three `continue` guards,
then `filtered = append(filtered, repo)`. -/
def filterStep (includePrivate includeForks includeArchived : Bool)
    (filtered : Slice Repository) (repo : Repository) : Slice Repository :=
  if !includePrivate && repo.Private then filtered
  else if !includeForks && repo.Fork then filtered
  else if !includeArchived && repo.Archived then filtered
  else filtered.append [repo]

/-- `FilterRepos` of `main.go`: `var filtered []Repository` (a nil slice), one
pass over `repos`, return `filtered`. -/
def FilterRepos (repos : List Repository)
    (includePrivate includeForks includeArchived : Bool) : Slice Repository :=
  repos.foldl (filterStep includePrivate includeForks includeArchived) Slice.nil

/-- The survival predicate of the specification (section 4.3), written from
the spec's words. -/
def survives (includePrivate includeForks includeArchived : Bool) (r : Repository) : Bool :=
  (includePrivate || !r.Private) && (includeForks || !r.Fork) &&
    (includeArchived || !r.Archived)

/-! ## Package `strings` and `unicode` (the functions `main.go` calls) -/

/-- Go `unicode.IsSpace`: the Latin-1 spaces `\t \n \v \f \r`, space, U+0085, U+00A0
and the code points of Unicode category Z / property White_Space. -/
def isSpace (c : Char) : Bool :=
  c.toNat == 9 || c.toNat == 10 || c.toNat == 11 || c.toNat == 12 || c.toNat == 13
    || c.toNat == 32 || c.toNat == 0x85 || c.toNat == 0xA0 || c.toNat == 0x1680
    || (0x2000 ≤ c.toNat && c.toNat ≤ 0x200A) || c.toNat == 0x2028 || c.toNat == 0x2029
    || c.toNat == 0x202F || c.toNat == 0x205F || c.toNat == 0x3000

namespace strings

/-- Substring search on character lists: is `sub` a prefix of some suffix of `s`. -/
def containsChars (sub : List Char) : List Char → Bool
  | [] => sub.isPrefixOf []
  | c :: cs => sub.isPrefixOf (c :: cs) || containsChars sub cs

/-- Go `strings.Contains(s, substr)`. -/
def Contains (s substr : String) : Bool := containsChars substr.toList s.toList

/-- Go `strings.TrimSpace` on character lists: leading and trailing white space removed. -/
def trimSpaceChars (s : List Char) : List Char :=
  (s.dropWhile isSpace).rdropWhile isSpace

/-- Go `strings.TrimSpace(s)`. -/
def TrimSpace (s : String) : String := String.mk (trimSpaceChars s.toList)

/-- Left-to-right scan of `strings.Split` for a non-empty separator: at an
occurrence of `sep` the current piece ends and the scan resumes after it.
`fuel` bounds the scan; the length of the input is enough. -/
def splitChars (sep : List Char) : Nat → List Char → List (List Char)
  | 0, s => [s]
  | _ + 1, [] => [[]]
  | fuel + 1, c :: cs =>
    if sep.isPrefixOf (c :: cs) then [] :: splitChars sep fuel ((c :: cs).drop sep.length)
    else (splitChars sep fuel cs).modifyHead (fun piece => c :: piece)

/-- Go `strings.Split(s, sep)`: the pieces of `s` between the occurrences of
`sep`; with an empty `sep` the string is split after each character. -/
def Split (s sep : String) : List String :=
  if sep = "" then s.toList.map (fun c => String.mk [c])
  else (splitChars sep.toList s.length s.toList).map String.mk

/-- Left-to-right scan of `strings.ReplaceAll` for a non-empty `old`: each
non-overlapping occurrence of `old` is replaced by `new`. -/
def replaceChars (old new : List Char) : Nat → List Char → List Char
  | 0, s => s
  | _ + 1, [] => []
  | fuel + 1, c :: cs =>
    if old.isPrefixOf (c :: cs) then new ++ replaceChars old new fuel ((c :: cs).drop old.length)
    else c :: replaceChars old new fuel cs

/-- Go `strings.ReplaceAll(s, old, new)`; an empty `old` matches before every
character and at the end. -/
def ReplaceAll (s old new : String) : String :=
  if old = new then s
  else if old = "" then String.mk (new.toList ++ s.toList.flatMap (fun c => c :: new.toList))
  else String.mk (replaceChars old.toList new.toList s.length s.toList)

end strings

/-! ## `parseLinkHeader` -/

/-- `parseLinkHeader` of `main.go`: false on the empty header; otherwise split
on commas and answer true at the first trimmed piece containing `rel="next"`. -/
def parseLinkHeader (linkHeader : String) : Bool :=
  if linkHeader = "" then false
  else (strings.Split linkHeader ",").any
    (fun link => strings.Contains (strings.TrimSpace link) "rel=\"next\"")

/-! ### Link headers as the specification describes them -/

/-- One entry `<url>; rel="name"` of a Link header, with the white space that
may surround it inside the comma-separated list. -/
structure LinkEntry where
  pre : String
  url : String
  rel : String
  post : String
deriving DecidableEq

/-- The text of an entry: `pre<url>; rel="name"post`. -/
def LinkEntry.render (e : LinkEntry) : String :=
  e.pre ++ "<" ++ e.url ++ ">; rel=\"" ++ e.rel ++ "\"" ++ e.post

/-- A header value: the entries separated by commas (no entry: the empty header). -/
def renderHeader (es : List LinkEntry) : String :=
  ",".intercalate (es.map LinkEntry.render)

/-- The characters of an entry without its padding. -/
def entryChars (url rel : List Char) : List Char :=
  '<' :: (url ++ ('>' :: ';' :: ' ' :: 'r' :: 'e' :: 'l' :: '=' :: '"' :: (rel ++ ['"'])))

/-- The characters of the needle `rel="next"`. -/
def needleChars : List Char := ['r', 'e', 'l', '=', '"', 'n', 'e', 'x', 't', '"']

/-- The text `s` has neither a comma nor a double quote. -/
def plainText (s : String) : Bool := s.toList.all (fun c => c != ',' && c != '"')

/-- The text `s` consists of white space only. -/
def blankText (s : String) : Bool := s.toList.all isSpace

/-- An entry whose URL and relation name are plain and whose padding is blank. -/
def LinkEntry.ordinary (e : LinkEntry) : Bool :=
  blankText e.pre && plainText e.url && plainText e.rel && blankText e.post

/-- The text `s` has no double quote. -/
def quoteFree (s : String) : Bool := s.toList.all (fun c => c != '"')

/-- An entry whose URL and relation name have no double quote (commas are
allowed) and whose padding is blank. -/
def LinkEntry.unquoted (e : LinkEntry) : Bool :=
  blankText e.pre && quoteFree e.url && quoteFree e.rel && blankText e.post

/-- The text that follows an entry in a header: each later entry after its comma. -/
def headerTail (es : List LinkEntry) : List Char :=
  (es.map (fun e => [','] ++ e.render.data)).flatten

/-! ## Package `fmt`: the fragment of `Sprintf` that `main.go` uses -/

/-- An operand of `fmt.Sprintf`: a string, an int or a bool. -/
inductive Arg where
  | str (v : String)
  | int (v : Int)
  | bool (v : Bool)

/-- Go `%d` of an `int`: base ten, a leading `-` for a negative number. -/
def formatInt (v : Int) : String := toString v

/-- Go `%t` of a `bool`: the literals `true` and `false`. -/
def formatBool (v : Bool) : String := if v then "true" else "false"

/-- The default rendering of an operand (`%v`; also `%s`, `%d`, `%t` on their types). -/
def Arg.value : Arg → List Char
  | .str v => v.toList
  | .int v => (formatInt v).toList
  | .bool v => (formatBool v).toList

/-- The Go type name of an operand, as printed in a bad-verb report. -/
def Arg.typeName : Arg → List Char
  | .str _ => "string".toList
  | .int _ => "int".toList
  | .bool _ => "bool".toList

/-- Whether the verb is one of `s d t v` and fits the operand. The other verbs
of package `fmt` (`q`, `x`, widths, flags) are outside this model; no format
string of the modelled functions has them. -/
def verbAccepts (verb : Char) : Arg → Bool
  | .str _ => verb == 's' || verb == 'v'
  | .int _ => verb == 'd' || verb == 'v'
  | .bool _ => verb == 't' || verb == 'v'

/-- One directive applied to one operand; a verb that does not fit prints
`%!verb(type=value)` as Go does. -/
def formatVerb (verb : Char) (a : Arg) : List Char :=
  if verbAccepts verb a then a.value
  else "%!".toList ++ [verb] ++ "(".toList ++ a.typeName ++ "=".toList ++ a.value ++ ")".toList

/-- The report `%!(EXTRA type=value, ...)` for operands left over. -/
def extraArgs (args : List Arg) : List Char :=
  "%!(EXTRA ".toList
    ++ ", ".toList.intercalate (args.map (fun a => a.typeName ++ "=".toList ++ a.value))
    ++ ")".toList

/-- The scan of `fmt.Sprintf`: literal text is copied, `%%` prints `%`, a
directive consumes the next operand, a directive without operand prints
`%!verb(MISSING)`, a lone final `%` prints `%!(NOVERB)`. -/
def sprintfChars : List Char → List Arg → List Char
  | [], [] => []
  | [], a :: as => extraArgs (a :: as)
  | c :: rest, args =>
    if c = '%' then
      match rest with
      | [] => "%!(NOVERB)".toList ++ sprintfChars [] args
      | verb :: rest2 =>
        if verb = '%' then '%' :: sprintfChars rest2 args
        else
          match args with
          | [] => "%!".toList ++ [verb] ++ "(MISSING)".toList ++ sprintfChars rest2 []
          | a :: as => formatVerb verb a ++ sprintfChars rest2 as
    else c :: sprintfChars rest args

/-- Go `fmt.Sprintf(format, args...)`. -/
def Sprintf (format : String) (args : List Arg) : String :=
  String.mk (sprintfChars format.toList args)

/-! ## The HTTP client and the libraries, as parameters -/

/-- An outgoing request as `makeRequest` builds it. -/
structure Request where
  Method : String
  URL : String
  Header : List (String × String)
deriving DecidableEq

/-- What `fetchReposPage` reads of a response: the status code, the body text
and `resp.Header.Get("Link")` (empty when the header is absent). -/
structure Response where
  StatusCode : Int
  Body : String
  Link : String
deriving DecidableEq

/-- The `http.Client` of the scraper: `Do` answers a request with a response
or fails with an error (the 30 second timeout is one such failure). -/
structure HttpClient where
  Do : Request → Except String Response

/-- The `GitHubScraper` struct of `main.go`. -/
structure GitHubScraper where
  token : String
  baseUrl : String
  httpClient : HttpClient

/-- Library behaviour that is not code of the repository: whether
`http.NewRequest` rejects a URL (and with which error), and what
`json.NewDecoder(body).Decode(&repos)` makes of a body. -/
structure Lib where
  newRequestError : String → Option String
  decodeRepos : String → Except String (List Repository)

/-- `NewGitHubScraper` of `main.go`; the client is the one given. -/
def NewGitHubScraper (client : HttpClient) (token : String) : GitHubScraper :=
  { token := token, baseUrl := "https://api.github.com", httpClient := client }

/-- Go `Header.Set(key, value)`: the key's earlier values are replaced. -/
def headerSet (h : List (String × String)) (key value : String) : List (String × String) :=
  h.filter (fun kv => kv.1 != key) ++ [(key, value)]

/-- `makeRequest` of `main.go`: a GET request for `url` with the bearer token
(only when the token is not empty), the `Accept` and the `User-Agent` headers,
handed to the client. -/
def makeRequest (lib : Lib) (gs : GitHubScraper) (url : String) : Except String Response :=
  match lib.newRequestError url with
  | some err => .error err
  | none =>
    let h0 : List (String × String) := []
    let h1 := if gs.token != "" then headerSet h0 "Authorization" ("Bearer " ++ gs.token) else h0
    let h2 := headerSet h1 "Accept" "application/vnd.github.v3+json"
    let h3 := headerSet h2 "User-Agent" "GitHub-Repo-Scraper/1.0"
    gs.httpClient.Do { Method := "GET", URL := url, Header := h3 }

/-- `fetchReposPage` of `main.go`: the records of the page, the has-more flag
and the error. Every failure returns no records, `false` and the error. -/
def fetchReposPage (lib : Lib) (gs : GitHubScraper) (url : String) :
    List Repository × Bool × Option String :=
  match makeRequest lib gs url with
  | .error err => ([], false, some err)
  | .ok resp =>
    if resp.StatusCode ≠ 200 then
      ([], false, some (Sprintf "API request failed with status code %d: %s"
        [.int resp.StatusCode, .str resp.Body]))
    else
      match lib.decodeRepos resp.Body with
      | .error err => ([], false, some err)
      | .ok repos => (repos, parseLinkHeader resp.Link, none)

/-! ## The paginated collector -/

/-- Go `int` arithmetic: the result of an operation, wrapped to 64 bits. -/
def wrapInt64 (x : Int) : Int :=
  (x + 9223372036854775808) % 18446744073709551616 - 9223372036854775808

/-- The format string of `ScrapeUserRepos`. -/
def userFormat : String := "%s/users/%s/repos?page=%d&per_page=%d&sort=updated&direction=desc"

/-- The format string of `ScraperOrgRepos`. -/
def orgFormat : String := "%s/orgs/%s/repos?page=%d&per_page=%dsort=updated&direction=desc"

/-- The `perPage := 100` of both entry points. -/
def perPage : Int := 100

/-- The URL built at the head of the loop body. -/
def pageURL (format : String) (gs : GitHubScraper) (name : String) (page : Int) : String :=
  Sprintf format [.str gs.baseUrl, .str name, .int page, .int perPage]

/-- What a run of the collector leaves behind: the URLs handed to
`fetchReposPage`, oldest first, and the two return values. -/
structure ScrapeOutcome where
  requested : List String
  repos : Slice Repository
  err : Option String
deriving DecidableEq

/-- The `for` loop shared by `ScrapeUserRepos` and `ScraperOrgRepos` (the two
bodies differ in the format string only). `fuel` bounds the number of
iterations; `none` means the bound was reached before the loop ended. -/
def scrapeLoop (lib : Lib) (gs : GitHubScraper) (format name : String) :
    Nat → Int → Slice Repository → List String → Option ScrapeOutcome
  | 0, _, _, _ => none
  | fuel + 1, page, allRepos, requested =>
    let url := pageURL format gs name page
    match fetchReposPage lib gs url with
    | (_, _, some err) => some { requested := requested ++ [url], repos := .nil, err := some err }
    | (repos, hasMore, none) =>
      let allRepos := allRepos.append repos
      if !hasMore || repos.length == 0 then
        some { requested := requested ++ [url], repos := allRepos, err := none }
      else scrapeLoop lib gs format name fuel (wrapInt64 (page + 1)) allRepos (requested ++ [url])

/-- `ScrapeUserRepos` of `main.go`: `var allRepos []Repository`, `page := 1`, the loop. -/
def ScrapeUserRepos (lib : Lib) (gs : GitHubScraper) (username : String) (fuel : Nat) :
    Option ScrapeOutcome :=
  scrapeLoop lib gs userFormat username fuel 1 .nil []

/-- `ScraperOrgRepos` of `main.go`: `var allRepos []Repository`, `page := 1`, the loop. -/
def ScraperOrgRepos (lib : Lib) (gs : GitHubScraper) (orgName : String) (fuel : Nat) :
    Option ScrapeOutcome :=
  scrapeLoop lib gs orgFormat orgName fuel 1 .nil []

/-- The two entry points; `main` picks one by its first argument. -/
inductive EntryPoint where
  | user
  | org
deriving DecidableEq

/-- The format string of an entry point. -/
def EntryPoint.format : EntryPoint → String
  | .user => userFormat
  | .org => orgFormat

/-- The entry point's function. -/
def EntryPoint.scrape (e : EntryPoint) (lib : Lib) (gs : GitHubScraper) (name : String)
    (fuel : Nat) : Option ScrapeOutcome :=
  match e with
  | .user => ScrapeUserRepos lib gs name fuel
  | .org => ScraperOrgRepos lib gs name fuel

/-- The result of fetching page `page` of an entry point. -/
def fetchPage (e : EntryPoint) (lib : Lib) (gs : GitHubScraper) (name : String) (page : Int) :
    List Repository × Bool × Option String :=
  fetchReposPage lib gs (pageURL e.format gs name page)

/-- The loop's exit test `!hasMore || len(repos) == 0` on a fetch result. -/
def stopsAfter (r : List Repository × Bool × Option String) : Bool :=
  !r.2.1 || r.1.length == 0

/-- The URLs of pages `page, page+1, ..., page+n-1`. -/
def urlsFrom (format : String) (gs : GitHubScraper) (name : String) : Int → Nat → List String
  | _, 0 => []
  | page, n + 1 => pageURL format gs name page :: urlsFrom format gs name (page + 1) n

/-- The accumulator after appending the records of pages `page, ..., page+n-1`. -/
def appendPages (lib : Lib) (gs : GitHubScraper) (format name : String) :
    Slice Repository → Int → Nat → Slice Repository
  | acc, _, 0 => acc
  | acc, page, n + 1 =>
    appendPages lib gs format name
      (acc.append (fetchReposPage lib gs (pageURL format gs name page)).1) (page + 1) n

/-- A page as the server holds it: the body text, the records the body decodes
to, and the entries of its Link header (none: the header is absent). -/
structure ServedPage where
  body : String
  records : List Repository
  links : List LinkEntry

/-- The page is what the server answers, with status 200, at this URL. -/
def serves (lib : Lib) (gs : GitHubScraper) (url : String) (p : ServedPage) : Prop :=
  makeRequest lib gs url = .ok { StatusCode := 200, Body := p.body, Link := renderHeader p.links }
    ∧ lib.decodeRepos p.body = .ok p.records

/-- Some entry of the page's Link header has relation name `next`. -/
def ServedPage.hasNext (p : ServedPage) : Bool := p.links.any (fun e => e.rel == "next")

/-! ## `SaveToCSV` -/

/-- The header line written by `SaveToCSV`. -/
def csvHeader : String :=
  "Name,Full Name,Description,Language,Stars,Focks,Clone URL,HTML URL,Created At,Updated At,Private,Fork,Archived\n"

/-- The format string of a row. -/
def csvRowFormat : String := "%s,%s,\"%s\",%s,%d,%d,%s,%s,%s,%s,%t,%t,%t\n"

/-- The row of a record, as the loop body of `SaveToCSV` builds it. -/
def csvRow (repo : Repository) : String :=
  Sprintf csvRowFormat
    [.str repo.Name, .str repo.FullName,
     .str (strings.ReplaceAll repo.Description "\"" "\"\""), .str repo.Language,
     .int repo.Stars, .int repo.Forks, .str repo.CloneURL, .str repo.HTMLURL,
     .str repo.CreatedAt, .str repo.UpdatedAt, .bool repo.Private,
     .bool repo.Fork, .bool repo.Archived]

/-- The file system as `SaveToCSV` meets it: whether `os.Create` fails on a
name, and whether the k-th `WriteString` on the created file fails (k from 0). -/
structure FileSystem where
  createError : String → Option String
  writeError : Nat → Option String

/-- What `SaveToCSV` leaves behind: the content of the file (`none` when it
was not created) and the returned error. A failed write is taken to add
nothing to the file. -/
structure CsvOutcome where
  file : Option String
  err : Option String
deriving DecidableEq

/-- The row loop of `SaveToCSV`: `k` writes were made so far and the file holds `content`. -/
def writeRows (fs : FileSystem) : List Repository → Nat → String → CsvOutcome
  | [], _, content => { file := some content, err := none }
  | repo :: rest, k, content =>
    match fs.writeError k with
    | some err => { file := some content, err := some err }
    | none => writeRows fs rest (k + 1) (content ++ csvRow repo)

/-- `SaveToCSV` of `main.go`: create the file, write the header, write one row per record. -/
def SaveToCSV (fs : FileSystem) (repos : List Repository) (filename : String) : CsvOutcome :=
  match fs.createError filename with
  | some err => { file := none, err := some err }
  | none =>
    match fs.writeError 0 with
    | some err => { file := some "", err := some err }
    | none => writeRows fs repos 1 csvHeader

/-- The first line of a text: the characters before the first line feed. -/
def firstLine (text : String) : String := String.mk (text.toList.takeWhile (fun c => c != '\n'))

/-- The thirteen column names of the specification (section 4.5), in its order. -/
def specColumns : List String :=
  ["Name", "Full Name", "Description", "Language", "Stars", "Forks", "Clone URL", "HTML URL",
   "Created At", "Updated At", "Private", "Fork", "Archived"]

/-- The description cell in the specification's words: a double quote, the
description with each double quote doubled and every other character kept,
a double quote. -/
def quotedCell (description : String) : String :=
  "\"" ++ String.mk (description.toList.flatMap (fun c => if c = '"' then ['"', '"'] else [c]))
    ++ "\""

/-- The thirteen cells of a record's row in the specification's words, in header order. -/
def specCells (r : Repository) : List String :=
  [r.Name, r.FullName, quotedCell r.Description, r.Language, formatInt r.Stars,
   formatInt r.Forks, r.CloneURL, r.HTMLURL, r.CreatedAt, r.UpdatedAt,
   formatBool r.Private, formatBool r.Fork, formatBool r.Archived]

/-- A decimal digit `0`..`9`. -/
def isDigit (c : Char) : Bool := 48 ≤ c.toNat && c.toNat ≤ 57

/-- The number written by a string of decimal digits, most significant first. -/
def decimalValue (cs : List Char) : Nat :=
  cs.foldl (fun acc c => 10 * acc + (c.toNat - 48)) 0

/-- Reading a decimal numeral: an optional `-`, then one or more digits. -/
def readDecimal (s : String) : Option Int :=
  match s.toList with
  | [] => none
  | c :: ds =>
    if c = '-' then
      if ds ≠ [] ∧ ds.all isDigit = true then some (-(decimalValue ds : Int)) else none
    else
      if (c :: ds).all isDigit = true then some (decimalValue (c :: ds) : Int) else none

/-- A file system on which nothing fails. -/
def healthyFS : FileSystem := { createError := fun _ => none, writeError := fun _ => none }

/-! ## Example data -/

/-- A record with the given name and description, everything else fixed. -/
def sampleRepo (name description : String) : Repository :=
  { ID := 1, Name := name, FullName := "octo/" ++ name, HTMLURL := "https://github.com/octo/x",
    CloneURL := "https://github.com/octo/x.git", SSHURL := "git@github.com:octo/x.git",
    Description := description, Language := "Go", Stars := 5, Forks := 2,
    CreatedAt := "2024-01-01T00:00:00Z", UpdatedAt := "2024-02-01T00:00:00Z",
    Private := false, Fork := false, Archived := false }

/-- The record that `encoding/json` decodes from the object `{"name":"<name>"}`:
the name is set and every other field keeps its zero value. -/
def namedRepo (name : String) : Repository :=
  { ID := 0, Name := name, FullName := "", HTMLURL := "", CloneURL := "", SSHURL := "",
    Description := "", Language := "", Stars := 0, Forks := 0, CreatedAt := "", UpdatedAt := "",
    Private := false, Fork := false, Archived := false }

/-- The JSON text `[{"name":"a"}]`. -/
def bodyA : String := "[\x7b\"name\":\"a\"\x7d]"

/-- The JSON text `[{"name":"b"}]`. -/
def bodyB : String := "[\x7b\"name\":\"b\"\x7d]"

/-- The libraries on the example bodies: every URL is accepted by
`http.NewRequest`, and the decoder answers as `encoding/json` does on the
three bodies `[]`, `[{"name":"a"}]` and `[{"name":"b"}]`; the examples decode
no other body. -/
def sampleLib : Lib :=
  { newRequestError := fun _ => none
    decodeRepos := fun body =>
      if body = bodyA then .ok [namedRepo "a"]
      else if body = bodyB then .ok [namedRepo "b"]
      else if body = "[]" then .ok []
      else .error "invalid character" }

/-- The reply of a toy server that tells pages apart by the `page=` parameter. -/
def replyByPage (page1 page2 other : Except String Response) (req : Request) :
    Except String Response :=
  if strings.Contains req.URL "?page=1&" then page1
  else if strings.Contains req.URL "?page=2&" then page2
  else other

/-- Two pages: one record and a `next` link, then one record and no `next` link. -/
def twoPageClient : HttpClient :=
  { Do := replyByPage
      (.ok { StatusCode := 200, Body := bodyA, Link := "<https://api.github.com/x?page=2>; rel=\"next\"" })
      (.ok { StatusCode := 200, Body := bodyB, Link := "<https://api.github.com/x?page=1>; rel=\"prev\"" })
      (.error "unexpected request") }

/-- Page 1 is empty but carries a `next` link; page 2 has one record and no Link header. -/
def emptyFirstPageClient : HttpClient :=
  { Do := replyByPage
      (.ok { StatusCode := 200, Body := "[]", Link := "<https://api.github.com/x?page=2>; rel=\"next\"" })
      (.ok { StatusCode := 200, Body := bodyB, Link := "" })
      (.error "unexpected request") }

/-- Page 1 has one record and a `next` link; page 2 answers HTTP 403. -/
def rateLimitedClient : HttpClient :=
  { Do := replyByPage
      (.ok { StatusCode := 200, Body := bodyA, Link := "<https://api.github.com/x?page=2>; rel=\"next\"" })
      (.ok { StatusCode := 403, Body := "\x7b\"message\":\"rate limited\"\x7d", Link := "" })
      (.error "unexpected request") }

/-- A first page with one record and a `next` link. -/
def pageA : ServedPage :=
  { body := bodyA, records := [namedRepo "a"],
    links := [{ pre := "", url := "https://api.github.com/x?page=2", rel := "next", post := "" }] }

/-- A last page with one record and a `prev` link only. -/
def pageB : ServedPage :=
  { body := bodyB, records := [namedRepo "b"],
    links := [{ pre := "", url := "https://api.github.com/x?page=1", rel := "prev", post := "" }] }

/-- An empty page that still carries a `next` link. -/
def pageEmptyWithNext : ServedPage :=
  { body := "[]", records := [],
    links := [{ pre := "", url := "https://api.github.com/x?page=2", rel := "next", post := "" }] }

/-- A last page with one record and no Link header. -/
def pageBNoHeader : ServedPage := { body := bodyB, records := [namedRepo "b"], links := [] }

/-- The pages of `twoPageClient`, by page number. -/
def twoPages (j : Nat) : ServedPage := if j = 1 then pageA else pageB

/-- A `last` entry after a comma and a space, as GitHub writes it. -/
def linksLast : List LinkEntry :=
  [{ pre := " ", url := "https://api.github.com/x?page=9", rel := "last", post := "" }]

/-- A `next` entry after a comma and a space. -/
def entryNext : LinkEntry :=
  { pre := " ", url := "https://api.github.com/x?page=3", rel := "next", post := "" }

/-- A last page whose only entry has relation `prev` and whose URL holds the text `rel="next"`. -/
def pageBQuotedUrl : ServedPage :=
  { body := bodyB, records := [namedRepo "b"],
    links := [{ pre := "", url := "https://api.github.com/x?q=rel=\"next\"&page=1", rel := "prev",
                post := "" }] }

/-- Page 1 has one record and a `next` link; page 2 is `pageBQuotedUrl`; there is no page 3. -/
def quotedUrlClient : HttpClient :=
  { Do := replyByPage
      (.ok { StatusCode := 200, Body := bodyA, Link := "<https://api.github.com/x?page=2>; rel=\"next\"" })
      (.ok { StatusCode := 200, Body := bodyB,
             Link := "<https://api.github.com/x?q=rel=\"next\"&page=1>; rel=\"prev\"" })
      (.error "unexpected request") }

/-- A first page whose `next` and `last` links have a comma inside their URLs. -/
def pageACommaUrl : ServedPage :=
  { body := bodyA, records := [namedRepo "a"],
    links := [{ pre := "", url := "https://api.github.com/x?ids=1,2&page=2", rel := "next",
                post := "" },
              { pre := " ", url := "https://api.github.com/x?ids=1,2&page=9", rel := "last",
                post := "" }] }

/-- A last page whose `prev` and `first` links have a comma inside their URLs. -/
def pageBCommaUrl : ServedPage :=
  { body := bodyB, records := [namedRepo "b"],
    links := [{ pre := "", url := "https://api.github.com/x?ids=1,2&page=1", rel := "prev",
                post := "" },
              { pre := " ", url := "https://api.github.com/x?ids=1,2&page=1", rel := "first",
                post := "" }] }

/-- Page 1 is `pageACommaUrl`, page 2 is `pageBCommaUrl`; there is no page 3. -/
def commaUrlClient : HttpClient :=
  { Do := replyByPage
      (.ok { StatusCode := 200, Body := bodyA,
             Link := "<https://api.github.com/x?ids=1,2&page=2>; rel=\"next\", <https://api.github.com/x?ids=1,2&page=9>; rel=\"last\"" })
      (.ok { StatusCode := 200, Body := bodyB,
             Link := "<https://api.github.com/x?ids=1,2&page=1>; rel=\"prev\", <https://api.github.com/x?ids=1,2&page=1>; rel=\"first\"" })
      (.error "unexpected request") }

/-- The pages of `commaUrlClient`, by page number. -/
def commaUrlPages (j : Nat) : ServedPage := if j = 1 then pageACommaUrl else pageBCommaUrl

/-! ## `PrintSummary` -/

/-- Go `m[key]++` on a `map[string]int`: a missing key reads as 0. The entries
are kept in order of first insertion; Go leaves the iteration order open. -/
def mapIncr (m : List (String × Int)) (key : String) : List (String × Int) :=
  match m with
  | [] => [(key, wrapInt64 (0 + 1))]
  | (k, v) :: rest =>
    if k = key then (k, wrapInt64 (v + 1)) :: rest else (k, v) :: mapIncr rest key

/-- The variables of `PrintSummary` that its loop updates. -/
structure SummaryState where
  languages : List (String × Int)
  totalStars : Int
  totalForks : Int
  privateCount : Int
  forkCount : Int
  archivedCount : Int
deriving DecidableEq

/-- The variables before the loop: an empty map and five zeros. -/
def summaryInit : SummaryState :=
  { languages := [], totalStars := 0, totalForks := 0, privateCount := 0, forkCount := 0,
    archivedCount := 0 }

/-- One iteration of the loop of `PrintSummary`, in Go `int` arithmetic. -/
def summaryStep (st : SummaryState) (repo : Repository) : SummaryState :=
  { languages := if repo.Language != "" then mapIncr st.languages repo.Language else st.languages
    totalStars := wrapInt64 (st.totalStars + repo.Stars)
    totalForks := wrapInt64 (st.totalForks + repo.Forks)
    privateCount := if repo.Private then wrapInt64 (st.privateCount + 1) else st.privateCount
    forkCount := if repo.Fork then wrapInt64 (st.forkCount + 1) else st.forkCount
    archivedCount := if repo.Archived then wrapInt64 (st.archivedCount + 1) else st.archivedCount }

/-- The `for _, repo := range repos` loop of `PrintSummary`. -/
def summaryLoop (repos : List Repository) : SummaryState :=
  repos.foldl summaryStep summaryInit

/-- What `PrintSummary` prints: the output of its `Printf` calls in order, and
the lines of the language loop (one per map entry; Go prints them in an order
it leaves open, here in order of first insertion). -/
structure SummaryOutput where
  printed : List String
  languageLines : List String
deriving DecidableEq

/-- `PrintSummary` of `main.go`: the banner and the total, an early return on
an empty collection, else the loop and the six reports. -/
def PrintSummary (repos : List Repository) (targetName : String) : SummaryOutput :=
  let head := [Sprintf "\n=== Repository Summary for %s ===\n" [.str targetName],
               Sprintf "Total repositories found: %d\n" [.int repos.length]]
  if repos.length == 0 then { printed := head, languageLines := [] }
  else
    let st := summaryLoop repos
    { printed := head ++
        [Sprintf "Total stars: %d\n" [.int st.totalStars],
         Sprintf "Total forks: %d\n" [.int st.totalForks],
         Sprintf "Private repositories: %d\n" [.int st.privateCount],
         Sprintf "Forked repositories: %d\n" [.int st.forkCount],
         Sprintf "Archived repositories: %d\n" [.int st.archivedCount],
         Sprintf "\nTop languages:\n" []]
      languageLines := st.languages.map
        (fun entry => Sprintf "\t%s: %d repositories\n" [.str entry.1, .int entry.2]) }

/-- The number of records carrying a language label. -/
def languageCount (repos : List Repository) (lang : String) : Nat :=
  repos.countP (fun r => r.Language == lang)

/-! ## The option loop and the output switch of `main` -/

/-- The variables that the option loop of `main` sets. -/
structure Options where
  token : String
  outputFormat : String
  includePrivate : Bool
  includeArchived : Bool
  includeForks : Bool
deriving DecidableEq

/-- The values before the loop: `json`, private and archived excluded, forks included. -/
def defaultOptions : Options :=
  { token := "", outputFormat := "json", includePrivate := false, includeArchived := false,
    includeForks := true }

/-- The loop `for i := 3; i < len(os.Args); i++` of `main` over the arguments
after the two positional ones. `--token` and `--ouput` take the next argument
as their value when there is one; an unknown argument is passed over. -/
def parseOptions : List String → Options → Options
  | [], o => o
  | a :: rest, o =>
    if a = "--token" then
      match rest with
      | [] => o
      | v :: rest2 => parseOptions rest2 { o with token := v }
    else if a = "--ouput" then
      match rest with
      | [] => o
      | v :: rest2 => parseOptions rest2 { o with outputFormat := v }
    else if a = "--include-private" then parseOptions rest { o with includePrivate := true }
    else if a = "--include-forks" then parseOptions rest { o with includeForks := false }
    else if a = "--include-archived" then parseOptions rest { o with includeArchived := true }
    else parseOptions rest o

/-- An export that `main` can run. -/
inductive Export where
  | json
  | csv
deriving DecidableEq

/-- The `switch outputFormat` of `main`: the exports run, in order; an unknown
format runs none (a message is printed). -/
def exportsFor (outputFormat : String) : List Export :=
  if outputFormat = "json" then [.json]
  else if outputFormat = "csv" then [.csv]
  else if outputFormat = "both" then [.json, .csv]
  else []

/-- A slice as `FilterRepos` builds it from nil: nil while nothing was appended. -/
def sliceOf (l : List Repository) : Slice Repository :=
  match l with
  | [] => .nil
  | x :: rest => .of (x :: rest)

/-- A record that is a fork (nothing else set). -/
def forkRepo : Repository := { namedRepo "f" with Fork := true }

/-- A record with a language label and a star count (nothing else set). -/
def starRepo (language : String) (stars : Int) : Repository :=
  { namedRepo "s" with Language := language, Stars := stars }

/-! ## Reading a CSV row back (the standard quoting rules) -/

/-- Where the reader stands in a row: in an unquoted cell (or at the start of
a cell), inside a quoted cell, or just after a double quote met inside a
quoted cell. -/
inductive CsvMode where
  | plain
  | quoted
  | quoteSeen
deriving DecidableEq

/-- Reading one row with the standard quoting rules: a comma ends a cell and a
line feed ends the row, except inside a quoted cell; a cell that starts with a
double quote is quoted and ends at the first double quote not followed by
another one; two double quotes inside it stand for one. `cur` is the cell
being read and `done` the cells read so far; `none` is a malformed row. -/
def readRow : CsvMode → List Char → List String → List Char → Option (List String)
  | .plain, cur, done, [] => some (done ++ [String.mk cur])
  | .quoted, _, _, [] => none
  | .quoteSeen, cur, done, [] => some (done ++ [String.mk cur])
  | .plain, cur, done, c :: rest =>
    if c = ',' then readRow .plain [] (done ++ [String.mk cur]) rest
    else if c = '\n' then some (done ++ [String.mk cur])
    else if c = '"' ∧ cur = [] then readRow .quoted [] done rest
    else readRow .plain (cur ++ [c]) done rest
  | .quoted, cur, done, c :: rest =>
    if c = '"' then readRow .quoteSeen cur done rest
    else readRow .quoted (cur ++ [c]) done rest
  | .quoteSeen, cur, done, c :: rest =>
    if c = '"' then readRow .quoted (cur ++ ['"']) done rest
    else if c = ',' then readRow .plain [] (done ++ [String.mk cur]) rest
    else if c = '\n' then some (done ++ [String.mk cur])
    else none

/-- The cells of a row of text. -/
def csvCells (row : String) : Option (List String) := readRow .plain [] [] row.toList

/-- The text has no comma, no double quote and no line break. -/
def csvSafe (s : String) : Bool :=
  s.toList.all (fun c => c != ',' && c != '"' && c != '\n' && c != '\r')

/-- The seven unquoted string fields of the record are all `csvSafe`. -/
def plainFields (r : Repository) : Bool :=
  csvSafe r.Name && csvSafe r.FullName && csvSafe r.Language && csvSafe r.CloneURL
    && csvSafe r.HTMLURL && csvSafe r.CreatedAt && csvSafe r.UpdatedAt

/-- A record whose Name holds a comma; every other field is free of commas. -/
def commaNameRepo : Repository := { sampleRepo "a" "d" with Name := "a,b" }

/-! ## Package `encoding/json`: the encoder of `SaveToJson` -/

/-- A digit of `0123456789abcdef`, the table `hex` of the encoder. -/
def hexDigit (n : Nat) : Char := Nat.digitChar n

/-- How the encoder writes one character of a string, with HTML escaping on
as in `json.Marshal`: the quote and the backslash get a backslash; backspace,
form feed, line feed, carriage return and tab get their short escape (Go
before 1.22 writes backspace and form feed as `\u0008` and `\u000c`, which the
decoder reads alike); the other control characters and `<`, `>`, `&` are
written `\u00XX`; U+2028 and U+2029 are written as the escapes `u2028` and
`u2029`; every other character is kept. -/
def escapeChar (c : Char) : List Char :=
  if c = '"' then ['\\', '"']
  else if c = '\\' then ['\\', '\\']
  else if c.toNat = 8 then ['\\', 'b']
  else if c.toNat = 12 then ['\\', 'f']
  else if c = '\n' then ['\\', 'n']
  else if c = '\r' then ['\\', 'r']
  else if c = '\t' then ['\\', 't']
  else if c.toNat < 32 ∨ c = '<' ∨ c = '>' ∨ c = '&' then
    ['\\', 'u', '0', '0', hexDigit (c.toNat / 16), hexDigit (c.toNat % 16)]
  else if c.toNat = 8232 then ['\\', 'u', '2', '0', '2', '8']
  else if c.toNat = 8233 then ['\\', 'u', '2', '0', '2', '9']
  else [c]

/-- A string as the encoder writes it: quoted, each character escaped. -/
def encodeString (s : String) : List Char :=
  '"' :: (s.toList.flatMap escapeChar ++ ['"'])

/-- The member `"key": value` at depth two of the indented output, with the
line break and the two spaces before it. -/
def memberLine (key : String) (value : List Char) : List Char :=
  '\n' :: ' ' :: ' ' :: (encodeString key ++ (':' :: ' ' :: value))

/-- The members of a record, in the order of the struct's fields and under the
names of its `json` tags; strings are escaped, ints are written in base ten,
bools as `true` and `false`. -/
def recordMembers (r : Repository) : List (List Char) :=
  [memberLine "id" (formatInt r.ID).toList,
   memberLine "name" (encodeString r.Name),
   memberLine "full_name" (encodeString r.FullName),
   memberLine "html_url" (encodeString r.HTMLURL),
   memberLine "clone_url" (encodeString r.CloneURL),
   memberLine "ssh_url" (encodeString r.SSHURL),
   memberLine "description" (encodeString r.Description),
   memberLine "language" (encodeString r.Language),
   memberLine "stargazers_count" (formatInt r.Stars).toList,
   memberLine "forks_count" (formatInt r.Forks).toList,
   memberLine "created_at" (encodeString r.CreatedAt),
   memberLine "updated_at" (encodeString r.UpdatedAt),
   memberLine "private" (formatBool r.Private).toList,
   memberLine "fork" (formatBool r.Fork).toList,
   memberLine "archived" (formatBool r.Archived).toList]

/-- The pieces joined by a comma. -/
def commaJoin : List (List Char) → List Char
  | [] => []
  | [x] => x
  | x :: y :: rest => x ++ ',' :: commaJoin (y :: rest)

/-- A record at depth one of the indented output: a line break and one space,
`{`, the members, a line break and one space, `}`. -/
def encodeRecord (r : Repository) : List Char :=
  '\n' :: ' ' :: '{' :: (commaJoin (recordMembers r) ++ ['\n', ' ', '}'])

/-- Go `json.MarshalIndent(repos, "", " ")` on a `[]Repository`: `null` for a
nil slice, `[]` for an empty one, else the records between `[` and a line
break and `]`, separated by commas. The call cannot fail on this type. -/
def MarshalIndent (repos : Slice Repository) : String :=
  match repos with
  | .nil => "null"
  | .of [] => "[]"
  | .of (r :: rest) =>
    String.mk ('[' :: (commaJoin ((r :: rest).map encodeRecord) ++ ['\n', ']']))

/-- What `SaveToJson` leaves behind: the content of the file (`none` when it
was not written) and the returned error. -/
structure JsonOutcome where
  file : Option String
  err : Option String
deriving DecidableEq

/-- `SaveToJson` of `main.go`: marshal, then `os.WriteFile`, which creates the
file and writes the data in one go. -/
def SaveToJson (fs : FileSystem) (repos : Slice Repository) (filename : String) : JsonOutcome :=
  match fs.createError filename with
  | some err => { file := none, err := some err }
  | none =>
    match fs.writeError 0 with
    | some err => { file := some "", err := some err }
    | none => { file := some (MarshalIndent repos), err := none }

/-! ## Package `encoding/json`: the decoder of `fetchReposPage`

The decoder reads the first JSON value of the body, character by character,
and then stores it into a `[]Repository` by the `json` tags of the struct.
Two things are abridged: the messages of syntax errors, and `\u` escapes of
UTF-16 surrogates, each of which decodes to U+FFFD (the encoder writes none). -/

/-- A JSON value as read; a number keeps its literal. -/
inductive JValue where
  | null
  | bool (b : Bool)
  | num (literal : String)
  | str (s : String)
  | arr (items : List JValue)
  | obj (members : List (String × JValue))

/-- An array or object that is still open: what it holds so far and, for an
object, the key whose value is being read. -/
inductive Frame where
  | arr (items : List JValue)
  | obj (members : List (String × JValue)) (key : Option String)

/-- Where the scan stands inside a number literal. -/
inductive NumPhase where
  | minus
  | zero
  | int
  | dot
  | frac
  | e
  | esign
  | exp

/-- What the scan expects next. -/
inductive Mode where
  | value
  | valueOrEnd
  | keyOrEnd
  | key
  | colon
  | after
  | str (isKey : Bool) (acc : List Char)
  | esc (isKey : Bool) (acc : List Char)
  | uni (isKey : Bool) (acc : List Char) (count code : Nat)
  | num (phase : NumPhase) (acc : List Char)
  | lit (rest : List Char) (v : JValue)

/-- The result of reading one character. -/
inductive Step where
  | next (stack : List Frame) (mode : Mode)
  | done (v : JValue)
  | fail (msg : String)

/-- JSON white space: space, tab, line feed, carriage return. -/
def isJsonSpace (c : Char) : Bool := c = ' ' || c = '\t' || c = '\n' || c = '\r'

/-- The value of a hexadecimal digit, in either case. -/
def hexVal (c : Char) : Option Nat :=
  if 48 ≤ c.toNat ∧ c.toNat ≤ 57 then some (c.toNat - 48)
  else if 97 ≤ c.toNat ∧ c.toNat ≤ 102 then some (c.toNat - 87)
  else if 65 ≤ c.toNat ∧ c.toNat ≤ 70 then some (c.toNat - 55)
  else none

/-- The character of a `\uXXXX` escape; a surrogate gives U+FFFD. -/
def codeChar (code : Nat) : Char :=
  if 55296 ≤ code ∧ code < 57344 then Char.ofNat 65533 else Char.ofNat code

/-- A value is complete: at the top level the scan is over, otherwise the value
goes into the innermost open array or object. -/
def pushValue (stack : List Frame) (v : JValue) : Step :=
  match stack with
  | [] => .done v
  | .arr items :: outer => .next (.arr (items ++ [v]) :: outer) .after
  | .obj members (some k) :: outer => .next (.obj (members ++ [(k, v)]) none :: outer) .after
  | .obj _ none :: _ => .fail "invalid character"

/-- A string is complete: a key waits for its colon, a value is pushed. -/
def finishString (stack : List Frame) (isKey : Bool) (acc : List Char) : Step :=
  if isKey then
    match stack with
    | .obj members none :: outer => .next (.obj members (some (String.mk acc)) :: outer) .colon
    | _ => .fail "invalid character"
  else pushValue stack (.str (String.mk acc))

/-- The first character of a value. -/
def startValue (stack : List Frame) (c : Char) : Step :=
  if c = '\x7b' then .next (.obj [] none :: stack) .keyOrEnd
  else if c = '[' then .next (.arr [] :: stack) .valueOrEnd
  else if c = '"' then .next stack (.str false [])
  else if c = '-' then .next stack (.num .minus [c])
  else if c = '0' then .next stack (.num .zero [c])
  else if isDigit c then .next stack (.num .int [c])
  else if c = 't' then .next stack (.lit ['r', 'u', 'e'] (.bool true))
  else if c = 'f' then .next stack (.lit ['a', 'l', 's', 'e'] (.bool false))
  else if c = 'n' then .next stack (.lit ['u', 'l', 'l'] .null)
  else .fail "invalid character looking for beginning of value"

/-- The character after a complete value inside an array or object. -/
def afterValue (stack : List Frame) (c : Char) : Step :=
  if isJsonSpace c then .next stack .after
  else
    match stack with
    | .arr items :: outer =>
      if c = ',' then .next (.arr items :: outer) .value
      else if c = ']' then pushValue outer (.arr items)
      else .fail "invalid character after array element"
    | .obj members none :: outer =>
      if c = ',' then .next (.obj members none :: outer) .key
      else if c = '\x7d' then pushValue outer (.obj members)
      else .fail "invalid character after object key:value pair"
    | _ => .fail "invalid character"

/-- A number literal ends before `c`: the number is pushed and `c` is read as
the character after a value (at the top level the scan is over). -/
def endNumber (stack : List Frame) (acc : List Char) (c : Char) : Step :=
  match pushValue stack (.num (String.mk acc)) with
  | .next stack2 _ => afterValue stack2 c
  | other => other

/-- One character inside a number literal, by the JSON grammar of numbers. -/
def numStep (stack : List Frame) (phase : NumPhase) (acc : List Char) (c : Char) : Step :=
  match phase with
  | .minus =>
    if c = '0' then .next stack (.num .zero (acc ++ [c]))
    else if isDigit c then .next stack (.num .int (acc ++ [c]))
    else .fail "invalid character in numeric literal"
  | .zero =>
    if c = '.' then .next stack (.num .dot (acc ++ [c]))
    else if c = 'e' ∨ c = 'E' then .next stack (.num .e (acc ++ [c]))
    else if isDigit c then .fail "invalid character after top-level value"
    else endNumber stack acc c
  | .int =>
    if isDigit c then .next stack (.num .int (acc ++ [c]))
    else if c = '.' then .next stack (.num .dot (acc ++ [c]))
    else if c = 'e' ∨ c = 'E' then .next stack (.num .e (acc ++ [c]))
    else endNumber stack acc c
  | .dot =>
    if isDigit c then .next stack (.num .frac (acc ++ [c]))
    else .fail "invalid character after decimal point in numeric literal"
  | .frac =>
    if isDigit c then .next stack (.num .frac (acc ++ [c]))
    else if c = 'e' ∨ c = 'E' then .next stack (.num .e (acc ++ [c]))
    else endNumber stack acc c
  | .e =>
    if c = '+' ∨ c = '-' then .next stack (.num .esign (acc ++ [c]))
    else if isDigit c then .next stack (.num .exp (acc ++ [c]))
    else .fail "invalid character in exponent of numeric literal"
  | .esign =>
    if isDigit c then .next stack (.num .exp (acc ++ [c]))
    else .fail "invalid character in exponent of numeric literal"
  | .exp =>
    if isDigit c then .next stack (.num .exp (acc ++ [c]))
    else endNumber stack acc c

/-- One character of the body. -/
def step (stack : List Frame) (mode : Mode) (c : Char) : Step :=
  match mode with
  | .value => if isJsonSpace c then .next stack .value else startValue stack c
  | .valueOrEnd =>
    if isJsonSpace c then .next stack .valueOrEnd
    else if c = ']' then
      match stack with
      | .arr items :: outer => pushValue outer (.arr items)
      | _ => .fail "invalid character"
    else startValue stack c
  | .keyOrEnd =>
    if isJsonSpace c then .next stack .keyOrEnd
    else if c = '\x7d' then
      match stack with
      | .obj members none :: outer => pushValue outer (.obj members)
      | _ => .fail "invalid character"
    else if c = '"' then .next stack (.str true [])
    else .fail "invalid character looking for beginning of object key string"
  | .key =>
    if isJsonSpace c then .next stack .key
    else if c = '"' then .next stack (.str true [])
    else .fail "invalid character looking for beginning of object key string"
  | .colon =>
    if isJsonSpace c then .next stack .colon
    else if c = ':' then .next stack .value
    else .fail "invalid character after object key"
  | .after => afterValue stack c
  | .str isKey acc =>
    if c = '"' then finishString stack isKey acc
    else if c = '\\' then .next stack (.esc isKey acc)
    else if c.toNat < 32 then .fail "invalid character in string literal"
    else .next stack (.str isKey (acc ++ [c]))
  | .esc isKey acc =>
    if c = '"' ∨ c = '\\' ∨ c = '/' then .next stack (.str isKey (acc ++ [c]))
    else if c = 'b' then .next stack (.str isKey (acc ++ [Char.ofNat 8]))
    else if c = 'f' then .next stack (.str isKey (acc ++ [Char.ofNat 12]))
    else if c = 'n' then .next stack (.str isKey (acc ++ ['\n']))
    else if c = 'r' then .next stack (.str isKey (acc ++ ['\r']))
    else if c = 't' then .next stack (.str isKey (acc ++ ['\t']))
    else if c = 'u' then .next stack (.uni isKey acc 0 0)
    else .fail "invalid character in string escape code"
  | .uni isKey acc count code =>
    match hexVal c with
    | none => .fail "invalid character in \\u hexadecimal character escape"
    | some d =>
      if count = 3 then .next stack (.str isKey (acc ++ [codeChar (code * 16 + d)]))
      else .next stack (.uni isKey acc (count + 1) (code * 16 + d))
  | .num phase acc => numStep stack phase acc c
  | .lit rest v =>
    match rest with
    | [] => .fail "invalid character"
    | [x] => if c = x then pushValue stack v else .fail "invalid character in literal"
    | x :: y :: more =>
      if c = x then .next stack (.lit (y :: more) v) else .fail "invalid character in literal"

/-- The end of the body: only a number at the top level can end there. -/
def finish (stack : List Frame) (mode : Mode) : Except String JValue :=
  match stack, mode with
  | [], .num .zero acc => .ok (.num (String.mk acc))
  | [], .num .int acc => .ok (.num (String.mk acc))
  | [], .num .frac acc => .ok (.num (String.mk acc))
  | [], .num .exp acc => .ok (.num (String.mk acc))
  | _, _ => .error "unexpected end of JSON input"

/-- The scan of the body up to the end of its first value. -/
def scan : List Frame → Mode → List Char → Except String JValue
  | stack, mode, [] => finish stack mode
  | stack, mode, c :: rest =>
    match step stack mode c with
    | .next stack2 mode2 => scan stack2 mode2 rest
    | .done v => .ok v
    | .fail msg => .error msg

/-- The `json` tags of the fields of `Repository`, in field order. -/
def fieldTags : List String :=
  ["id", "name", "full_name", "html_url", "clone_url", "ssh_url", "description", "language",
   "stargazers_count", "forks_count", "created_at", "updated_at", "private", "fork", "archived"]

/-- The text with its ASCII capitals turned into small letters. -/
def lowerAscii (s : String) : String := String.mk (s.toList.map Char.toLower)

/-- The field that a key of the body addresses: the one whose tag is the key,
else the first whose tag equals the key up to the case of ASCII letters. -/
def resolveTag (key : String) : Option String :=
  if key ∈ fieldTags then some key
  else fieldTags.find? (fun tag => lowerAscii tag == lowerAscii key)

/-- The zero value of `Repository`. -/
def zeroRepo : Repository :=
  { ID := 0, Name := "", FullName := "", HTMLURL := "", CloneURL := "", SSHURL := "",
    Description := "", Language := "", Stars := 0, Forks := 0, CreatedAt := "", UpdatedAt := "",
    Private := false, Fork := false, Archived := false }

/-- A JSON value stored into a Go `string`. -/
def asString (tag : String) (v : JValue) : Except String String :=
  match v with
  | .str s => .ok s
  | _ => .error ("json: cannot unmarshal into Go struct field Repository." ++ tag
      ++ " of type string")

/-- A JSON value stored into a Go `int`: an integer literal within 64 bits. -/
def asInt (tag : String) (v : JValue) : Except String Int :=
  match v with
  | .num literal =>
    match readDecimal literal with
    | some n =>
      if -9223372036854775808 ≤ n ∧ n < 9223372036854775808 then .ok n
      else .error ("json: cannot unmarshal number " ++ literal
        ++ " into Go struct field Repository." ++ tag ++ " of type int")
    | none => .error ("json: cannot unmarshal number " ++ literal
        ++ " into Go struct field Repository." ++ tag ++ " of type int")
  | _ => .error ("json: cannot unmarshal into Go struct field Repository." ++ tag
      ++ " of type int")

/-- A JSON value stored into a Go `bool`. -/
def asBool (tag : String) (v : JValue) : Except String Bool :=
  match v with
  | .bool b => .ok b
  | _ => .error ("json: cannot unmarshal into Go struct field Repository." ++ tag
      ++ " of type bool")

/-- One member of an object stored into the record: `null` and a key that
addresses no field change nothing; a value of the wrong kind is an error. -/
def setField (r : Repository) (key : String) (v : JValue) : Except String Repository :=
  match v with
  | .null => .ok r
  | _ =>
    match resolveTag key with
    | none => .ok r
    | some tag =>
      if tag = "id" then (asInt tag v).map (fun x => { r with ID := x })
      else if tag = "name" then (asString tag v).map (fun x => { r with Name := x })
      else if tag = "full_name" then (asString tag v).map (fun x => { r with FullName := x })
      else if tag = "html_url" then (asString tag v).map (fun x => { r with HTMLURL := x })
      else if tag = "clone_url" then (asString tag v).map (fun x => { r with CloneURL := x })
      else if tag = "ssh_url" then (asString tag v).map (fun x => { r with SSHURL := x })
      else if tag = "description" then
        (asString tag v).map (fun x => { r with Description := x })
      else if tag = "language" then (asString tag v).map (fun x => { r with Language := x })
      else if tag = "stargazers_count" then (asInt tag v).map (fun x => { r with Stars := x })
      else if tag = "forks_count" then (asInt tag v).map (fun x => { r with Forks := x })
      else if tag = "created_at" then (asString tag v).map (fun x => { r with CreatedAt := x })
      else if tag = "updated_at" then (asString tag v).map (fun x => { r with UpdatedAt := x })
      else if tag = "private" then (asBool tag v).map (fun x => { r with Private := x })
      else if tag = "fork" then (asBool tag v).map (fun x => { r with Fork := x })
      else if tag = "archived" then (asBool tag v).map (fun x => { r with Archived := x })
      else .ok r

/-- The members of an object stored one after the other (a later member
overrides an earlier one of the same field). -/
def setFields : Repository → List (String × JValue) → Except String Repository
  | r, [] => .ok r
  | r, (key, v) :: rest =>
    match setField r key v with
    | .ok r2 => setFields r2 rest
    | .error msg => .error msg

/-- An element of the array stored into a `Repository`: an object by its
members, `null` as the zero value, anything else is an error. -/
def decodeRecord (v : JValue) : Except String Repository :=
  match v with
  | .obj members => setFields zeroRepo members
  | .null => .ok zeroRepo
  | _ => .error "json: cannot unmarshal into Go value of type main.Repository"

/-- The elements of the array, in order, up to the first error. -/
def decodeRecords : List JValue → Except String (List Repository)
  | [] => .ok []
  | v :: rest =>
    match decodeRecord v with
    | .error msg => .error msg
    | .ok r =>
      match decodeRecords rest with
      | .error msg => .error msg
      | .ok rs => .ok (r :: rs)

/-- Go `json.NewDecoder(body).Decode(&repos)` with `var repos []Repository`:
the first value of the body is read; an array gives its elements, `null`
leaves the slice nil (no records), any other value is an error. -/
def decodeRepos (body : String) : Except String (List Repository) :=
  match scan [] .value body.toList with
  | .error msg => .error msg
  | .ok (.arr items) => decodeRecords items
  | .ok .null => .ok []
  | .ok _ => .error "json: cannot unmarshal into Go value of type []main.Repository"

/-- The libraries with the decoder above; every URL is accepted by `http.NewRequest`. -/
def jsonLib : Lib := { newRequestError := fun _ => none, decodeRepos := decodeRepos }

/-- The records of a decode, `none` on an error. -/
def decoded (body : String) : Option (List Repository) :=
  match decodeRepos body with
  | .ok rs => some rs
  | .error _ => none

/-- The int fields of the record are Go ints: within 64 bits. -/
def intsInRange (r : Repository) : Bool :=
  decide (-9223372036854775808 ≤ r.ID ∧ r.ID < 9223372036854775808)
    && decide (-9223372036854775808 ≤ r.Stars ∧ r.Stars < 9223372036854775808)
    && decide (-9223372036854775808 ≤ r.Forks ∧ r.Forks < 9223372036854775808)

/-- A character that cannot continue a number literal. -/
def endsNumber (d : Char) : Prop :=
  isDigit d = false ∧ d ≠ '.' ∧ d ≠ 'e' ∧ d ≠ 'E'

/-- The JSON object that the encoder's text of a record reads back as. -/
def recordValue (r : Repository) : JValue :=
  .obj [("id", .num (formatInt r.ID)), ("name", .str r.Name), ("full_name", .str r.FullName),
        ("html_url", .str r.HTMLURL), ("clone_url", .str r.CloneURL), ("ssh_url", .str r.SSHURL),
        ("description", .str r.Description), ("language", .str r.Language),
        ("stargazers_count", .num (formatInt r.Stars)), ("forks_count", .num (formatInt r.Forks)),
        ("created_at", .str r.CreatedAt), ("updated_at", .str r.UpdatedAt),
        ("private", .bool r.Private), ("fork", .bool r.Fork), ("archived", .bool r.Archived)]

/-- The text holds a JSON array as its first value. -/
def isJsonArray (text : String) : Bool :=
  match scan [] .value text.toList with
  | .ok (.arr _) => true
  | _ => false

/-- A private record (nothing else set). -/
def privateRepo : Repository := { namedRepo "p" with Private := true }

/-- Two records with characters that the encoder escapes. -/
def escapedRepos : Slice Repository :=
  .of [{ namedRepo "a<b" with Description := "tab\tquote\" back\\ line\n", ID := -42 },
       sampleRepo "x" "say \"hi\""]

/-! ## Lemmas on slices and on the filter loop -/

theorem Slice.toList_append {α : Type} (s : Slice α) (xs : List α) :
    (s.append xs).toList = s.toList ++ xs := by
  cases xs with
  | nil => simp [Slice.append]
  | cons x rest => simp [Slice.append, Slice.toList]

theorem filterStep_toList (p f a : Bool) (acc : Slice Repository) (r : Repository) :
    (filterStep p f a acc r).toList = acc.toList ++ (if survives p f a r then [r] else []) := by
  cases p <;> cases f <;> cases a <;>
    cases hP : r.Private <;> cases hF : r.Fork <;> cases hA : r.Archived <;>
    simp [filterStep, survives, hP, hF, hA, Slice.toList_append]

theorem foldl_filterStep_toList (p f a : Bool) (repos : List Repository)
    (acc : Slice Repository) :
    (repos.foldl (filterStep p f a) acc).toList = acc.toList ++ repos.filter (survives p f a) := by
  induction repos generalizing acc with
  | nil => simp
  | cons r rest ih =>
    rw [List.foldl_cons, ih, filterStep_toList, List.filter_cons]
    cases survives p f a r <;> simp

/-! ## Lemmas on the `strings` functions -/

theorem containsChars_iff (sub s : List Char) :
    strings.containsChars sub s = true ↔ sub <:+: s := by
  induction s with
  | nil => simp [strings.containsChars, List.isPrefixOf_iff_prefix]
  | cons c cs ih =>
    simp only [strings.containsChars, Bool.or_eq_true, ih, List.infix_cons_iff,
      List.isPrefixOf_iff_prefix]

theorem splitChars_single (x : Char) (fuel : Nat) (s : List Char) (h : s.length ≤ fuel) :
    strings.splitChars [x] fuel s = s.splitOn x := by
  induction fuel generalizing s with
  | zero =>
    have hs : s = [] := List.length_eq_zero.mp (Nat.le_zero.mp h)
    subst hs
    simp [strings.splitChars, List.splitOn_nil]
  | succ n ih =>
    cases s with
    | nil => simp [strings.splitChars, List.splitOn_nil]
    | cons c cs =>
      have hlen : cs.length ≤ n := by simpa using h
      have hrec := ih cs hlen
      by_cases hc : c = x
      · subst hc
        simp [strings.splitChars, List.splitOn, List.splitOnP_cons, hrec]
      · have hc2 : ¬ x = c := fun e => hc e.symm
        simp [strings.splitChars, List.splitOn, List.splitOnP_cons, hrec, hc, hc2]

theorem intercalate_cons_eq {α : Type} (sep a : List α) (as : List (List α)) :
    sep.intercalate (a :: as) = a ++ (as.map (fun x => sep ++ x)).flatten := by
  induction as generalizing a with
  | nil => simp [List.intercalate]
  | cons b bs ih =>
    have h2 : sep.intercalate (a :: b :: bs) = a ++ (sep ++ sep.intercalate (b :: bs)) := by
      simp [List.intercalate, List.intersperse_cons₂]
    rw [h2, ih b]
    simp

theorem intercalate_go_data (sep acc : String) (l : List String) :
    (String.intercalate.go acc sep l).data
      = acc.data ++ (l.map (fun a => sep.data ++ a.data)).flatten := by
  induction l generalizing acc with
  | nil => simp [String.intercalate.go]
  | cons a as ih => simp [String.intercalate.go, ih, List.append_assoc]

theorem intercalate_data (sep : String) (l : List String) :
    (sep.intercalate l).data = sep.data.intercalate (l.map String.data) := by
  cases l with
  | nil => simp [String.intercalate, List.intercalate]
  | cons a as =>
    rw [List.map_cons, intercalate_cons_eq]
    simp [String.intercalate, intercalate_go_data, List.map_map, Function.comp_def]

theorem dropWhile_blank_append (pre rest : List Char) (c : Char)
    (hpre : ∀ x ∈ pre, isSpace x = true) (hc : isSpace c = false) :
    (pre ++ c :: rest).dropWhile isSpace = c :: rest := by
  rw [List.dropWhile_append_of_pos hpre]
  simp [List.dropWhile, hc]

theorem trimSpaceChars_padded (pre post mid : List Char) (c d : Char)
    (hpre : ∀ x ∈ pre, isSpace x = true) (hpost : ∀ x ∈ post, isSpace x = true)
    (hc : isSpace c = false) (hd : isSpace d = false) :
    strings.trimSpaceChars (pre ++ c :: (mid ++ d :: post)) = c :: (mid ++ [d]) := by
  unfold strings.trimSpaceChars
  rw [dropWhile_blank_append pre _ c hpre hc]
  unfold List.rdropWhile
  have hrev : (c :: (mid ++ d :: post)).reverse = post.reverse ++ d :: (mid.reverse ++ [c]) := by
    simp
  rw [hrev, dropWhile_blank_append post.reverse _ d (by simpa using hpost) hd]
  simp

/-! ## Lemmas on Link headers -/

theorem append_cons_unique (q : Char) (x x2 y y2 : List Char) (hx : q ∉ x) (hx2 : q ∉ x2)
    (h : x ++ q :: y = x2 ++ q :: y2) : x = x2 ∧ y = y2 := by
  induction x generalizing x2 with
  | nil =>
    cases x2 with
    | nil => simpa using h
    | cons b t =>
      simp only [List.nil_append, List.cons_append, List.cons.injEq] at h
      exact absurd (by simp [h.1]) hx2
  | cons a t ih =>
    cases x2 with
    | nil =>
      simp only [List.nil_append, List.cons_append, List.cons.injEq] at h
      exact absurd (by simp [h.1]) hx
    | cons b t2 =>
      simp only [List.cons_append, List.cons.injEq] at h
      have ht : q ∉ t := fun hm => hx (List.mem_cons_of_mem _ hm)
      have ht2 : q ∉ t2 := fun hm => hx2 (List.mem_cons_of_mem _ hm)
      obtain ⟨e1, e2⟩ := ih t2 ht ht2 h.2
      exact ⟨by rw [h.1, e1], e2⟩

theorem needle_infix_entry_iff (url rel : List Char) (hu : '"' ∉ url) (hr : '"' ∉ rel) :
    needleChars <:+: entryChars url rel ↔ rel = ['n', 'e', 'x', 't'] := by
  constructor
  · rintro ⟨a, b, hab⟩
    have hcount := congrArg (List.count '"') hab
    have hcu : List.count '"' url = 0 := List.count_eq_zero.mpr hu
    have hcr : List.count '"' rel = 0 := List.count_eq_zero.mpr hr
    simp [needleChars, entryChars, List.count_append, List.count_cons, hcu, hcr] at hcount
    have ha : '"' ∉ a := List.count_eq_zero.mp (by omega)
    have h1 : (a ++ ['r', 'e', 'l', '=']) ++ '"' :: (['n', 'e', 'x', 't'] ++ '"' :: b)
        = ('<' :: (url ++ ['>', ';', ' ', 'r', 'e', 'l', '='])) ++ '"' :: (rel ++ '"' :: []) := by
      simpa [needleChars, entryChars, List.append_assoc] using hab
    have hq1 : '"' ∉ a ++ ['r', 'e', 'l', '='] := by simp [ha]
    have hq2 : '"' ∉ '<' :: (url ++ ['>', ';', ' ', 'r', 'e', 'l', '=']) := by simp [hu]
    have h2 := (append_cons_unique '"' _ _ _ _ hq1 hq2 h1).2
    have hq3 : '"' ∉ ['n', 'e', 'x', 't'] := by simp
    exact ((append_cons_unique '"' _ _ _ _ hq3 hr h2).1).symm
  · intro h
    subst h
    exact ⟨'<' :: (url ++ ['>', ';', ' ']), [], by simp [needleChars, entryChars]⟩

theorem plainText_iff (s : String) :
    plainText s = true ↔ ∀ c ∈ s.data, c ≠ ',' ∧ c ≠ '"' := by
  simp [plainText, List.all_eq_true]

theorem blankText_iff (s : String) :
    blankText s = true ↔ ∀ c ∈ s.data, isSpace c = true := by
  simp [blankText, List.all_eq_true]

theorem render_data (e : LinkEntry) :
    e.render.data = e.pre.data ++ '<' :: ((e.url.data ++ ('>' :: ';' :: ' ' :: 'r' :: 'e' :: 'l'
      :: '=' :: '"' :: e.rel.data)) ++ '"' :: e.post.data) := by
  simp only [LinkEntry.render, String.data_append, List.append_assoc]
  rfl

theorem ordinary_iff (e : LinkEntry) :
    e.ordinary = true ↔ (∀ c ∈ e.pre.data, isSpace c = true) ∧ (∀ c ∈ e.url.data, c ≠ ',' ∧ c ≠ '"')
      ∧ (∀ c ∈ e.rel.data, c ≠ ',' ∧ c ≠ '"') ∧ (∀ c ∈ e.post.data, isSpace c = true) := by
  simp only [LinkEntry.ordinary, Bool.and_eq_true, blankText_iff, plainText_iff, and_assoc]

theorem trim_render (e : LinkEntry) (h : e.ordinary = true) :
    strings.trimSpaceChars e.render.data = entryChars e.url.data e.rel.data := by
  obtain ⟨hpre, _, _, hpost⟩ := (ordinary_iff e).mp h
  rw [render_data]
  have ht := trimSpaceChars_padded e.pre.data e.post.data
    (e.url.data ++ ('>' :: ';' :: ' ' :: 'r' :: 'e' :: 'l' :: '=' :: '"' :: e.rel.data)) '<' '"'
    hpre hpost (by decide) (by decide)
  rw [ht]
  simp [entryChars]

theorem contains_trim_render (e : LinkEntry) (h : e.ordinary = true) :
    strings.Contains (strings.TrimSpace e.render) "rel=\"next\"" = (e.rel == "next") := by
  obtain ⟨_, hurl, hrel, _⟩ := (ordinary_iff e).mp h
  have hu : '"' ∉ e.url.data := fun hm => (hurl _ hm).2 rfl
  have hr : '"' ∉ e.rel.data := fun hm => (hrel _ hm).2 rfl
  have hshape : strings.Contains (strings.TrimSpace e.render) "rel=\"next\""
      = strings.containsChars needleChars (strings.trimSpaceChars e.render.data) := rfl
  rw [hshape, trim_render e h, Bool.eq_iff_iff, containsChars_iff,
    needle_infix_entry_iff _ _ hu hr, beq_iff_eq, String.ext_iff]

theorem comma_not_mem_render (e : LinkEntry) (h : e.ordinary = true) : ',' ∉ e.render.data := by
  obtain ⟨hpre, hurl, hrel, hpost⟩ := (ordinary_iff e).mp h
  have hsp : isSpace ',' = false := by decide
  have h1 : ',' ∉ e.pre.data := fun hm => by simp [hpre _ hm] at hsp
  have h2 : ',' ∉ e.url.data := fun hm => (hurl _ hm).1 rfl
  have h3 : ',' ∉ e.rel.data := fun hm => (hrel _ hm).1 rfl
  have h4 : ',' ∉ e.post.data := fun hm => by simp [hpost _ hm] at hsp
  rw [render_data]
  simp [h1, h2, h3, h4]

theorem renderHeader_data (es : List LinkEntry) :
    (renderHeader es).data = [','].intercalate (es.map (fun e => e.render.data)) := by
  unfold renderHeader
  rw [intercalate_data, List.map_map]
  rfl

theorem renderHeader_ne_empty (e : LinkEntry) (es : List LinkEntry) :
    renderHeader (e :: es) ≠ "" := by
  intro h
  have hd := congrArg String.data h
  rw [renderHeader_data, List.map_cons, intercalate_cons_eq, render_data] at hd
  simp at hd

theorem split_renderHeader (es : List LinkEntry) (hne : es ≠ [])
    (h : ∀ e ∈ es, e.ordinary = true) :
    strings.Split (renderHeader es) "," = es.map LinkEntry.render := by
  have hsep : ("," : String) ≠ "" := by decide
  have hshape : strings.Split (renderHeader es) ","
      = (strings.splitChars [','] (renderHeader es).data.length (renderHeader es).data).map
          String.mk := by
    unfold strings.Split
    rw [if_neg hsep]
    rfl
  rw [hshape, splitChars_single _ _ _ (Nat.le_refl _), renderHeader_data,
    List.splitOn_intercalate]
  · simp [List.map_map, Function.comp_def]
  · intro l hl
    obtain ⟨e, he, rfl⟩ := List.mem_map.mp hl
    exact comma_not_mem_render e (h e he)
  · simpa using hne

theorem parseLinkHeader_renderHeader (es : List LinkEntry) (h : ∀ e ∈ es, e.ordinary = true) :
    parseLinkHeader (renderHeader es) = es.any (fun e => e.rel == "next") := by
  cases es with
  | nil => rfl
  | cons e rest =>
    unfold parseLinkHeader
    rw [if_neg (renderHeader_ne_empty e rest), split_renderHeader _ (by simp) h,
      Bool.eq_iff_iff, List.any_eq_true, List.any_eq_true]
    constructor
    · rintro ⟨x, hx, hc⟩
      obtain ⟨y, hy, rfl⟩ := List.mem_map.mp hx
      exact ⟨y, hy, by rw [← contains_trim_render y (h y hy)]; exact hc⟩
    · rintro ⟨x, hx, hc⟩
      exact ⟨x.render, List.mem_map_of_mem _ hx, by
        rw [contains_trim_render x (h x hx)]; exact hc⟩

/-! ## Lemmas on the collector loop -/

theorem wrapInt64_id (x : Int) (h1 : -9223372036854775808 ≤ x) (h2 : x < 9223372036854775808) :
    wrapInt64 x = x := by
  unfold wrapInt64
  omega

theorem scrapeLoop_continue (lib : Lib) (gs : GitHubScraper) (format name : String) (fuel : Nat)
    (page : Int) (acc : Slice Repository) (req : List String)
    (hok : (fetchReposPage lib gs (pageURL format gs name page)).2.2 = none)
    (hgo : stopsAfter (fetchReposPage lib gs (pageURL format gs name page)) = false) :
    scrapeLoop lib gs format name (fuel + 1) page acc req
      = scrapeLoop lib gs format name fuel (wrapInt64 (page + 1))
          (acc.append (fetchReposPage lib gs (pageURL format gs name page)).1)
          (req ++ [pageURL format gs name page]) := by
  rw [scrapeLoop]
  rcases hfr : fetchReposPage lib gs (pageURL format gs name page) with ⟨recs, more, err⟩
  rw [hfr] at hok hgo
  simp only at hok
  subst hok
  simp only [stopsAfter] at hgo
  simp only [hgo]
  rfl

theorem scrapeLoop_stop (lib : Lib) (gs : GitHubScraper) (format name : String) (fuel : Nat)
    (page : Int) (acc : Slice Repository) (req : List String)
    (hok : (fetchReposPage lib gs (pageURL format gs name page)).2.2 = none)
    (hstop : stopsAfter (fetchReposPage lib gs (pageURL format gs name page)) = true) :
    scrapeLoop lib gs format name (fuel + 1) page acc req
      = some { requested := req ++ [pageURL format gs name page],
               repos := acc.append (fetchReposPage lib gs (pageURL format gs name page)).1,
               err := none } := by
  rw [scrapeLoop]
  rcases hfr : fetchReposPage lib gs (pageURL format gs name page) with ⟨recs, more, err⟩
  rw [hfr] at hok hstop
  simp only at hok
  subst hok
  simp only [stopsAfter] at hstop
  simp only [hstop]
  rfl

theorem scrapeLoop_fail (lib : Lib) (gs : GitHubScraper) (format name : String) (fuel : Nat)
    (page : Int) (acc : Slice Repository) (req : List String) (e : String)
    (hfail : (fetchReposPage lib gs (pageURL format gs name page)).2.2 = some e) :
    scrapeLoop lib gs format name (fuel + 1) page acc req
      = some { requested := req ++ [pageURL format gs name page], repos := .nil,
               err := some e } := by
  rw [scrapeLoop]
  rcases hfr : fetchReposPage lib gs (pageURL format gs name page) with ⟨recs, more, err⟩
  rw [hfr] at hfail
  simp only at hfail
  subst hfail
  rfl

theorem urlsFrom_succ_last (format : String) (gs : GitHubScraper) (name : String) (n : Nat)
    (page : Int) :
    urlsFrom format gs name page (n + 1)
      = urlsFrom format gs name page n ++ [pageURL format gs name (page + n)] := by
  induction n generalizing page with
  | zero => simp [urlsFrom]
  | succ k ih =>
    have hidx : page + 1 + (k : Int) = page + ((k + 1 : Nat) : Int) := by push_cast; ring
    rw [urlsFrom, ih (page + 1), hidx]
    rfl

theorem appendPages_succ_last (lib : Lib) (gs : GitHubScraper) (format name : String) (n : Nat)
    (acc : Slice Repository) (page : Int) :
    appendPages lib gs format name acc page (n + 1)
      = (appendPages lib gs format name acc page n).append
          (fetchReposPage lib gs (pageURL format gs name (page + n))).1 := by
  induction n generalizing acc page with
  | zero => simp [appendPages]
  | succ k ih =>
    have hidx : page + 1 + (k : Int) = page + ((k + 1 : Nat) : Int) := by push_cast; ring
    rw [appendPages, ih _ (page + 1), hidx]
    rfl

theorem urlsFrom_eq_map (format : String) (gs : GitHubScraper) (name : String) (n : Nat)
    (page : Int) :
    urlsFrom format gs name page n
      = (List.range n).map (fun (i : Nat) => pageURL format gs name (page + (i : Int))) := by
  induction n with
  | zero => rfl
  | succ k ih => rw [urlsFrom_succ_last, ih, List.range_succ, List.map_append]; rfl

theorem appendPages_toList (lib : Lib) (gs : GitHubScraper) (format name : String) (n : Nat)
    (acc : Slice Repository) (page : Int) :
    (appendPages lib gs format name acc page n).toList
      = acc.toList ++ (List.range n).flatMap
          (fun (i : Nat) => (fetchReposPage lib gs (pageURL format gs name (page + (i : Int)))).1) := by
  induction n with
  | zero => simp [appendPages]
  | succ k ih =>
    rw [appendPages_succ_last, Slice.toList_append, ih, List.range_succ, List.flatMap_append]
    simp

theorem scrapeLoop_advance (lib : Lib) (gs : GitHubScraper) (format name : String) (n : Nat) :
    ∀ (fuel : Nat) (page : Int) (acc : Slice Repository) (req : List String),
      1 ≤ page → page + (n : Int) < 9223372036854775808 →
      (∀ i : Nat, i < n →
        (fetchReposPage lib gs (pageURL format gs name (page + (i : Int)))).2.2 = none
        ∧ stopsAfter (fetchReposPage lib gs (pageURL format gs name (page + (i : Int)))) = false) →
      scrapeLoop lib gs format name (fuel + n) page acc req
        = scrapeLoop lib gs format name fuel (page + (n : Int))
            (appendPages lib gs format name acc page n) (req ++ urlsFrom format gs name page n) := by
  induction n with
  | zero =>
    intro fuel page acc req _ _ _
    simp [appendPages, urlsFrom]
  | succ k ih =>
    intro fuel page acc req h1 h2 hcont
    have h0 := hcont 0 (Nat.succ_pos k)
    simp only [Nat.cast_zero, add_zero] at h0
    have hwrap : wrapInt64 (page + 1) = page + 1 := by
      apply wrapInt64_id <;> push_cast at h2 <;> omega
    have hfuel : fuel + (k + 1) = (fuel + k) + 1 := by omega
    have hidx : page + 1 + (k : Int) = page + ((k + 1 : Nat) : Int) := by push_cast; ring
    rw [hfuel, scrapeLoop_continue lib gs format name (fuel + k) page acc req h0.1 h0.2, hwrap,
      ih fuel (page + 1) _ _ (by omega) (by push_cast at h2; omega)
        (fun i hi => by
          have hi2 := hcont (i + 1) (by omega)
          have hix : page + 1 + (i : Int) = page + ((i + 1 : Nat) : Int) := by push_cast; ring
          rw [hix]
          exact hi2),
      hidx]
    simp [appendPages, urlsFrom]

theorem scrape_eq_loop (e : EntryPoint) (lib : Lib) (gs : GitHubScraper) (name : String)
    (fuel : Nat) :
    e.scrape lib gs name fuel = scrapeLoop lib gs e.format name fuel 1 .nil [] := by
  cases e <;> rfl

theorem scrapeLoop_stops_at (lib : Lib) (gs : GitHubScraper) (format name : String)
    (n fuel : Nat) (hfuel : n + 1 ≤ fuel) (hbound : ((n + 1 : Nat) : Int) < 9223372036854775808)
    (hcont : ∀ i : Nat, i < n →
      (fetchReposPage lib gs (pageURL format gs name (1 + (i : Int)))).2.2 = none
      ∧ stopsAfter (fetchReposPage lib gs (pageURL format gs name (1 + (i : Int)))) = false)
    (hok : (fetchReposPage lib gs (pageURL format gs name (1 + (n : Int)))).2.2 = none)
    (hstop : stopsAfter (fetchReposPage lib gs (pageURL format gs name (1 + (n : Int)))) = true) :
    scrapeLoop lib gs format name fuel 1 .nil []
      = some { requested := urlsFrom format gs name 1 (n + 1),
               repos := appendPages lib gs format name .nil 1 (n + 1), err := none } := by
  obtain ⟨f, rfl⟩ : ∃ f, fuel = (f + 1) + n := ⟨fuel - n - 1, by omega⟩
  rw [scrapeLoop_advance lib gs format name n (f + 1) 1 .nil [] (le_refl 1)
      (by push_cast at hbound; omega) hcont,
    scrapeLoop_stop lib gs format name f _ _ _ hok hstop, urlsFrom_succ_last,
    appendPages_succ_last]
  simp

theorem scrapeLoop_fails_at (lib : Lib) (gs : GitHubScraper) (format name : String)
    (n fuel : Nat) (hfuel : n + 1 ≤ fuel) (hbound : ((n + 1 : Nat) : Int) < 9223372036854775808)
    (err : String)
    (hcont : ∀ i : Nat, i < n →
      (fetchReposPage lib gs (pageURL format gs name (1 + (i : Int)))).2.2 = none
      ∧ stopsAfter (fetchReposPage lib gs (pageURL format gs name (1 + (i : Int)))) = false)
    (hfail : (fetchReposPage lib gs (pageURL format gs name (1 + (n : Int)))).2.2 = some err) :
    scrapeLoop lib gs format name fuel 1 .nil []
      = some { requested := urlsFrom format gs name 1 (n + 1), repos := .nil,
               err := some err } := by
  obtain ⟨f, rfl⟩ : ∃ f, fuel = (f + 1) + n := ⟨fuel - n - 1, by omega⟩
  rw [scrapeLoop_advance lib gs format name n (f + 1) 1 .nil [] (le_refl 1)
      (by push_cast at hbound; omega) hcont,
    scrapeLoop_fail lib gs format name f _ _ _ err hfail, urlsFrom_succ_last]
  simp

theorem urlsFrom_one (format : String) (gs : GitHubScraper) (name : String) (n : Nat) :
    urlsFrom format gs name 1 n
      = (List.range n).map (fun (i : Nat) => pageURL format gs name ((i : Int) + 1)) := by
  rw [urlsFrom_eq_map]
  exact List.map_congr_left (fun i _ => by rw [add_comm])

theorem appendPages_one_toList (lib : Lib) (gs : GitHubScraper) (format name : String)
    (n : Nat) :
    (appendPages lib gs format name .nil 1 n).toList
      = (List.range n).flatMap
          (fun (i : Nat) => (fetchReposPage lib gs (pageURL format gs name ((i : Int) + 1))).1) := by
  rw [appendPages_toList]
  simp only [Slice.toList, List.nil_append]
  congr 1
  funext i
  rw [add_comm]

theorem sprintf_status (code : Int) (body : String) :
    Sprintf "API request failed with status code %d: %s" [.int code, .str body]
      = "API request failed with status code " ++ formatInt code ++ ": " ++ body := by
  have h : (Sprintf "API request failed with status code %d: %s" [.int code, .str body]).data
      = "API request failed with status code ".data
          ++ ((formatInt code).data ++ (": ".data ++ (body.data ++ []))) := rfl
  apply String.ext
  rw [h]
  simp only [String.data_append, List.append_assoc, List.append_nil]

theorem fetch_of_serves (lib : Lib) (gs : GitHubScraper) (url : String) (p : ServedPage)
    (hs : serves lib gs url p) (hord : ∀ x ∈ p.links, x.ordinary = true) :
    fetchReposPage lib gs url = (p.records, p.hasNext, none) := by
  obtain ⟨h1, h2⟩ := hs
  unfold fetchReposPage
  rw [h1]
  simp only [ne_eq, not_true_eq_false, if_false, h2]
  rw [parseLinkHeader_renderHeader p.links hord]
  rfl

/-! ## Lemmas on the CSV writer -/

theorem replaceChars_quote (fuel : Nat) (s : List Char) (h : s.length ≤ fuel) :
    strings.replaceChars ['"'] ['"', '"'] fuel s
      = s.flatMap (fun c => if c = '"' then ['"', '"'] else [c]) := by
  induction s generalizing fuel with
  | nil => cases fuel <;> rfl
  | cons c cs ih =>
    cases fuel with
    | zero => simp at h
    | succ n =>
      have hlen : cs.length ≤ n := by simpa using h
      by_cases hc : c = '"'
      · subst hc
        simp [strings.replaceChars, ih n hlen]
      · have hc2 : ¬ '"' = c := fun e => hc e.symm
        simp [strings.replaceChars, ih n hlen, hc, hc2]

theorem replaceAll_quote (s : String) :
    strings.ReplaceAll s "\"" "\"\""
      = String.mk (s.toList.flatMap (fun c => if c = '"' then ['"', '"'] else [c])) := by
  have h1 : ("\"" : String) ≠ "\"\"" := by decide
  have h2 : ("\"" : String) ≠ "" := by decide
  unfold strings.ReplaceAll
  rw [if_neg h1, if_neg h2]
  exact congrArg String.mk (replaceChars_quote _ _ (Nat.le_refl _))

theorem quotedCell_eq (s : String) :
    quotedCell s = "\"" ++ strings.ReplaceAll s "\"" "\"\"" ++ "\"" := by
  rw [replaceAll_quote]
  rfl

theorem csvRow_data (r : Repository) :
    (csvRow r).data =
      (r.Name.data ++ (',' ::
      (r.FullName.data ++ (',' ::
      ('"' :: ((strings.ReplaceAll r.Description "\"" "\"\"").data ++
      ('"' :: ',' :: (r.Language.data ++ (',' ::
      ((formatInt r.Stars).data ++ (',' ::
      ((formatInt r.Forks).data ++ (',' ::
      (r.CloneURL.data ++ (',' ::
      (r.HTMLURL.data ++ (',' ::
      (r.CreatedAt.data ++ (',' ::
      (r.UpdatedAt.data ++ (',' ::
      ((formatBool r.Private).data ++ (',' ::
      ((formatBool r.Fork).data ++ (',' ::
      ((formatBool r.Archived).data ++ ['\n'])))))))))))))))))))))))))) := rfl

theorem csvRow_eq_cells (r : Repository) :
    csvRow r = ",".intercalate (specCells r) ++ "\n" := by
  apply String.ext
  rw [csvRow_data, String.data_append, intercalate_data]
  simp only [specCells, quotedCell_eq]
  simp [List.intercalate, List.intersperse, String.data_append]

theorem join_cons (a : String) (l : List String) : String.join (a :: l) = a ++ String.join l := by
  have hgen : ∀ (l : List String) (acc : String),
      l.foldl (fun r s => r ++ s) acc = acc ++ l.foldl (fun r s => r ++ s) "" := by
    intro l
    induction l with
    | nil => intro acc; simp
    | cons b t ih =>
      intro acc
      rw [List.foldl_cons, List.foldl_cons, ih (acc ++ b), ih ("" ++ b)]
      simp [String.append_assoc]
  unfold String.join
  rw [List.foldl_cons, hgen l ("" ++ a)]
  simp

theorem writeRows_ok (fs : FileSystem) (hw : ∀ k, fs.writeError k = none)
    (repos : List Repository) (k : Nat) (content : String) :
    writeRows fs repos k content
      = { file := some (content ++ String.join (repos.map csvRow)), err := none } := by
  induction repos generalizing k content with
  | nil => simp [writeRows, String.join]
  | cons r rest ih =>
    rw [writeRows, hw k]
    simp only
    rw [ih, List.map_cons, join_cons, String.append_assoc]

theorem saveToCSV_ok (fs : FileSystem) (repos : List Repository) (filename : String)
    (hc : fs.createError filename = none) (hw : ∀ k, fs.writeError k = none) :
    SaveToCSV fs repos filename
      = { file := some (csvHeader ++ String.join (repos.map csvRow)), err := none } := by
  unfold SaveToCSV
  rw [hc, hw 0]
  exact writeRows_ok fs hw repos 1 csvHeader

theorem firstLine_csvHeader_append (rest : String) :
    firstLine (csvHeader ++ rest)
      = "Name,Full Name,Description,Language,Stars,Focks,Clone URL,HTML URL,Created At,Updated At,Private,Fork,Archived" := by
  have hsplit : csvHeader.data
      = "Name,Full Name,Description,Language,Stars,Focks,Clone URL,HTML URL,Created At,Updated At,Private,Fork,Archived".data
          ++ '\n' :: [] := by decide
  have hno : ∀ c ∈ "Name,Full Name,Description,Language,Stars,Focks,Clone URL,HTML URL,Created At,Updated At,Private,Fork,Archived".data,
      (fun c => c != '\n') c = true := by decide
  apply String.ext
  show List.takeWhile (fun c => c != '\n') (csvHeader ++ rest).data = _
  rw [String.data_append, hsplit, List.append_assoc, List.takeWhile_append_of_pos hno]
  simp

/-! ## Lemmas on `%d` -/

theorem digitChar_spec (k : Nat) (hk : k < 10) :
    isDigit (Nat.digitChar k) = true ∧ (Nat.digitChar k).toNat - 48 = k := by
  interval_cases k <;> decide

theorem decimalValue_append (xs : List Char) (c : Char) :
    decimalValue (xs ++ [c]) = 10 * decimalValue xs + (c.toNat - 48) := by
  simp [decimalValue, List.foldl_append]

theorem toDigitsCore_spec (fuel : Nat) : ∀ (n : Nat) (ds : List Char), n < fuel →
    ∃ xs : List Char, Nat.toDigitsCore 10 fuel n ds = xs ++ ds ∧ xs ≠ []
      ∧ xs.all isDigit = true ∧ decimalValue xs = n := by
  induction fuel with
  | zero => intro n ds h; omega
  | succ f ih =>
    intro n ds h
    obtain ⟨hd1, hd2⟩ := digitChar_spec (n % 10) (Nat.mod_lt _ (by decide))
    by_cases h0 : n / 10 = 0
    · refine ⟨[Nat.digitChar (n % 10)], ?_, by simp, by simp [hd1], ?_⟩
      · simp [Nat.toDigitsCore, h0]
      · simp only [decimalValue, List.foldl_cons, List.foldl_nil, Nat.mul_zero, Nat.zero_add, hd2]
        omega
    · obtain ⟨xs, hx1, _, hx3, hx4⟩ := ih (n / 10) (Nat.digitChar (n % 10) :: ds) (by omega)
      refine ⟨xs ++ [Nat.digitChar (n % 10)], ?_, by simp, ?_, ?_⟩
      · simp [Nat.toDigitsCore, h0, hx1]
      · simp [List.all_append, hx3, hd1]
      · rw [decimalValue_append, hx4, hd2]
        omega

theorem toDigits_spec (n : Nat) :
    (Nat.toDigits 10 n) ≠ [] ∧ (Nat.toDigits 10 n).all isDigit = true
      ∧ decimalValue (Nat.toDigits 10 n) = n := by
  obtain ⟨xs, h1, h2, h3, h4⟩ := toDigitsCore_spec (n + 1) n [] (Nat.lt_succ_self n)
  unfold Nat.toDigits
  rw [h1, List.append_nil]
  exact ⟨h2, h3, h4⟩

theorem readDecimal_formatInt (n : Int) : readDecimal (formatInt n) = some n := by
  cases n with
  | ofNat m =>
    obtain ⟨h1, h2, h3⟩ := toDigits_spec m
    have hshape : (formatInt (Int.ofNat m)).toList = Nat.toDigits 10 m := rfl
    unfold readDecimal
    rw [hshape]
    cases hd : Nat.toDigits 10 m with
    | nil => exact absurd hd h1
    | cons c ds =>
      rw [hd] at h2 h3
      have hc : c ≠ '-' := by
        intro hc
        subst hc
        simp [isDigit] at h2
      simp only [hc, if_false, h2, if_true, h3]
      rfl
  | negSucc m =>
    obtain ⟨h1, h2, h3⟩ := toDigits_spec (m + 1)
    have hshape : (formatInt (Int.negSucc m)).toList = '-' :: Nat.toDigits 10 (m + 1) := rfl
    unfold readDecimal
    rw [hshape]
    simp only [if_true, ne_eq, h1, not_false_eq_true, h2, and_self, h3]
    rfl

/-! ## Lemmas on the slice returned by `FilterRepos` -/

theorem foldl_filterStep_sliceOf (p f a : Bool) (repos : List Repository) (l : List Repository) :
    repos.foldl (filterStep p f a) (sliceOf l) = sliceOf (l ++ repos.filter (survives p f a)) := by
  induction repos generalizing l with
  | nil => simp
  | cons r rest ih =>
    have hstep : filterStep p f a (sliceOf l) r
        = sliceOf (l ++ (if survives p f a r then [r] else [])) := by
      cases p <;> cases f <;> cases a <;>
        cases hP : r.Private <;> cases hF : r.Fork <;> cases hA : r.Archived <;>
        cases l <;> simp [filterStep, survives, hP, hF, hA, sliceOf, Slice.append, Slice.toList]
    rw [List.foldl_cons, hstep, ih, List.filter_cons]
    cases survives p f a r <;> simp

theorem FilterRepos_eq_sliceOf (p f a : Bool) (repos : List Repository) :
    FilterRepos repos p f a = sliceOf (repos.filter (survives p f a)) := by
  have h := foldl_filterStep_sliceOf p f a repos []
  simpa [FilterRepos, sliceOf] using h

theorem sliceOf_toList (l : List Repository) : (sliceOf l).toList = l := by
  cases l <;> rfl

/-! ## Lemmas on `PrintSummary` -/

theorem wrapInt64_add (a b : Int) : wrapInt64 (wrapInt64 a + b) = wrapInt64 (a + b) := by
  unfold wrapInt64
  omega

theorem wrapInt64_idem (a : Int) : wrapInt64 (wrapInt64 a) = wrapInt64 a := by
  unfold wrapInt64
  omega

theorem summary_totalStars (l : List Repository) :
    (summaryLoop l).totalStars = wrapInt64 (l.map (fun r => r.Stars)).sum := by
  induction l using List.reverseRecOn with
  | nil => decide
  | append_singleton l r ih =>
    simp only [summaryLoop, List.foldl_append, List.foldl_cons, List.foldl_nil] at ih ⊢
    simp only [summaryStep, ih, wrapInt64_add, List.map_append, List.sum_append, List.map_cons,
      List.map_nil, List.sum_cons, List.sum_nil, add_zero]

theorem summary_totalForks (l : List Repository) :
    (summaryLoop l).totalForks = wrapInt64 (l.map (fun r => r.Forks)).sum := by
  induction l using List.reverseRecOn with
  | nil => decide
  | append_singleton l r ih =>
    simp only [summaryLoop, List.foldl_append, List.foldl_cons, List.foldl_nil] at ih ⊢
    simp only [summaryStep, ih, wrapInt64_add, List.map_append, List.sum_append, List.map_cons,
      List.map_nil, List.sum_cons, List.sum_nil, add_zero]

theorem summary_counts (l : List Repository) :
    (summaryLoop l).privateCount = wrapInt64 (l.countP (fun r => r.Private))
      ∧ (summaryLoop l).forkCount = wrapInt64 (l.countP (fun r => r.Fork))
      ∧ (summaryLoop l).archivedCount = wrapInt64 (l.countP (fun r => r.Archived)) := by
  induction l using List.reverseRecOn with
  | nil => decide
  | append_singleton l r ih =>
    simp only [summaryLoop, List.foldl_append, List.foldl_cons, List.foldl_nil] at ih ⊢
    obtain ⟨h1, h2, h3⟩ := ih
    simp only [summaryStep, h1, h2, h3, List.countP_append, List.countP_cons, List.countP_nil]
    refine ⟨?_, ?_, ?_⟩
    · cases r.Private <;> simp [wrapInt64_add]
    · cases r.Fork <;> simp [wrapInt64_add]
    · cases r.Archived <;> simp [wrapInt64_add]

theorem summary_languages_snoc (l : List Repository) (r : Repository) :
    (summaryLoop (l ++ [r])).languages
      = if r.Language != "" then mapIncr (summaryLoop l).languages r.Language
        else (summaryLoop l).languages := by
  simp only [summaryLoop, List.foldl_append, List.foldl_cons, List.foldl_nil, summaryStep]

theorem lookup_cons_eq (k0 : String) (v0 : Int) (rest : List (String × Int)) (x : String) :
    ((k0, v0) :: rest).lookup x = if x = k0 then some v0 else rest.lookup x := by
  by_cases h : x = k0
  · subst h; simp [List.lookup]
  · have hb : (x == k0) = false := by simpa using h
    simp [List.lookup, hb, h]

theorem lookup_mapIncr (m : List (String × Int)) (k x : String) :
    (mapIncr m k).lookup x
      = if x = k then some (wrapInt64 ((m.lookup k).getD 0 + 1)) else m.lookup x := by
  induction m with
  | nil =>
    rw [mapIncr, lookup_cons_eq]
    simp [List.lookup]
  | cons kv rest ih =>
    obtain ⟨k0, v0⟩ := kv
    by_cases hk : k0 = k
    · subst hk
      simp only [mapIncr, if_true, lookup_cons_eq, Option.getD_some]
      by_cases h : x = k0
      · simp [h]
      · simp [h]
    · have hk2 : ¬ k = k0 := fun e => hk e.symm
      simp only [mapIncr, hk, if_false, lookup_cons_eq, ih, hk2]
      by_cases h : x = k
      · subst h; simp [hk2]
      · simp [h]

theorem keys_mapIncr (m : List (String × Int)) (k : String) :
    (mapIncr m k).map Prod.fst
      = if k ∈ m.map Prod.fst then m.map Prod.fst else m.map Prod.fst ++ [k] := by
  induction m with
  | nil => simp [mapIncr]
  | cons kv rest ih =>
    obtain ⟨k0, v0⟩ := kv
    by_cases hk : k0 = k
    · subst hk; simp [mapIncr]
    · have hk2 : ¬ k = k0 := fun e => hk e.symm
      simp only [mapIncr, hk, if_false, List.map_cons, ih, List.mem_cons, hk2, false_or]
      split <;> simp

theorem nodup_keys_mapIncr (m : List (String × Int)) (k : String)
    (h : (m.map Prod.fst).Nodup) : ((mapIncr m k).map Prod.fst).Nodup := by
  rw [keys_mapIncr]
  split
  · exact h
  · rename_i hk
    exact List.Nodup.append h (List.nodup_singleton k) (by simpa using hk)

theorem values_mapIncr (m : List (String × Int)) (k : String)
    (h : ∀ kv ∈ m, 1 ≤ kv.2 ∧ kv.2 + 1 < 9223372036854775808) :
    ((mapIncr m k).map Prod.snd).sum = (m.map Prod.snd).sum + 1
      ∧ ∀ kv ∈ mapIncr m k, 1 ≤ kv.2 := by
  induction m with
  | nil =>
    have hw : wrapInt64 (0 + 1) = 1 := by decide
    refine ⟨by simp only [mapIncr, hw]; rfl, ?_⟩
    intro kv hkv
    simp only [mapIncr, List.mem_singleton] at hkv
    subst hkv
    simp only [hw]
    exact le_refl 1
  | cons kv rest ih =>
    obtain ⟨k0, v0⟩ := kv
    have h0 := h (k0, v0) (List.mem_cons_self _ _)
    have hrest : ∀ kv ∈ rest, 1 ≤ kv.2 ∧ kv.2 + 1 < 9223372036854775808 :=
      fun kv hkv => h kv (List.mem_cons_of_mem _ hkv)
    obtain ⟨ih1, ih2⟩ := ih hrest
    by_cases hk : k0 = k
    · have hw : wrapInt64 (v0 + 1) = v0 + 1 := by
        apply wrapInt64_id <;> simp only at h0 <;> omega
      simp only [mapIncr, hk, if_true, List.map_cons, List.sum_cons, hw]
      refine ⟨by ring, ?_⟩
      intro kv hkv
      rcases List.mem_cons.mp hkv with e | e
      · subst e; simp only at h0 ⊢; omega
      · exact (hrest kv e).1
    · simp only [mapIncr, hk, if_false, List.map_cons, List.sum_cons, ih1]
      refine ⟨by ring, ?_⟩
      intro kv hkv
      rcases List.mem_cons.mp hkv with e | e
      · subst e; exact h0.1
      · exact ih2 kv e

theorem languageCount_snoc (l : List Repository) (r : Repository) (x : String) :
    languageCount (l ++ [r]) x = languageCount l x + (if r.Language = x then 1 else 0) := by
  simp [languageCount, List.countP_append, List.countP_cons]

theorem languageCount_le (l : List Repository) (x : String) : languageCount l x ≤ l.length :=
  List.countP_le_length _

theorem summary_languages (l : List Repository) :
    (l.length : Int) < 9223372036854775808 →
    (∀ lang : String, (summaryLoop l).languages.lookup lang
        = if lang ≠ "" ∧ 0 < languageCount l lang then some (languageCount l lang : Int)
          else none)
      ∧ ((summaryLoop l).languages.map Prod.fst).Nodup
      ∧ (∀ kv ∈ (summaryLoop l).languages, 1 ≤ kv.2)
      ∧ ((summaryLoop l).languages.map Prod.snd).sum
          = ((l.countP (fun r => r.Language != "") : Nat) : Int) := by
  induction l using List.reverseRecOn with
  | nil =>
    intro _
    refine ⟨fun lang => by simp [summaryLoop, summaryInit, languageCount], ?_, ?_, ?_⟩ <;>
      simp [summaryLoop, summaryInit]
  | append_singleton l r ih =>
    intro hlen
    have hl : (l.length : Int) + 1 < 9223372036854775808 := by
      simpa using hlen
    obtain ⟨h1, h2, h3, h4⟩ := ih (by omega)
    rw [summary_languages_snoc]
    by_cases hr : r.Language = ""
    · have hb : (r.Language != "") = false := by simp [hr]
      simp only [hb, Bool.false_eq_true, if_false]
      refine ⟨?_, h2, h3, ?_⟩
      · intro lang
        rw [h1 lang, languageCount_snoc]
        by_cases hx : lang = ""
        · simp [hx]
        · have hne : ¬ r.Language = lang := by rw [hr]; exact fun e => hx e.symm
          simp [hne]
      · rw [h4]
        simp [List.countP_append, List.countP_cons, hr]
    · have hb : (r.Language != "") = true := by simp [hr]
      simp only [hb, if_true]
      have hcnt : ((l.countP (fun r => r.Language != "") : Nat) : Int) ≤ (l.length : Int) := by
        exact_mod_cast List.countP_le_length _
      have hbound : ∀ kv ∈ (summaryLoop l).languages,
          1 ≤ kv.2 ∧ kv.2 + 1 < 9223372036854775808 := by
        intro kv hkv
        have hnn : ∀ v ∈ (summaryLoop l).languages.map Prod.snd, (0 : Int) ≤ v := by
          intro v hv
          obtain ⟨kv2, hkv2, rfl⟩ := List.mem_map.mp hv
          have := h3 kv2 hkv2
          omega
        have hle := List.single_le_sum hnn kv.2 (List.mem_map_of_mem _ hkv)
        rw [h4] at hle
        exact ⟨h3 kv hkv, by omega⟩
      obtain ⟨hv1, hv2⟩ := values_mapIncr (summaryLoop l).languages r.Language hbound
      refine ⟨?_, nodup_keys_mapIncr _ _ h2, hv2, ?_⟩
      · intro lang
        rw [lookup_mapIncr, languageCount_snoc]
        have hc := languageCount_le l r.Language
        by_cases hx : lang = r.Language
        · rw [hx]
          have hget : (((summaryLoop l).languages.lookup r.Language).getD 0 : Int)
              = (languageCount l r.Language : Int) := by
            rw [h1 r.Language]
            by_cases hpos : 0 < languageCount l r.Language
            · simp [hr, hpos]
            · have hz : languageCount l r.Language = 0 := by omega
              simp [hz]
          have hw : wrapInt64 ((languageCount l r.Language : Int) + 1)
              = (languageCount l r.Language : Int) + 1 := by
            apply wrapInt64_id <;> omega
          simp [hget, hw, hr]
        · have hne : ¬ r.Language = lang := fun e => hx e.symm
          simp only [hx, if_false, hne, Nat.add_zero]
          exact h1 lang
      · rw [hv1, h4]
        simp [List.countP_append, List.countP_cons, hr]

/-! ## Lemmas on the option loop -/

theorem parseOptions_cons (a : String) (rest : List String) (o : Options) :
    parseOptions (a :: rest) o =
      if a = "--token" then
        match rest with
        | [] => o
        | v :: rest2 => parseOptions rest2 { o with token := v }
      else if a = "--ouput" then
        match rest with
        | [] => o
        | v :: rest2 => parseOptions rest2 { o with outputFormat := v }
      else if a = "--include-private" then parseOptions rest { o with includePrivate := true }
      else if a = "--include-forks" then parseOptions rest { o with includeForks := false }
      else if a = "--include-archived" then parseOptions rest { o with includeArchived := true }
      else parseOptions rest o := by
  conv_lhs => unfold parseOptions

theorem parseOptions_format_aux (n : Nat) : ∀ (args : List String) (o : Options),
    args.length ≤ n → "--ouput" ∉ args → (parseOptions args o).outputFormat = o.outputFormat := by
  induction n with
  | zero =>
    intro args o hlen _
    have : args = [] := List.length_eq_zero.mp (Nat.le_zero.mp hlen)
    subst this
    rfl
  | succ n ih =>
    intro args o hlen hno
    cases args with
    | nil => rfl
    | cons a rest =>
      have hlen2 : rest.length ≤ n := by simpa using hlen
      have ha : ¬ a = "--ouput" := fun e => hno (by simp [e])
      have hrest : "--ouput" ∉ rest := fun hm => hno (List.mem_cons_of_mem _ hm)
      rw [parseOptions_cons]
      split_ifs
      · cases rest with
        | nil => rfl
        | cons v rest2 =>
          exact ih rest2 _ (by simp at hlen2; omega) (fun hm => hrest (List.mem_cons_of_mem _ hm))
      · exact ih rest _ hlen2 hrest
      · exact ih rest _ hlen2 hrest
      · exact ih rest _ hlen2 hrest
      · exact ih rest _ hlen2 hrest

theorem parseOptions_private_aux (n : Nat) : ∀ (args : List String) (o : Options),
    args.length ≤ n → o.includePrivate = true → (parseOptions args o).includePrivate = true := by
  induction n with
  | zero =>
    intro args o hlen h
    have : args = [] := List.length_eq_zero.mp (Nat.le_zero.mp hlen)
    subst this
    exact h
  | succ n ih =>
    intro args o hlen h
    cases args with
    | nil => exact h
    | cons a rest =>
      have hlen2 : rest.length ≤ n := by simpa using hlen
      rw [parseOptions_cons]
      split_ifs
      · cases rest with
        | nil => exact h
        | cons v rest2 => exact ih rest2 _ (by simp at hlen2; omega) h
      · cases rest with
        | nil => exact h
        | cons v rest2 => exact ih rest2 _ (by simp at hlen2; omega) h
      · exact ih rest _ hlen2 rfl
      · exact ih rest _ hlen2 h
      · exact ih rest _ hlen2 h
      · exact ih rest _ hlen2 h

theorem parseOptions_archived_aux (n : Nat) : ∀ (args : List String) (o : Options),
    args.length ≤ n → o.includeArchived = true → (parseOptions args o).includeArchived = true := by
  induction n with
  | zero =>
    intro args o hlen h
    have : args = [] := List.length_eq_zero.mp (Nat.le_zero.mp hlen)
    subst this
    exact h
  | succ n ih =>
    intro args o hlen h
    cases args with
    | nil => exact h
    | cons a rest =>
      have hlen2 : rest.length ≤ n := by simpa using hlen
      rw [parseOptions_cons]
      split_ifs
      · cases rest with
        | nil => exact h
        | cons v rest2 => exact ih rest2 _ (by simp at hlen2; omega) h
      · cases rest with
        | nil => exact h
        | cons v rest2 => exact ih rest2 _ (by simp at hlen2; omega) h
      · exact ih rest _ hlen2 h
      · exact ih rest _ hlen2 h
      · exact ih rest _ hlen2 rfl
      · exact ih rest _ hlen2 h

/-! ## Lemmas on the whole-header substring test -/

theorem dropWhile_keeps_tail (a t : List Char) (c : Char) (hc : isSpace c = false) :
    ∃ a2 : List Char, (a ++ c :: t).dropWhile isSpace = a2 ++ c :: t := by
  induction a with
  | nil => exact ⟨[], by simp [List.dropWhile, hc]⟩
  | cons x a1 ih =>
    by_cases hx : isSpace x = true
    · obtain ⟨a2, h2⟩ := ih
      exact ⟨a2, by simpa [List.dropWhile, hx] using h2⟩
    · exact ⟨x :: a1, by simp [List.dropWhile, hx]⟩

theorem trim_keeps_needle (n p : List Char) (c d : Char) (mid : List Char)
    (hn : n = c :: (mid ++ [d])) (hc : isSpace c = false) (hd : isSpace d = false)
    (h : n <:+: p) : n <:+: strings.trimSpaceChars p := by
  obtain ⟨a, b, hab⟩ := h
  subst hn
  unfold strings.trimSpaceChars
  obtain ⟨a2, h2⟩ := dropWhile_keeps_tail a ((mid ++ [d]) ++ b) c hc
  have hp : p = a ++ c :: ((mid ++ [d]) ++ b) := by rw [← hab]; simp
  rw [hp, h2]
  unfold List.rdropWhile
  have hrev : (a2 ++ c :: (mid ++ [d] ++ b)).reverse
      = b.reverse ++ d :: (mid.reverse ++ c :: a2.reverse) := by simp
  obtain ⟨b2, h3⟩ := dropWhile_keeps_tail b.reverse (mid.reverse ++ c :: a2.reverse) d hd
  rw [hrev, h3]
  exact ⟨a2, b2.reverse, by simp⟩

theorem trim_within (p : List Char) : strings.trimSpaceChars p <:+: p := by
  unfold strings.trimSpaceChars
  exact (List.rdropWhile_prefix isSpace _).isInfix.trans (List.dropWhile_suffix isSpace).isInfix

theorem contains_trim_needle (p : List Char) :
    strings.containsChars needleChars (strings.trimSpaceChars p)
      = strings.containsChars needleChars p := by
  rw [Bool.eq_iff_iff, containsChars_iff, containsChars_iff]
  constructor
  · intro h
    exact h.trans (trim_within p)
  · intro h
    exact trim_keeps_needle needleChars p 'r' '"' ['e', 'l', '=', '"', 'n', 'e', 'x', 't'] rfl
      (by decide) (by decide) h

theorem isPrefixOf_before_sep (n x r : List Char) (hn : ',' ∉ n) :
    n.isPrefixOf (x ++ ',' :: r) = n.isPrefixOf x := by
  induction n generalizing x with
  | nil => simp
  | cons a n2 ih =>
    have ha : ¬ a = ',' := fun e => hn (by simp [e])
    have hn2 : ',' ∉ n2 := fun hm => hn (List.mem_cons_of_mem _ hm)
    cases x with
    | nil => simp [List.isPrefixOf, ha]
    | cons y x2 => simp [List.isPrefixOf, ih x2 hn2]

theorem splitOn_head (cs : List Char) : ∀ (p : List Char) (ps : List (List Char)),
    cs.splitOn ',' = p :: ps → cs = p ∨ ∃ r, cs = p ++ ',' :: r := by
  induction cs with
  | nil =>
    intro p ps h
    simp [List.splitOn_nil] at h
    exact Or.inl h.1.symm
  | cons d ds ih =>
    intro p ps h
    unfold List.splitOn at h ih
    rw [List.splitOnP_cons] at h
    by_cases hd : d = ','
    · subst hd
      simp at h
      exact Or.inr ⟨ds, by simp [← h.1]⟩
    · have hb : (d == ',') = false := by simpa using hd
      simp only [hb, Bool.false_eq_true, if_false] at h
      cases hs : List.splitOnP (fun x => x == ',') ds with
      | nil => exact absurd hs (List.splitOnP_ne_nil _ _)
      | cons p2 ps2 =>
        rw [hs] at h
        simp only [List.modifyHead_cons, List.cons.injEq] at h
        rcases ih p2 ps2 hs with e | ⟨r, e⟩
        · exact Or.inl (by rw [← h.1, e])
        · exact Or.inr ⟨r, by rw [← h.1, e]; rfl⟩

theorem any_splitOn_contains (n : List Char) (c0 : Char) (n2 : List Char) (hn : n = c0 :: n2)
    (hcomma : ',' ∉ n) (s : List Char) :
    (s.splitOn ',').any (strings.containsChars n) = strings.containsChars n s := by
  have hnil : strings.containsChars n [] = false := by
    subst hn; simp [strings.containsChars, List.isPrefixOf]
  have hc0 : ¬ c0 = ',' := fun e => hcomma (by simp [hn, e])
  have hne : n ≠ [] := by subst hn; simp
  induction s with
  | nil => simp [List.splitOn_nil, hnil]
  | cons c cs ih =>
    unfold List.splitOn at ih ⊢
    rw [List.splitOnP_cons]
    by_cases hc : c = ','
    · subst hc
      have hpre : n.isPrefixOf (',' :: cs) = false := by
        subst hn; simp [List.isPrefixOf, hc0]
      simp [ih, hnil, strings.containsChars, hpre, hne]
    · have hb : (c == ',') = false := by simpa using hc
      simp only [hb, Bool.false_eq_true, if_false]
      cases hs : List.splitOnP (fun x => x == ',') cs with
      | nil => exact absurd hs (List.splitOnP_ne_nil _ _)
      | cons p ps =>
        rw [hs] at ih
        have hhead : n.isPrefixOf (c :: p) = n.isPrefixOf (c :: cs) := by
          rcases splitOn_head cs p ps hs with e | ⟨r, e⟩
          · rw [e]
          · rw [e]
            exact (isPrefixOf_before_sep n (c :: p) r hcomma).symm
        simp only [List.modifyHead_cons, List.any_cons, strings.containsChars, hhead]
        simp only [List.any_cons] at ih
        rw [Bool.or_assoc, ih]

/-! ## Lemmas on reading a CSV row -/

theorem readRow_plain_run (p cur : List Char) (done : List String) (rest : List Char)
    (hp : ∀ c ∈ p, c ≠ ',' ∧ c ≠ '"' ∧ c ≠ '\n') :
    readRow .plain cur done (p ++ rest) = readRow .plain (cur ++ p) done rest := by
  induction p generalizing cur with
  | nil => simp
  | cons c p2 ih =>
    obtain ⟨h1, h2, h3⟩ := hp c (List.mem_cons_self _ _)
    have hp2 : ∀ x ∈ p2, x ≠ ',' ∧ x ≠ '"' ∧ x ≠ '\n' :=
      fun x hx => hp x (List.mem_cons_of_mem _ hx)
    rw [List.cons_append, readRow]
    simp only [h1, h2, h3, if_false, false_and]
    rw [ih (cur ++ [c]) hp2]
    simp

theorem readRow_quoted_run (d cur : List Char) (done : List String) (rest : List Char) :
    readRow .quoted cur done
        (d.flatMap (fun c => if c = '"' then ['"', '"'] else [c]) ++ rest)
      = readRow .quoted (cur ++ d) done rest := by
  induction d generalizing cur with
  | nil => simp
  | cons c d2 ih =>
    by_cases hc : c = '"'
    · subst hc
      simp only [List.flatMap_cons, if_true, List.cons_append, List.nil_append]
      rw [readRow]
      simp only [if_true]
      rw [readRow]
      simp only [if_true]
      rw [ih]
      simp
    · simp only [List.flatMap_cons, hc, if_false, List.cons_append, List.nil_append]
      rw [readRow]
      simp only [hc, if_false]
      rw [ih]
      simp

theorem readRow_plain_cell (p : List Char) (done : List String) (rest : List Char)
    (hp : ∀ c ∈ p, c ≠ ',' ∧ c ≠ '"' ∧ c ≠ '\n') :
    readRow .plain [] done (p ++ ',' :: rest)
      = readRow .plain [] (done ++ [String.mk p]) rest := by
  rw [readRow_plain_run p [] done _ hp, readRow]
  simp

theorem readRow_last_cell (p : List Char) (done : List String)
    (hp : ∀ c ∈ p, c ≠ ',' ∧ c ≠ '"' ∧ c ≠ '\n') :
    readRow .plain [] done (p ++ ['\n']) = some (done ++ [String.mk p]) := by
  rw [readRow_plain_run p [] done _ hp, readRow]
  simp

theorem readRow_quoted_cell (d : List Char) (done : List String) (rest : List Char) :
    readRow .plain [] done
        ('"' :: (d.flatMap (fun c => if c = '"' then ['"', '"'] else [c])
          ++ '"' :: ',' :: rest))
      = readRow .plain [] (done ++ [String.mk d]) rest := by
  rw [readRow]
  simp only [show ¬ ('"' = ',') by decide, show ¬ ('"' = '\n') by decide, if_false, and_self,
    if_true]
  rw [readRow_quoted_run, readRow]
  simp only [if_true]
  rw [readRow]
  simp

theorem csvSafe_iff (s : String) :
    csvSafe s = true ↔ ∀ c ∈ s.data, c ≠ ',' ∧ c ≠ '"' ∧ c ≠ '\n' ∧ c ≠ '\r' := by
  simp [csvSafe, List.all_eq_true, and_assoc]

theorem csvSafe_plain (s : String) (h : csvSafe s = true) :
    ∀ c ∈ s.data, c ≠ ',' ∧ c ≠ '"' ∧ c ≠ '\n' := by
  intro c hc
  obtain ⟨h1, h2, h3, _⟩ := (csvSafe_iff s).mp h c hc
  exact ⟨h1, h2, h3⟩

theorem digit_plain (c : Char) (h : isDigit c = true) : c ≠ ',' ∧ c ≠ '"' ∧ c ≠ '\n' := by
  refine ⟨?_, ?_, ?_⟩ <;> (intro e; subst e; simp [isDigit] at h)

theorem formatInt_plain (n : Int) : ∀ c ∈ (formatInt n).data, c ≠ ',' ∧ c ≠ '"' ∧ c ≠ '\n' := by
  cases n with
  | ofNat m =>
    have hshape : (formatInt (Int.ofNat m)).data = Nat.toDigits 10 m := rfl
    rw [hshape]
    intro c hc
    exact digit_plain c (List.all_eq_true.mp (toDigits_spec m).2.1 c hc)
  | negSucc m =>
    have hshape : (formatInt (Int.negSucc m)).data = '-' :: Nat.toDigits 10 (m + 1) := rfl
    rw [hshape]
    intro c hc
    rcases List.mem_cons.mp hc with e | e
    · subst e; decide
    · exact digit_plain c (List.all_eq_true.mp (toDigits_spec (m + 1)).2.1 c e)

theorem formatBool_plain (b : Bool) :
    ∀ c ∈ (formatBool b).data, c ≠ ',' ∧ c ≠ '"' ∧ c ≠ '\n' := by
  cases b <;> decide

theorem csvCells_csvRow (r : Repository) (h : plainFields r = true) :
    csvCells (csvRow r)
      = some [r.Name, r.FullName, r.Description, r.Language, formatInt r.Stars,
          formatInt r.Forks, r.CloneURL, r.HTMLURL, r.CreatedAt, r.UpdatedAt,
          formatBool r.Private, formatBool r.Fork, formatBool r.Archived] := by
  simp only [plainFields, Bool.and_eq_true] at h
  obtain ⟨⟨⟨⟨⟨⟨h1, h2⟩, h3⟩, h4⟩, h5⟩, h6⟩, h7⟩ := h
  have hshape : csvCells (csvRow r) = readRow .plain [] [] (csvRow r).data := rfl
  have hdesc : (strings.ReplaceAll r.Description "\"" "\"\"").data
      = r.Description.data.flatMap (fun c => if c = '"' then ['"', '"'] else [c]) := by
    rw [replaceAll_quote]
    rfl
  rw [hshape, csvRow_data, hdesc,
    readRow_plain_cell _ _ _ (csvSafe_plain _ h1),
    readRow_plain_cell _ _ _ (csvSafe_plain _ h2),
    readRow_quoted_cell,
    readRow_plain_cell _ _ _ (csvSafe_plain _ h3),
    readRow_plain_cell _ _ _ (formatInt_plain _),
    readRow_plain_cell _ _ _ (formatInt_plain _),
    readRow_plain_cell _ _ _ (csvSafe_plain _ h4),
    readRow_plain_cell _ _ _ (csvSafe_plain _ h5),
    readRow_plain_cell _ _ _ (csvSafe_plain _ h6),
    readRow_plain_cell _ _ _ (csvSafe_plain _ h7),
    readRow_plain_cell _ _ _ (formatBool_plain _),
    readRow_plain_cell _ _ _ (formatBool_plain _),
    readRow_last_cell _ _ (formatBool_plain _)]
  rfl

/-! ## Lemmas on the scan of the decoder -/

theorem scan_cons_next (stack stack2 : List Frame) (mode mode2 : Mode) (c : Char)
    (rest : List Char) (h : step stack mode c = .next stack2 mode2) :
    scan stack mode (c :: rest) = scan stack2 mode2 rest := by
  rw [scan, h]

theorem hexVal_hexDigit : ∀ k : Nat, k < 16 → hexVal (hexDigit k) = some k := by
  decide

theorem char_of_toNat (c : Char) (n : Nat) (h : c.toNat = n) : Char.ofNat n = c := by
  rw [← h]
  exact Char.ofNat_toNat c

theorem step_str_plain (stack : List Frame) (k : Bool) (acc : List Char) (c : Char)
    (h1 : c ≠ '"') (h2 : c ≠ '\\') (h3 : ¬ c.toNat < 32) :
    step stack (.str k acc) c = .next stack (.str k (acc ++ [c])) := by
  simp [step, h1, h2, h3]

theorem step_str_backslash (stack : List Frame) (k : Bool) (acc : List Char) :
    step stack (.str k acc) '\\' = .next stack (.esc k acc) := by
  simp [step]

theorem scan_uni (stack : List Frame) (k : Bool) (acc : List Char) (a b c d : Char)
    (va vb vc vd : Nat) (ha : hexVal a = some va) (hb : hexVal b = some vb)
    (hc : hexVal c = some vc) (hd : hexVal d = some vd) (rest : List Char) :
    scan stack (.str k acc) ('\\' :: 'u' :: a :: b :: c :: d :: rest)
      = scan stack (.str k (acc ++ [codeChar (((va * 16 + vb) * 16 + vc) * 16 + vd)])) rest := by
  rw [scan_cons_next _ _ _ _ _ _ (step_str_backslash stack k acc)]
  rw [scan_cons_next stack stack (.esc k acc) (.uni k acc 0 0) 'u' _ (by simp [step])]
  rw [scan_cons_next stack stack (.uni k acc 0 0) (.uni k acc 1 va) a _ (by simp [step, ha])]
  rw [scan_cons_next stack stack (.uni k acc 1 va) (.uni k acc 2 (va * 16 + vb)) b _
    (by simp [step, hb])]
  rw [scan_cons_next stack stack (.uni k acc 2 (va * 16 + vb))
    (.uni k acc 3 ((va * 16 + vb) * 16 + vc)) c _ (by simp [step, hc])]
  rw [scan_cons_next stack stack (.uni k acc 3 ((va * 16 + vb) * 16 + vc))
    (.str k (acc ++ [codeChar (((va * 16 + vb) * 16 + vc) * 16 + vd)])) d _ (by simp [step, hd])]

theorem scan_esc (stack : List Frame) (k : Bool) (acc : List Char) (e x : Char)
    (he : step stack (.esc k acc) e = .next stack (.str k (acc ++ [x]))) (rest : List Char) :
    scan stack (.str k acc) ('\\' :: e :: rest) = scan stack (.str k (acc ++ [x])) rest := by
  rw [scan_cons_next _ _ _ _ _ _ (step_str_backslash stack k acc),
    scan_cons_next _ _ _ _ _ _ he]

theorem scan_escapeChar (stack : List Frame) (k : Bool) (acc : List Char) (c : Char)
    (rest : List Char) :
    scan stack (.str k acc) (escapeChar c ++ rest) = scan stack (.str k (acc ++ [c])) rest := by
  unfold escapeChar
  by_cases h1 : c = '"'
  · rw [if_pos h1, List.cons_append, List.cons_append, List.nil_append]
    subst h1
    exact scan_esc stack k acc '"' '"' (by simp [step]) rest
  rw [if_neg h1]
  by_cases h2 : c = '\\'
  · rw [if_pos h2, List.cons_append, List.cons_append, List.nil_append]
    subst h2
    exact scan_esc stack k acc '\\' '\\' (by simp [step]) rest
  rw [if_neg h2]
  by_cases h3 : c.toNat = 8
  · rw [if_pos h3, List.cons_append, List.cons_append, List.nil_append]
    have hc := char_of_toNat c 8 h3
    exact scan_esc stack k acc 'b' c (by simp [step]; exact hc) rest
  rw [if_neg h3]
  by_cases h4 : c.toNat = 12
  · rw [if_pos h4, List.cons_append, List.cons_append, List.nil_append]
    have hc := char_of_toNat c 12 h4
    exact scan_esc stack k acc 'f' c (by simp [step]; exact hc) rest
  rw [if_neg h4]
  by_cases h5 : c = '\n'
  · rw [if_pos h5, List.cons_append, List.cons_append, List.nil_append]
    subst h5
    exact scan_esc stack k acc 'n' '\n' (by simp [step]) rest
  rw [if_neg h5]
  by_cases h6 : c = '\r'
  · rw [if_pos h6, List.cons_append, List.cons_append, List.nil_append]
    subst h6
    exact scan_esc stack k acc 'r' '\r' (by simp [step]) rest
  rw [if_neg h6]
  by_cases h7 : c = '\t'
  · rw [if_pos h7, List.cons_append, List.cons_append, List.nil_append]
    subst h7
    exact scan_esc stack k acc 't' '\t' (by simp [step]) rest
  rw [if_neg h7]
  by_cases h8 : c.toNat < 32 ∨ c = '<' ∨ c = '>' ∨ c = '&'
  · rw [if_pos h8]
    simp only [List.cons_append, List.nil_append]
    have hlt : c.toNat < 64 := by
      rcases h8 with h | h | h | h
      · omega
      · subst h; decide
      · subst h; decide
      · subst h; decide
    have hz : hexVal '0' = some 0 := by decide
    have h16 : c.toNat / 16 < 16 := by omega
    have h16b : c.toNat % 16 < 16 := Nat.mod_lt _ (by decide)
    have hrun := scan_uni stack k acc '0' '0' (hexDigit (c.toNat / 16)) (hexDigit (c.toNat % 16))
      0 0 (c.toNat / 16) (c.toNat % 16) hz hz (hexVal_hexDigit _ h16) (hexVal_hexDigit _ h16b) rest
    have hcode : ((0 * 16 + 0) * 16 + c.toNat / 16) * 16 + c.toNat % 16 = c.toNat := by omega
    rw [hcode] at hrun
    have hchar : codeChar c.toNat = c := by
      unfold codeChar
      rw [if_neg (by omega)]
      exact Char.ofNat_toNat c
    rw [hchar] at hrun
    exact hrun
  rw [if_neg h8]
  by_cases h9 : c.toNat = 8232
  · rw [if_pos h9]
    simp only [List.cons_append, List.nil_append]
    have hrun := scan_uni stack k acc '2' '0' '2' '8' 2 0 2 8 (by decide) (by decide) (by decide)
      (by decide) rest
    have hchar : codeChar (((2 * 16 + 0) * 16 + 2) * 16 + 8) = c := by
      have : codeChar (((2 * 16 + 0) * 16 + 2) * 16 + 8) = Char.ofNat 8232 := by decide
      rw [this]
      exact char_of_toNat c 8232 h9
    rw [hchar] at hrun
    exact hrun
  rw [if_neg h9]
  by_cases h10 : c.toNat = 8233
  · rw [if_pos h10]
    simp only [List.cons_append, List.nil_append]
    have hrun := scan_uni stack k acc '2' '0' '2' '9' 2 0 2 9 (by decide) (by decide) (by decide)
      (by decide) rest
    have hchar : codeChar (((2 * 16 + 0) * 16 + 2) * 16 + 9) = c := by
      have : codeChar (((2 * 16 + 0) * 16 + 2) * 16 + 9) = Char.ofNat 8233 := by decide
      rw [this]
      exact char_of_toNat c 8233 h10
    rw [hchar] at hrun
    exact hrun
  rw [if_neg h10]
  have h32 : ¬ c.toNat < 32 := fun h => h8 (Or.inl h)
  rw [List.singleton_append, scan_cons_next _ _ _ _ _ _ (step_str_plain stack k acc c h1 h2 h32)]

theorem scan_escaped (stack : List Frame) (k : Bool) (s acc : List Char) (rest : List Char) :
    scan stack (.str k acc) (s.flatMap escapeChar ++ rest) = scan stack (.str k (acc ++ s)) rest := by
  induction s generalizing acc with
  | nil => simp
  | cons c s2 ih =>
    rw [List.flatMap_cons, List.append_assoc, scan_escapeChar, ih]
    simp

theorem digitChar_nonzero : ∀ k : Nat, k < 10 → 0 < k → Nat.digitChar k ≠ '0' := by
  decide

theorem toDigitsCore_head (fuel : Nat) : ∀ (n : Nat) (ds : List Char), n < fuel → 0 < n →
    ∃ (h : Char) (t : List Char), Nat.toDigitsCore 10 fuel n ds = h :: (t ++ ds)
      ∧ h ≠ '0' ∧ isDigit h = true ∧ t.all isDigit = true := by
  induction fuel with
  | zero => intro n ds h; omega
  | succ f ih =>
    intro n ds h hpos
    obtain ⟨hd1, _⟩ := digitChar_spec (n % 10) (Nat.mod_lt _ (by decide))
    by_cases h0 : n / 10 = 0
    · refine ⟨Nat.digitChar (n % 10), [], by simp [Nat.toDigitsCore, h0], ?_, hd1, by simp⟩
      exact digitChar_nonzero _ (Nat.mod_lt _ (by decide)) (by omega)
    · obtain ⟨x, t, hx1, hx2, hx3, hx4⟩ :=
        ih (n / 10) (Nat.digitChar (n % 10) :: ds) (by omega) (by omega)
      refine ⟨x, t ++ [Nat.digitChar (n % 10)], ?_, hx2, hx3, ?_⟩
      · simp [Nat.toDigitsCore, h0, hx1]
      · simp [List.all_append, hx4, hd1]

theorem toDigits_head (n : Nat) (hpos : 0 < n) :
    ∃ (h : Char) (t : List Char), Nat.toDigits 10 n = h :: t
      ∧ h ≠ '0' ∧ isDigit h = true ∧ t.all isDigit = true := by
  obtain ⟨h, t, h1, h2, h3, h4⟩ := toDigitsCore_head (n + 1) n [] (Nat.lt_succ_self n) hpos
  exact ⟨h, t, by simpa [Nat.toDigits] using h1, h2, h3, h4⟩

theorem scan_digits (stack : List Frame) (ds acc rest : List Char)
    (hds : ds.all isDigit = true) :
    scan stack (.num .int acc) (ds ++ rest) = scan stack (.num .int (acc ++ ds)) rest := by
  induction ds generalizing acc with
  | nil => simp
  | cons c ds2 ih =>
    simp only [List.all_cons, Bool.and_eq_true] at hds
    rw [List.cons_append, scan_cons_next stack stack (.num .int acc) (.num .int (acc ++ [c])) c _
      (by simp [step, numStep, hds.1]), ih _ hds.2]
    simp

theorem scan_number_end (ms : List (String × JValue)) (key : String) (outer : List Frame)
    (phase : NumPhase) (hphase : phase = .int ∨ phase = .zero)
    (acc : List Char) (d : Char) (rest : List Char) (hd : endsNumber d) :
    scan (.obj ms (some key) :: outer) (.num phase acc) (d :: rest)
      = scan (.obj (ms ++ [(key, .num (String.mk acc))]) none :: outer) .after (d :: rest) := by
  obtain ⟨h1, h2, h3, h4⟩ := hd
  have hstep : step (.obj ms (some key) :: outer) (.num phase acc) d
      = step (.obj (ms ++ [(key, .num (String.mk acc))]) none :: outer) .after d := by
    rcases hphase with e | e <;> subst e <;>
      simp [step, numStep, endNumber, pushValue, h1, h2, h3, h4]
  rw [scan, scan, hstep]

theorem startValue_digit (stack : List Frame) (h : Char) (hd : isDigit h = true)
    (h0 : h ≠ '0') : startValue stack h = .next stack (.num .int [h]) := by
  have e1 : h ≠ '\x7b' := by rintro rfl; exact absurd hd (by decide)
  have e2 : h ≠ '[' := by rintro rfl; exact absurd hd (by decide)
  have e3 : h ≠ '"' := by rintro rfl; exact absurd hd (by decide)
  have e4 : h ≠ '-' := by rintro rfl; exact absurd hd (by decide)
  simp [startValue, e1, e2, e3, e4, h0, hd]

theorem isJsonSpace_digit (h : Char) (hd : isDigit h = true) : isJsonSpace h = false := by
  have e1 : h ≠ ' ' := by rintro rfl; exact absurd hd (by decide)
  have e2 : h ≠ '\t' := by rintro rfl; exact absurd hd (by decide)
  have e3 : h ≠ '\n' := by rintro rfl; exact absurd hd (by decide)
  have e4 : h ≠ '\r' := by rintro rfl; exact absurd hd (by decide)
  simp [isJsonSpace, e1, e2, e3, e4]

theorem scan_nat_value (ms : List (String × JValue)) (key : String) (outer : List Frame)
    (m : Nat) (pre : List Char) (phase0 : Mode) (d : Char) (rest : List Char)
    (hd : endsNumber d)
    (hzero : step (.obj ms (some key) :: outer) phase0 '0'
      = .next (.obj ms (some key) :: outer) (.num .zero (pre ++ ['0'])))
    (hdigit : ∀ h : Char, isDigit h = true → h ≠ '0' →
      step (.obj ms (some key) :: outer) phase0 h
        = .next (.obj ms (some key) :: outer) (.num .int (pre ++ [h]))) :
    scan (.obj ms (some key) :: outer) phase0 (Nat.toDigits 10 m ++ d :: rest)
      = scan (.obj (ms ++ [(key, .num (String.mk (pre ++ Nat.toDigits 10 m)))]) none :: outer)
          .after (d :: rest) := by
  by_cases hm : m = 0
  · subst hm
    have hz : Nat.toDigits 10 0 = ['0'] := by decide
    rw [hz, List.singleton_append, scan_cons_next _ _ _ _ _ _ hzero,
      scan_number_end ms key outer .zero (Or.inr rfl) _ d rest hd]
  · obtain ⟨h, t, h1, h2, h3, h4⟩ := toDigits_head m (by omega)
    rw [h1, List.cons_append, scan_cons_next _ _ _ _ _ _ (hdigit h h3 h2),
      scan_digits _ t _ _ h4, scan_number_end ms key outer .int (Or.inl rfl) _ d rest hd]
    simp

theorem scan_int_value (ms : List (String × JValue)) (key : String) (outer : List Frame)
    (n : Int) (d : Char) (rest : List Char) (hd : endsNumber d) :
    scan (.obj ms (some key) :: outer) .value ((formatInt n).data ++ d :: rest)
      = scan (.obj (ms ++ [(key, .num (formatInt n))]) none :: outer) .after (d :: rest) := by
  cases n with
  | ofNat m =>
    have hshape : (formatInt (Int.ofNat m)).data = Nat.toDigits 10 m := rfl
    have hstr : formatInt (Int.ofNat m) = String.mk ([] ++ Nat.toDigits 10 m) := rfl
    rw [hshape, hstr]
    apply scan_nat_value ms key outer m [] .value d rest hd
    · simp [step, startValue, isJsonSpace]
    · intro h hdg h0
      simp [step, isJsonSpace_digit h hdg, startValue_digit _ h hdg h0]
  | negSucc m =>
    have hshape : (formatInt (Int.negSucc m)).data = '-' :: Nat.toDigits 10 (m + 1) := rfl
    have hstr : formatInt (Int.negSucc m) = String.mk (['-'] ++ Nat.toDigits 10 (m + 1)) := rfl
    rw [hshape, hstr, List.cons_append,
      scan_cons_next (.obj ms (some key) :: outer) (.obj ms (some key) :: outer) .value
        (.num .minus ['-']) '-' _ (by simp [step, startValue, isJsonSpace])]
    apply scan_nat_value ms key outer (m + 1) ['-'] (.num .minus ['-']) d rest hd
    · simp [step, numStep]
    · intro h hdg h0
      simp [step, numStep, h0, hdg]

theorem scan_key (ms : List (String × JValue)) (outer : List Frame) (mode : Mode)
    (hmode : mode = .key ∨ mode = .keyOrEnd) (key : String) (rest : List Char) :
    scan (.obj ms none :: outer) mode
        ('\n' :: ' ' :: ' ' :: (encodeString key ++ (':' :: ' ' :: rest)))
      = scan (.obj ms (some key) :: outer) .value rest := by
  have hws : ∀ (c : Char) (tl : List Char), isJsonSpace c = true →
      scan (.obj ms none :: outer) mode (c :: tl) = scan (.obj ms none :: outer) mode tl := by
    intro c tl hc
    apply scan_cons_next
    rcases hmode with e | e <;> subst e <;> simp [step, hc]
  rw [hws _ _ (by decide), hws _ _ (by decide), hws _ _ (by decide)]
  unfold encodeString
  rw [List.cons_append, scan_cons_next (.obj ms none :: outer) (.obj ms none :: outer) mode
    (.str true []) '"' _ (by rcases hmode with e | e <;> subst e <;> simp [step, isJsonSpace]),
    List.append_assoc, scan_escaped, List.singleton_append,
    scan_cons_next (.obj ms none :: outer) (.obj ms (some key) :: outer) (.str true _) .colon '"' _
      (by simp [step, finishString]),
    scan_cons_next (.obj ms (some key) :: outer) (.obj ms (some key) :: outer) .colon .value ':' _
      (by simp [step, isJsonSpace]),
    scan_cons_next (.obj ms (some key) :: outer) (.obj ms (some key) :: outer) .value .value ' ' _
      (by simp [step, isJsonSpace])]

theorem scan_string_value (ms : List (String × JValue)) (key : String) (outer : List Frame)
    (s : String) (rest : List Char) :
    scan (.obj ms (some key) :: outer) .value (encodeString s ++ rest)
      = scan (.obj (ms ++ [(key, .str s)]) none :: outer) .after rest := by
  unfold encodeString
  rw [List.cons_append, scan_cons_next (.obj ms (some key) :: outer) (.obj ms (some key) :: outer)
    .value (.str false []) '"' _ (by simp [step, isJsonSpace, startValue]),
    List.append_assoc, scan_escaped, List.singleton_append,
    scan_cons_next (.obj ms (some key) :: outer) (.obj (ms ++ [(key, .str s)]) none :: outer)
      (.str false _) .after '"' _ (by simp [step, finishString, pushValue])]

theorem scan_bool_value (ms : List (String × JValue)) (key : String) (outer : List Frame)
    (b : Bool) (rest : List Char) :
    scan (.obj ms (some key) :: outer) .value ((formatBool b).data ++ rest)
      = scan (.obj (ms ++ [(key, .bool b)]) none :: outer) .after rest := by
  cases b
  · have h : (formatBool false).data = ['f', 'a', 'l', 's', 'e'] := rfl
    rw [h]
    simp [scan, step, isJsonSpace, startValue, isDigit, pushValue]
  · have h : (formatBool true).data = ['t', 'r', 'u', 'e'] := rfl
    rw [h]
    simp [scan, step, isJsonSpace, startValue, isDigit, pushValue]

theorem scan_comma (ms : List (String × JValue)) (outer : List Frame) (rest : List Char) :
    scan (.obj ms none :: outer) .after (',' :: rest) = scan (.obj ms none :: outer) .key rest := by
  apply scan_cons_next
  simp [step, afterValue, isJsonSpace]

theorem endsNumber_comma : endsNumber ',' := by
  unfold endsNumber
  decide

theorem member_string (ms : List (String × JValue)) (outer : List Frame) (mode : Mode)
    (hmode : mode = .key ∨ mode = .keyOrEnd) (key s : String) (rest : List Char) :
    scan (.obj ms none :: outer) mode (memberLine key (encodeString s) ++ ',' :: rest)
      = scan (.obj (ms ++ [(key, .str s)]) none :: outer) .key rest := by
  unfold memberLine
  simp only [List.cons_append, List.append_assoc]
  rw [scan_key ms outer mode hmode, scan_string_value, scan_comma]

theorem member_int (ms : List (String × JValue)) (outer : List Frame) (mode : Mode)
    (hmode : mode = .key ∨ mode = .keyOrEnd) (key : String) (n : Int) (rest : List Char) :
    scan (.obj ms none :: outer) mode (memberLine key (formatInt n).toList ++ ',' :: rest)
      = scan (.obj (ms ++ [(key, .num (formatInt n))]) none :: outer) .key rest := by
  unfold memberLine
  simp only [List.cons_append, List.append_assoc]
  rw [scan_key ms outer mode hmode]
  have h := scan_int_value ms key outer n ',' rest endsNumber_comma
  rw [show (formatInt n).toList = (formatInt n).data from rfl, h, scan_comma]

theorem member_bool (ms : List (String × JValue)) (outer : List Frame) (mode : Mode)
    (hmode : mode = .key ∨ mode = .keyOrEnd) (key : String) (b : Bool) (rest : List Char) :
    scan (.obj ms none :: outer) mode (memberLine key (formatBool b).toList ++ ',' :: rest)
      = scan (.obj (ms ++ [(key, .bool b)]) none :: outer) .key rest := by
  unfold memberLine
  simp only [List.cons_append, List.append_assoc]
  rw [scan_key ms outer mode hmode, show (formatBool b).toList = (formatBool b).data from rfl,
    scan_bool_value, scan_comma]

theorem member_bool_last (ms : List (String × JValue)) (outer : List Frame) (mode : Mode)
    (hmode : mode = .key ∨ mode = .keyOrEnd) (key : String) (b : Bool) (rest : List Char) :
    scan (.obj ms none :: outer) mode (memberLine key (formatBool b).toList ++ rest)
      = scan (.obj (ms ++ [(key, .bool b)]) none :: outer) .after rest := by
  unfold memberLine
  simp only [List.cons_append, List.append_assoc]
  rw [scan_key ms outer mode hmode, show (formatBool b).toList = (formatBool b).data from rfl,
    scan_bool_value]

theorem recordText_eq (r : Repository) (tail : List Char) :
    commaJoin (recordMembers r) ++ tail
      = memberLine "id" (formatInt r.ID).toList ++ ',' ::
        (memberLine "name" (encodeString r.Name) ++ ',' ::
        (memberLine "full_name" (encodeString r.FullName) ++ ',' ::
        (memberLine "html_url" (encodeString r.HTMLURL) ++ ',' ::
        (memberLine "clone_url" (encodeString r.CloneURL) ++ ',' ::
        (memberLine "ssh_url" (encodeString r.SSHURL) ++ ',' ::
        (memberLine "description" (encodeString r.Description) ++ ',' ::
        (memberLine "language" (encodeString r.Language) ++ ',' ::
        (memberLine "stargazers_count" (formatInt r.Stars).toList ++ ',' ::
        (memberLine "forks_count" (formatInt r.Forks).toList ++ ',' ::
        (memberLine "created_at" (encodeString r.CreatedAt) ++ ',' ::
        (memberLine "updated_at" (encodeString r.UpdatedAt) ++ ',' ::
        (memberLine "private" (formatBool r.Private).toList ++ ',' ::
        (memberLine "fork" (formatBool r.Fork).toList ++ ',' ::
        (memberLine "archived" (formatBool r.Archived).toList ++ tail)))))))))))))) := by
  simp only [recordMembers, commaJoin, List.append_assoc, List.cons_append]

theorem scan_record (items : List JValue) (outer : List Frame) (mode : Mode)
    (hmode : mode = .value ∨ mode = .valueOrEnd) (r : Repository) (rest : List Char) :
    scan (.arr items :: outer) mode (encodeRecord r ++ rest)
      = scan (.arr (items ++ [recordValue r]) :: outer) .after rest := by
  have hws : ∀ (c : Char) (tl : List Char), isJsonSpace c = true →
      scan (.arr items :: outer) mode (c :: tl) = scan (.arr items :: outer) mode tl := by
    intro c tl hc
    apply scan_cons_next
    rcases hmode with e | e <;> subst e <;> simp [step, hc]
  unfold encodeRecord
  simp only [List.cons_append, List.append_assoc]
  rw [hws _ _ (by decide), hws _ _ (by decide),
    scan_cons_next (.arr items :: outer) (.obj [] none :: .arr items :: outer) mode .keyOrEnd
      '\x7b' _ (by rcases hmode with e | e <;> subst e <;> simp [step, isJsonSpace, startValue]),
    recordText_eq,
    member_int _ _ _ (Or.inr rfl),
    member_string _ _ _ (Or.inl rfl), member_string _ _ _ (Or.inl rfl),
    member_string _ _ _ (Or.inl rfl), member_string _ _ _ (Or.inl rfl),
    member_string _ _ _ (Or.inl rfl), member_string _ _ _ (Or.inl rfl),
    member_string _ _ _ (Or.inl rfl),
    member_int _ _ _ (Or.inl rfl), member_int _ _ _ (Or.inl rfl),
    member_string _ _ _ (Or.inl rfl), member_string _ _ _ (Or.inl rfl),
    member_bool _ _ _ (Or.inl rfl), member_bool _ _ _ (Or.inl rfl),
    member_bool_last _ _ _ (Or.inl rfl)]
  simp [scan, step, afterValue, isJsonSpace, pushValue, recordValue]

theorem scan_records (rs : List Repository) : ∀ (items : List JValue) (mode : Mode),
    (mode = .value ∨ mode = .valueOrEnd) → rs ≠ [] → ∀ rest : List Char,
    scan [.arr items] mode (commaJoin (rs.map encodeRecord) ++ '\n' :: ']' :: rest)
      = .ok (.arr (items ++ rs.map recordValue)) := by
  induction rs with
  | nil => intro _ _ _ h; exact absurd rfl h
  | cons r rs2 ih =>
    intro items mode hmode _ rest
    cases rs2 with
    | nil =>
      simp only [List.map_cons, List.map_nil, commaJoin]
      rw [scan_record items [] mode hmode]
      simp [scan, step, afterValue, isJsonSpace, pushValue]
    | cons r2 rs3 =>
      have hjoin : commaJoin ((r :: r2 :: rs3).map encodeRecord) ++ '\n' :: ']' :: rest
          = encodeRecord r ++ ',' :: (commaJoin ((r2 :: rs3).map encodeRecord)
              ++ '\n' :: ']' :: rest) := by
        simp only [List.map_cons, commaJoin, List.append_assoc, List.cons_append]
      rw [hjoin, scan_record items [] mode hmode,
        scan_cons_next [.arr (items ++ [recordValue r])] [.arr (items ++ [recordValue r])] .after
          .value ',' _ (by simp [step, afterValue, isJsonSpace]),
        ih (items ++ [recordValue r]) .value (Or.inl rfl) (by simp) rest]
      simp

theorem intsInRange_iff (r : Repository) :
    intsInRange r = true ↔
      (-9223372036854775808 ≤ r.ID ∧ r.ID < 9223372036854775808)
      ∧ (-9223372036854775808 ≤ r.Stars ∧ r.Stars < 9223372036854775808)
      ∧ (-9223372036854775808 ≤ r.Forks ∧ r.Forks < 9223372036854775808) := by
  simp [intsInRange, and_assoc]

theorem asInt_formatInt (tag : String) (n : Int)
    (h : -9223372036854775808 ≤ n ∧ n < 9223372036854775808) :
    asInt tag (.num (formatInt n)) = .ok n := by
  simp only [asInt, readDecimal_formatInt, h, and_self, if_true]

theorem resolveTag_fieldTags : ∀ tag ∈ fieldTags, resolveTag tag = some tag := by
  decide

theorem decodeRecord_recordValue (r : Repository) (h : intsInRange r = true) :
    decodeRecord (recordValue r) = .ok r := by
  obtain ⟨h1, h2, h3⟩ := (intsInRange_iff r).mp h
  have t0 : resolveTag "id" = some "id" := by decide
  have t1 : resolveTag "name" = some "name" := by decide
  have t2 : resolveTag "full_name" = some "full_name" := by decide
  have t3 : resolveTag "html_url" = some "html_url" := by decide
  have t4 : resolveTag "clone_url" = some "clone_url" := by decide
  have t5 : resolveTag "ssh_url" = some "ssh_url" := by decide
  have t6 : resolveTag "description" = some "description" := by decide
  have t7 : resolveTag "language" = some "language" := by decide
  have t8 : resolveTag "stargazers_count" = some "stargazers_count" := by decide
  have t9 : resolveTag "forks_count" = some "forks_count" := by decide
  have t10 : resolveTag "created_at" = some "created_at" := by decide
  have t11 : resolveTag "updated_at" = some "updated_at" := by decide
  have t12 : resolveTag "private" = some "private" := by decide
  have t13 : resolveTag "fork" = some "fork" := by decide
  have t14 : resolveTag "archived" = some "archived" := by decide
  simp only [decodeRecord, recordValue, setFields, setField, t0, t1, t2, t3, t4, t5, t6, t7, t8, t9, t10, t11, t12, t13, t14,
    asInt_formatInt _ _ h1, asInt_formatInt _ _ h2, asInt_formatInt _ _ h3, asString, asBool,
    Except.map, zeroRepo]
  simp

theorem decodeRecords_recordValue (rs : List Repository)
    (h : ∀ r ∈ rs, intsInRange r = true) :
    decodeRecords (rs.map recordValue) = .ok rs := by
  induction rs with
  | nil => rfl
  | cons r rs2 ih =>
    rw [List.map_cons, decodeRecords, decodeRecord_recordValue r (h r (List.mem_cons_self _ _))]
    simp only
    rw [ih (fun x hx => h x (List.mem_cons_of_mem _ hx))]

theorem decodeRepos_marshal (repos : Slice Repository)
    (h : ∀ r ∈ repos.toList, intsInRange r = true) :
    decodeRepos (MarshalIndent repos) = .ok repos.toList := by
  cases repos with
  | nil => rfl
  | of l =>
    cases l with
    | nil => rfl
    | cons r rest =>
      have hscan : scan [] .value (MarshalIndent (.of (r :: rest))).toList
          = .ok (.arr ((r :: rest).map recordValue)) := by
        have hshape : (MarshalIndent (.of (r :: rest))).toList
            = '[' :: (commaJoin ((r :: rest).map encodeRecord) ++ '\n' :: ']' :: []) := rfl
        rw [hshape, scan_cons_next [] [.arr []] .value .valueOrEnd '[' _
          (by simp [step, isJsonSpace, startValue]),
          scan_records (r :: rest) [] .valueOrEnd (Or.inr rfl) (by simp) []]
        simp
      unfold decodeRepos
      rw [hscan]
      exact decodeRecords_recordValue (r :: rest) h

theorem isJsonArray_marshal_of (l : List Repository) : isJsonArray (MarshalIndent (.of l)) = true := by
  cases l with
  | nil => decide
  | cons r rest =>
    have hshape : (MarshalIndent (.of (r :: rest))).toList
        = '[' :: (commaJoin ((r :: rest).map encodeRecord) ++ '\n' :: ']' :: []) := rfl
    unfold isJsonArray
    rw [hshape, scan_cons_next [] [.arr []] .value .valueOrEnd '[' _
      (by simp [step, isJsonSpace, startValue]),
      scan_records (r :: rest) [] .valueOrEnd (Or.inr rfl) (by simp) []]

/-! ## Lemmas on Link headers whose URLs and names have no double quote -/

theorem parseLinkHeader_eq_containsChars (h : String) :
    parseLinkHeader h = strings.containsChars needleChars h.data := by
  by_cases he : h = ""
  · subst he
    decide
  · have hsep : ("," : String) ≠ "" := by decide
    have hshape : parseLinkHeader h
        = ((strings.splitChars [','] h.data.length h.data).map String.mk).any
            (fun link => strings.containsChars needleChars
              (strings.trimSpaceChars link.data)) := by
      unfold parseLinkHeader strings.Split
      rw [if_neg he, if_neg hsep]
      rfl
    rw [hshape, splitChars_single _ _ _ (Nat.le_refl _)]
    have hany : ∀ l : List (List Char),
        (l.map String.mk).any (fun link : String => strings.containsChars needleChars
          (strings.trimSpaceChars link.data)) = l.any (strings.containsChars needleChars) := by
      intro l
      induction l with
      | nil => rfl
      | cons p ps ih => rw [List.map_cons, List.any_cons, List.any_cons, ih, contains_trim_needle]
    rw [hany]
    exact any_splitOn_contains needleChars 'r' ['e', 'l', '=', '"', 'n', 'e', 'x', 't', '"'] rfl
      (by decide) h.data

theorem first_quote_split (a : List Char) (h : '"' ∈ a) :
    ∃ a1 a2 : List Char, a = a1 ++ '"' :: a2 ∧ '"' ∉ a1 := by
  induction a with
  | nil => simp at h
  | cons c a2 ih =>
    by_cases hc : c = '"'
    · exact ⟨[], a2, by simp [hc], by simp⟩
    · have hmem : '"' ∈ a2 := by
        rcases List.mem_cons.mp h with e | e
        · exact absurd e.symm hc
        · exact e
      obtain ⟨b1, b2, hb, hq⟩ := ih hmem
      refine ⟨c :: b1, b2, by simp [hb], ?_⟩
      intro hm
      rcases List.mem_cons.mp hm with e | e
      · exact hc e.symm
      · exact hq e

/-- The needle occurs in `p ++ '"' :: t` (with `p` free of quotes) either
across the first quote or inside `t`. -/
theorem needle_across_quote (p t : List Char) (hp : '"' ∉ p) :
    needleChars <:+: p ++ '"' :: t ↔
      ((∃ p0, p = p0 ++ ['r', 'e', 'l', '=']) ∧ ['n', 'e', 'x', 't', '"'] <+: t)
        ∨ needleChars <:+: t := by
  constructor
  · rintro ⟨a, b, hab⟩
    have hab2 : (a ++ ['r', 'e', 'l', '=']) ++ '"' :: (['n', 'e', 'x', 't', '"'] ++ b)
        = p ++ '"' :: t := by
      rw [← hab]; simp [needleChars]
    by_cases ha : '"' ∈ a
    · obtain ⟨a1, a2, e, hq⟩ := first_quote_split a ha
      have hab3 : a1 ++ '"' :: (a2 ++ needleChars ++ b) = p ++ '"' :: t := by
        rw [← hab, e]; simp
      obtain ⟨_, ht⟩ := append_cons_unique '"' _ _ _ _ hq hp hab3
      exact Or.inr ⟨a2, b, ht⟩
    · have hq : '"' ∉ a ++ ['r', 'e', 'l', '='] := by simp [ha]
      obtain ⟨e1, e2⟩ := append_cons_unique '"' _ _ _ _ hq hp hab2
      exact Or.inl ⟨⟨a, e1.symm⟩, ⟨b, e2⟩⟩
  · rintro (⟨⟨p0, hp0⟩, ⟨b, hb⟩⟩ | ⟨a, b, hab⟩)
    · exact ⟨p0, b, by rw [hp0, ← hb]; simp [needleChars]⟩
    · exact ⟨p ++ '"' :: a, b, by rw [← hab]; simp⟩

theorem next_prefix_iff (r u : List Char) (hr : '"' ∉ r) :
    ['n', 'e', 'x', 't', '"'] <+: r ++ '"' :: u ↔ r = ['n', 'e', 'x', 't'] := by
  constructor
  · rintro ⟨b, hb⟩
    have hb2 : ['n', 'e', 'x', 't'] ++ '"' :: b = r ++ '"' :: u := by
      rw [← hb]; simp
    exact (append_cons_unique '"' _ _ _ _ (by decide) hr hb2).1.symm
  · intro e
    subst e
    exact ⟨u, by simp⟩

theorem needle_not_infix_quoteFree (s : List Char) (hs : '"' ∉ s) : ¬ needleChars <:+: s := by
  intro h
  exact hs (h.subset (by simp [needleChars]))


theorem quoteFree_iff (s : String) : quoteFree s = true ↔ '"' ∉ s.data := by
  simp only [quoteFree, List.all_eq_true, bne_iff_ne, ne_eq]
  constructor
  · intro h hm
    exact h _ hm rfl
  · intro h c hc e
    exact h (e ▸ hc)

theorem blank_quoteFree (s : List Char) (h : ∀ c ∈ s, isSpace c = true) : '"' ∉ s := by
  intro hm
  have := h _ hm
  revert this
  decide

theorem unquoted_iff (e : LinkEntry) :
    e.unquoted = true ↔ (∀ c ∈ e.pre.data, isSpace c = true) ∧ '"' ∉ e.url.data
      ∧ '"' ∉ e.rel.data ∧ (∀ c ∈ e.post.data, isSpace c = true) := by
  simp only [LinkEntry.unquoted, Bool.and_eq_true, blankText_iff, quoteFree_iff, and_assoc]

theorem headerTail_cons (e : LinkEntry) (es : List LinkEntry) :
    headerTail (e :: es) = ',' :: (e.render.data ++ headerTail es) := by
  simp [headerTail]

/-- After blank padding and the rest of a header, the text never starts
with the relation name of a next link and its closing quote. -/
theorem next_not_prefix_tail (post : List Char) (hpost : ∀ c ∈ post, isSpace c = true)
    (es : List LinkEntry) : ¬ ['n', 'e', 'x', 't', '"'] <+: post ++ headerTail es := by
  rintro ⟨b, hb⟩
  cases post with
  | nil =>
    cases es with
    | nil => simp [headerTail] at hb
    | cons e rest =>
      rw [headerTail_cons] at hb
      simp at hb
  | cons c cs =>
    have hc := hpost c (List.mem_cons_self _ _)
    simp only [List.cons_append, List.cons.injEq] at hb
    rw [← hb.1] at hc
    revert hc
    decide

theorem needle_in_entries (l : List LinkEntry) :
    ∀ (e : LinkEntry) (lead : List Char), '"' ∉ lead → e.unquoted = true →
      (∀ x ∈ l, x.unquoted = true) →
      (needleChars <:+: lead ++ (e.render.data ++ headerTail l)
        ↔ e.rel = "next" ∨ ∃ x ∈ l, x.rel = "next") := by
  induction l with
  | nil =>
    intro e lead hlead he _
    obtain ⟨hpre, hurl, hrel, hpost⟩ := (unquoted_iff e).mp he
    have hshape : lead ++ (e.render.data ++ headerTail [])
        = (lead ++ e.pre.data ++ '<' :: e.url.data ++ ['>', ';', ' ', 'r', 'e', 'l', '='])
            ++ '"' :: (e.rel.data ++ '"' :: (e.post.data ++ headerTail [])) := by
      rw [render_data]; simp
    have hp : '"' ∉ lead ++ e.pre.data ++ '<' :: e.url.data ++ ['>', ';', ' ', 'r', 'e', 'l', '='] := by
      have := blank_quoteFree _ hpre
      simp [hlead, hurl, this]
    rw [hshape, needle_across_quote _ _ hp, next_prefix_iff _ _ hrel,
      needle_across_quote _ _ hrel]
    have h1 : ¬ ['n', 'e', 'x', 't', '"'] <+: e.post.data ++ headerTail [] :=
      next_not_prefix_tail _ hpost []
    have h2 : ¬ needleChars <:+: e.post.data ++ headerTail [] := by
      apply needle_not_infix_quoteFree
      simpa [headerTail] using blank_quoteFree _ hpost
    have h3 : (∃ p0, lead ++ e.pre.data ++ '<' :: e.url.data ++ ['>', ';', ' ', 'r', 'e', 'l', '=']
        = p0 ++ ['r', 'e', 'l', '=']) :=
      ⟨lead ++ e.pre.data ++ '<' :: e.url.data ++ ['>', ';', ' '], by simp⟩
    have h4 : e.rel.data = ['n', 'e', 'x', 't'] ↔ e.rel = "next" := by
      constructor
      · intro h; exact String.ext h
      · intro h; rw [h]
    simp only [h1, h2, h3, h4, and_false, or_false, true_and, List.not_mem_nil, false_and,
      exists_false]
  | cons e2 rest ih =>
    intro e lead hlead he hl
    obtain ⟨hpre, hurl, hrel, hpost⟩ := (unquoted_iff e).mp he
    have hshape : lead ++ (e.render.data ++ headerTail (e2 :: rest))
        = (lead ++ e.pre.data ++ '<' :: e.url.data ++ ['>', ';', ' ', 'r', 'e', 'l', '='])
            ++ '"' :: (e.rel.data ++ '"' :: (e.post.data ++ headerTail (e2 :: rest))) := by
      rw [render_data]; simp
    have hp : '"' ∉ lead ++ e.pre.data ++ '<' :: e.url.data ++ ['>', ';', ' ', 'r', 'e', 'l', '='] := by
      have := blank_quoteFree _ hpre
      simp [hlead, hurl, this]
    rw [hshape, needle_across_quote _ _ hp, next_prefix_iff _ _ hrel,
      needle_across_quote _ _ hrel]
    have h1 : ¬ ['n', 'e', 'x', 't', '"'] <+: e.post.data ++ headerTail (e2 :: rest) :=
      next_not_prefix_tail _ hpost _
    have h3 : (∃ p0, lead ++ e.pre.data ++ '<' :: e.url.data ++ ['>', ';', ' ', 'r', 'e', 'l', '=']
        = p0 ++ ['r', 'e', 'l', '=']) :=
      ⟨lead ++ e.pre.data ++ '<' :: e.url.data ++ ['>', ';', ' '], by simp⟩
    have h4 : e.rel.data = ['n', 'e', 'x', 't'] ↔ e.rel = "next" := by
      constructor
      · intro h; exact String.ext h
      · intro h; rw [h]
    have h5 : e.post.data ++ headerTail (e2 :: rest)
        = (e.post.data ++ [',']) ++ (e2.render.data ++ headerTail rest) := by
      rw [headerTail_cons]; simp
    have hlead2 : '"' ∉ e.post.data ++ [','] := by
      have := blank_quoteFree _ hpost
      simp [this]
    have h6 := ih e2 (e.post.data ++ [',']) hlead2 (hl e2 (List.mem_cons_self _ _))
      (fun x hx => hl x (List.mem_cons_of_mem _ hx))
    rw [← h5] at h6
    simp only [h1, h3, h4, h6, and_false, false_or, true_and, List.mem_cons, exists_eq_or_imp]

theorem parseLinkHeader_renderHeader_unquoted (es : List LinkEntry)
    (h : ∀ e ∈ es, e.unquoted = true) :
    parseLinkHeader (renderHeader es) = es.any (fun e => e.rel == "next") := by
  cases es with
  | nil => rfl
  | cons e rest =>
    rw [parseLinkHeader_eq_containsChars, Bool.eq_iff_iff, containsChars_iff, renderHeader_data,
      List.map_cons, intercalate_cons_eq, List.any_eq_true]
    have hn := needle_in_entries rest e [] (by simp) (h e (List.mem_cons_self _ _))
      (fun x hx => h x (List.mem_cons_of_mem _ hx))
    have ht : (List.map (fun x => [','] ++ x) (List.map (fun e => e.render.data) rest)).flatten
        = headerTail rest := by
      simp [headerTail, List.map_map, Function.comp_def]
    rw [ht]
    rw [List.nil_append] at hn
    rw [hn]
    simp only [List.mem_cons, exists_eq_or_imp, beq_iff_eq]

theorem fetch_of_serves_unquoted (lib : Lib) (gs : GitHubScraper) (url : String) (p : ServedPage)
    (hs : serves lib gs url p) (hq : ∀ x ∈ p.links, x.unquoted = true) :
    fetchReposPage lib gs url = (p.records, p.hasNext, none) := by
  obtain ⟨h1, h2⟩ := hs
  unfold fetchReposPage
  rw [h1]
  simp only [ne_eq, not_true_eq_false, if_false, h2]
  rw [parseLinkHeader_renderHeader_unquoted p.links hq]
  rfl

/-! ## Claims -/

/-- C1: for every list of repositories and every combination of the three
flags, the records returned by `FilterRepos` are exactly the standard list
filter of the input by the predicate (includePrivate or not private) and
(includeForks or not fork) and (includeArchived or not archived); hence the
result is a sublist of the input (original order and multiplicity), and a
record is in the result iff it is in the input and satisfies the predicate. -/
theorem C1_FilterRepos_eq_filter (repos : List Repository)
    (includePrivate includeForks includeArchived : Bool) :
    (FilterRepos repos includePrivate includeForks includeArchived).toList
        = repos.filter (fun r => (includePrivate || !r.Private) && (includeForks || !r.Fork)
            && (includeArchived || !r.Archived))
      ∧ ((FilterRepos repos includePrivate includeForks includeArchived).toList).Sublist repos
      ∧ ∀ r, r ∈ (FilterRepos repos includePrivate includeForks includeArchived).toList ↔
          (r ∈ repos ∧ (includePrivate = true ∨ r.Private = false)
            ∧ (includeForks = true ∨ r.Fork = false)
            ∧ (includeArchived = true ∨ r.Archived = false)) := by
  have h : (FilterRepos repos includePrivate includeForks includeArchived).toList
      = repos.filter (survives includePrivate includeForks includeArchived) := by
    unfold FilterRepos
    rw [foldl_filterStep_toList]
    simp [Slice.toList]
  refine ⟨h, ?_, ?_⟩
  · rw [h]; exact List.filter_sublist repos
  · intro r
    rw [h, List.mem_filter]
    simp [survives, and_assoc]

/-- C2: for both entry points, when no fetch of pages 1..K fails and K is
the least page number whose result has has-more false or holds zero records,
the collector (with at least K iterations allowed) ends, has requested exactly
the URLs of pages 1, 2, ..., K in this order, and returns the records of pages
1..K concatenated in page order, with no error. In particular a page K with
zero records and a `next` link ends the run at K. -/
theorem C2_collector_stops_at_least_page (e : EntryPoint) (lib : Lib) (gs : GitHubScraper)
    (name : String) (K : Nat) (hK : 1 ≤ K) (hbound : (K : Int) < 9223372036854775808)
    (hnofail : ∀ j : Nat, 1 ≤ j → j ≤ K → (fetchPage e lib gs name (j : Int)).2.2 = none)
    (hstop : stopsAfter (fetchPage e lib gs name (K : Int)) = true)
    (hleast : ∀ j : Nat, 1 ≤ j → j < K → stopsAfter (fetchPage e lib gs name (j : Int)) = false)
    (fuel : Nat) (hfuel : K ≤ fuel) :
    ∃ out : ScrapeOutcome, e.scrape lib gs name fuel = some out
      ∧ out.requested
          = (List.range K).map (fun (i : Nat) => pageURL e.format gs name ((i : Int) + 1))
      ∧ out.repos.toList
          = (List.range K).flatMap (fun (i : Nat) => (fetchPage e lib gs name ((i : Int) + 1)).1)
      ∧ out.err = none := by
  obtain ⟨n, rfl⟩ : ∃ n, K = n + 1 := ⟨K - 1, by omega⟩
  have hidx : ∀ i : Nat, ((i + 1 : Nat) : Int) = 1 + (i : Int) := by
    intro i; push_cast; ring
  have hcont : ∀ i : Nat, i < n →
      (fetchReposPage lib gs (pageURL e.format gs name (1 + (i : Int)))).2.2 = none
      ∧ stopsAfter (fetchReposPage lib gs (pageURL e.format gs name (1 + (i : Int)))) = false := by
    intro i hi
    have a := hnofail (i + 1) (by omega) (by omega)
    have b := hleast (i + 1) (by omega) (by omega)
    rw [hidx] at a b
    exact ⟨a, b⟩
  have hok := hnofail (n + 1) (by omega) (le_refl _)
  rw [hidx] at hok hstop
  refine ⟨_, (scrape_eq_loop e lib gs name fuel).trans
    (scrapeLoop_stops_at lib gs e.format name n fuel hfuel hbound hcont hok hstop), ?_, ?_, rfl⟩
  · exact urlsFrom_one _ _ _ _
  · exact appendPages_one_toList _ _ _ _ _

/-- C2 at a concrete run: the two-page server, user entry point, two iterations. -/
theorem C2_collector_witness :
    ∃ out : ScrapeOutcome,
      EntryPoint.scrape .user sampleLib (NewGitHubScraper twoPageClient "") "u" 2 = some out
      ∧ out.requested = (List.range 2).map (fun (i : Nat) =>
          pageURL EntryPoint.user.format (NewGitHubScraper twoPageClient "") "u" ((i : Int) + 1))
      ∧ out.repos.toList = (List.range 2).flatMap (fun (i : Nat) =>
          (fetchPage .user sampleLib (NewGitHubScraper twoPageClient "") "u" ((i : Int) + 1)).1)
      ∧ out.err = none :=
  C2_collector_stops_at_least_page .user sampleLib (NewGitHubScraper twoPageClient "") "u" 2
    (by decide) (by decide)
    (by intro j h1 h2; interval_cases j <;> decide)
    (by decide)
    (by intro j h1 h2; interval_cases j; decide)
    2 (le_refl 2)

/-- C3 (as stated) fails, in two ways. With two pages of which the first
carries a `next` link but no record and the last has one record and no Link
header, the collector fetches one page, not two, and returns no record. With
two pages of which the last has a `prev` entry only, whose URL contains the
text `rel="next"`, the collector goes on to request a third page. -/
theorem C3_empty_page_counterexample :
    (serves sampleLib (NewGitHubScraper emptyFirstPageClient "")
        (pageURL userFormat (NewGitHubScraper emptyFirstPageClient "") "u" 1) pageEmptyWithNext
      ∧ serves sampleLib (NewGitHubScraper emptyFirstPageClient "")
        (pageURL userFormat (NewGitHubScraper emptyFirstPageClient "") "u" 2) pageBNoHeader
      ∧ pageEmptyWithNext.hasNext = true ∧ pageBNoHeader.hasNext = false
      ∧ ScrapeUserRepos sampleLib (NewGitHubScraper emptyFirstPageClient "") "u" 2
          = some { requested := [pageURL userFormat (NewGitHubScraper emptyFirstPageClient "") "u" 1],
                   repos := .nil, err := none }
      ∧ [pageURL userFormat (NewGitHubScraper emptyFirstPageClient "") "u" 1].length ≠ 2
      ∧ (Slice.nil : Slice Repository).toList
          ≠ pageEmptyWithNext.records ++ pageBNoHeader.records)
    ∧ (serves sampleLib (NewGitHubScraper quotedUrlClient "")
        (pageURL userFormat (NewGitHubScraper quotedUrlClient "") "u" 1) pageA
      ∧ serves sampleLib (NewGitHubScraper quotedUrlClient "")
        (pageURL userFormat (NewGitHubScraper quotedUrlClient "") "u" 2) pageBQuotedUrl
      ∧ pageA.hasNext = true ∧ pageA.records ≠ [] ∧ pageBQuotedUrl.hasNext = false
      ∧ ScrapeUserRepos sampleLib (NewGitHubScraper quotedUrlClient "") "u" 3
          = some { requested := [pageURL userFormat (NewGitHubScraper quotedUrlClient "") "u" 1,
                                 pageURL userFormat (NewGitHubScraper quotedUrlClient "") "u" 2,
                                 pageURL userFormat (NewGitHubScraper quotedUrlClient "") "u" 3],
                   repos := .nil, err := some "unexpected request" }) := by
  refine ⟨⟨⟨rfl, rfl⟩, ⟨rfl, rfl⟩, ?_, ?_, ?_, ?_, ?_⟩, ⟨rfl, rfl⟩, ⟨rfl, rfl⟩, ?_, ?_, ?_, ?_⟩ <;>
    decide

/-- C3 (amended): for both entry points, every N >= 1 and every sequence of N
pages served with status 200 whose Link headers are comma-separated lists of
entries `<url>; rel="name"` with no double quote inside a URL or a relation
name (commas are allowed there), where the last page has no entry with
relation `next`, every earlier page has one and every earlier page holds at
least one record: the collector (with at least N iterations allowed) requests
exactly the N page URLs in order and returns the records of all N pages
concatenated in page order, with no error. -/
theorem C3_collector_fetches_all_pages (e : EntryPoint) (lib : Lib) (gs : GitHubScraper)
    (name : String) (page : Nat → ServedPage) (N : Nat) (hN : 1 ≤ N)
    (hbound : (N : Int) < 9223372036854775808)
    (hserved : ∀ j : Nat, 1 ≤ j → j ≤ N →
      serves lib gs (pageURL e.format gs name (j : Int)) (page j)
      ∧ ∀ x ∈ (page j).links, x.unquoted = true)
    (hearlier : ∀ j : Nat, 1 ≤ j → j < N → (page j).hasNext = true ∧ (page j).records ≠ [])
    (hlast : (page N).hasNext = false)
    (fuel : Nat) (hfuel : N ≤ fuel) :
    ∃ out : ScrapeOutcome, e.scrape lib gs name fuel = some out
      ∧ out.requested
          = (List.range N).map (fun (i : Nat) => pageURL e.format gs name ((i : Int) + 1))
      ∧ out.requested.length = N
      ∧ out.repos.toList = (List.range N).flatMap (fun (i : Nat) => (page (i + 1)).records)
      ∧ out.err = none := by
  obtain ⟨n, rfl⟩ : ∃ n, N = n + 1 := ⟨N - 1, by omega⟩
  have hidx : ∀ i : Nat, ((i + 1 : Nat) : Int) = 1 + (i : Int) := by
    intro i; push_cast; ring
  have hfetch : ∀ i : Nat, i ≤ n →
      fetchReposPage lib gs (pageURL e.format gs name (1 + (i : Int)))
        = ((page (i + 1)).records, (page (i + 1)).hasNext, none) := by
    intro i hi
    have hs := hserved (i + 1) (by omega) (by omega)
    rw [hidx] at hs
    exact fetch_of_serves_unquoted lib gs _ _ hs.1 hs.2
  have hcont : ∀ i : Nat, i < n →
      (fetchReposPage lib gs (pageURL e.format gs name (1 + (i : Int)))).2.2 = none
      ∧ stopsAfter (fetchReposPage lib gs (pageURL e.format gs name (1 + (i : Int)))) = false := by
    intro i hi
    obtain ⟨hnext, hrec⟩ := hearlier (i + 1) (by omega) (by omega)
    rw [hfetch i (by omega)]
    simp [stopsAfter, hnext, hrec]
  have hok : (fetchReposPage lib gs (pageURL e.format gs name (1 + (n : Int)))).2.2 = none := by
    rw [hfetch n (le_refl n)]
  have hstop : stopsAfter (fetchReposPage lib gs (pageURL e.format gs name (1 + (n : Int))))
      = true := by
    rw [hfetch n (le_refl n)]
    simp [stopsAfter, hlast]
  refine ⟨_, (scrape_eq_loop e lib gs name fuel).trans
    (scrapeLoop_stops_at lib gs e.format name n fuel hfuel hbound hcont hok hstop), ?_, ?_, ?_, rfl⟩
  · exact urlsFrom_one _ _ _ _
  · show (urlsFrom e.format gs name 1 (n + 1)).length = n + 1
    rw [urlsFrom_one]
    simp
  · show (appendPages lib gs e.format name .nil 1 (n + 1)).toList = _
    rw [appendPages_toList]
    simp only [Slice.toList, List.nil_append]
    apply congrArg List.flatten
    apply List.map_congr_left
    intro i hi
    rw [hfetch i (by have := List.mem_range.mp hi; omega)]

/-- C3 (amended) at a concrete run: the two-page server whose link URLs hold
commas, user entry point. -/
theorem C3_collector_witness :
    ∃ out : ScrapeOutcome,
      EntryPoint.scrape .user sampleLib (NewGitHubScraper commaUrlClient "") "u" 2 = some out
      ∧ out.requested = (List.range 2).map (fun (i : Nat) =>
          pageURL EntryPoint.user.format (NewGitHubScraper commaUrlClient "") "u" ((i : Int) + 1))
      ∧ out.requested.length = 2
      ∧ out.repos.toList = (List.range 2).flatMap (fun (i : Nat) => (commaUrlPages (i + 1)).records)
      ∧ out.err = none :=
  C3_collector_fetches_all_pages .user sampleLib (NewGitHubScraper commaUrlClient "") "u"
    commaUrlPages 2 (by decide) (by decide)
    (by intro j h1 h2; interval_cases j <;> exact ⟨⟨rfl, rfl⟩, by decide⟩)
    (by intro j h1 h2; interval_cases j; decide)
    (by decide)
    2 (le_refl 2)

/-- C4: the collector is all-or-nothing. For both entry points, if the
fetches of pages 1..K-1 succeed and let the loop go on, and the fetch of page
K fails with an error, then the collector (with at least K iterations allowed)
returns that error and a nil slice (zero records), having requested the URLs
of pages 1..K and none after. Each of the three failures of a page fetch
(transport error, status other than 200, body that does not decode) yields no
records and an error; for a status other than 200 the error message is
`API request failed with status code <code>: <body>`. -/
theorem C4_collector_all_or_nothing (e : EntryPoint) (lib : Lib) (gs : GitHubScraper)
    (name : String) (K : Nat) (hK : 1 ≤ K) (hbound : (K : Int) < 9223372036854775808)
    (err : String)
    (hbefore : ∀ j : Nat, 1 ≤ j → j < K →
      (fetchPage e lib gs name (j : Int)).2.2 = none
      ∧ stopsAfter (fetchPage e lib gs name (j : Int)) = false)
    (hfail : (fetchPage e lib gs name (K : Int)).2.2 = some err)
    (fuel : Nat) (hfuel : K ≤ fuel) :
    e.scrape lib gs name fuel
        = some { requested := (List.range K).map
                   (fun (i : Nat) => pageURL e.format gs name ((i : Int) + 1)),
                 repos := .nil, err := some err }
      ∧ (Slice.nil : Slice Repository).len = 0
      ∧ (∀ (url m : String), makeRequest lib gs url = .error m →
          fetchReposPage lib gs url = ([], false, some m))
      ∧ (∀ (url : String) (resp : Response), makeRequest lib gs url = .ok resp →
          resp.StatusCode ≠ 200 →
          fetchReposPage lib gs url = ([], false,
            some ("API request failed with status code " ++ formatInt resp.StatusCode ++ ": "
              ++ resp.Body)))
      ∧ (∀ (url m : String) (resp : Response), makeRequest lib gs url = .ok resp →
          resp.StatusCode = 200 → lib.decodeRepos resp.Body = .error m →
          fetchReposPage lib gs url = ([], false, some m)) := by
  obtain ⟨n, rfl⟩ : ∃ n, K = n + 1 := ⟨K - 1, by omega⟩
  have hidx : ∀ i : Nat, ((i + 1 : Nat) : Int) = 1 + (i : Int) := by
    intro i; push_cast; ring
  have hcont : ∀ i : Nat, i < n →
      (fetchReposPage lib gs (pageURL e.format gs name (1 + (i : Int)))).2.2 = none
      ∧ stopsAfter (fetchReposPage lib gs (pageURL e.format gs name (1 + (i : Int)))) = false := by
    intro i hi
    have a := hbefore (i + 1) (by omega) (by omega)
    rw [hidx] at a
    exact a
  rw [hidx] at hfail
  refine ⟨?_, rfl, ?_, ?_, ?_⟩
  · rw [scrape_eq_loop, scrapeLoop_fails_at lib gs e.format name n fuel hfuel hbound err hcont hfail,
      urlsFrom_one]
  · intro url m h
    unfold fetchReposPage
    rw [h]
  · intro url resp h hcode
    unfold fetchReposPage
    rw [h]
    simp only [ne_eq, hcode, not_false_eq_true, if_true, sprintf_status]
  · intro url m resp h hcode hdec
    unfold fetchReposPage
    rw [h]
    simp only [ne_eq, hcode, not_true_eq_false, if_false, hdec]

/-- C4 at the specification's example: page 1 has a record and a `next` link,
page 2 answers HTTP 403 with body `{"message":"rate limited"}`. -/
theorem C4_rate_limited_witness :
    (fetchPage .user sampleLib (NewGitHubScraper rateLimitedClient "") "u" 2).2.2
        = some "API request failed with status code 403: \x7b\"message\":\"rate limited\"\x7d"
      ∧ EntryPoint.scrape .user sampleLib (NewGitHubScraper rateLimitedClient "") "u" 2
        = some { requested := (List.range 2).map (fun (i : Nat) =>
                   pageURL EntryPoint.user.format (NewGitHubScraper rateLimitedClient "") "u"
                     ((i : Int) + 1)),
                 repos := .nil,
                 err := some
                   "API request failed with status code 403: \x7b\"message\":\"rate limited\"\x7d" } :=
  ⟨by decide,
   (C4_collector_all_or_nothing .user sampleLib (NewGitHubScraper rateLimitedClient "") "u" 2
      (by decide) (by decide)
      "API request failed with status code 403: \x7b\"message\":\"rate limited\"\x7d"
      (by intro j h1 h2; interval_cases j; decide)
      (by decide) 2 (le_refl 2)).1⟩

/-- C5 (as stated) fails: a header whose only entry has relation `prev`, with
the text `rel="next"` inside its URL, makes `parseLinkHeader` answer true. -/
theorem C5_prev_only_counterexample :
    renderHeader [{ pre := "", url := "https://api.github.com/x?q=rel=\"next\"&page=1",
                    rel := "prev", post := "" }]
        = "<https://api.github.com/x?q=rel=\"next\"&page=1>; rel=\"prev\""
      ∧ parseLinkHeader "<https://api.github.com/x?q=rel=\"next\"&page=1>; rel=\"prev\"" = true
      ∧ ¬ ∃ x ∈ [({ pre := "", url := "https://api.github.com/x?q=rel=\"next\"&page=1",
                    rel := "prev", post := "" } : LinkEntry)], x.rel = "next" := by
  refine ⟨by decide, by decide, by decide⟩

/-- C5 (amended): for every header that is a comma-separated list of entries
`<url>; rel="name"` (each possibly padded with white space) whose URLs and
relation names contain no double quote (they may contain commas and any other
text), `parseLinkHeader` is true if and only if at least one entry has relation
name `next`. -/
theorem C5_parseLinkHeader_iff_next_entry (es : List LinkEntry)
    (hq : ∀ x ∈ es, x.unquoted = true) :
    parseLinkHeader (renderHeader es) = true ↔ ∃ x ∈ es, x.rel = "next" := by
  rw [parseLinkHeader_renderHeader_unquoted es hq, List.any_eq_true]
  simp only [beq_iff_eq]

set_option maxRecDepth 100000 in
/-- C5 (amended) at a concrete header with `prev`, `first`, `next` and `last`
entries whose URLs hold commas. -/
theorem C5_parseLinkHeader_witness :
    (parseLinkHeader (renderHeader (pageBCommaUrl.links ++ pageACommaUrl.links)) = true
        ↔ ∃ x ∈ pageBCommaUrl.links ++ pageACommaUrl.links, x.rel = "next")
      ∧ parseLinkHeader (renderHeader (pageBCommaUrl.links ++ pageACommaUrl.links)) = true :=
  ⟨C5_parseLinkHeader_iff_next_entry (pageBCommaUrl.links ++ pageACommaUrl.links) (by decide),
    by decide⟩

/-- C6: `parseLinkHeader` is false on the empty header; false on every header
built only from ordinary entries with relation `prev` or `last`; and true on
every such header to which an ordinary entry with relation `next` is added, at
any position of the comma-separated list. -/
theorem C6_parseLinkHeader_prev_last_next (es1 es2 : List LinkEntry) (nxt : LinkEntry)
    (h1 : ∀ x ∈ es1, x.ordinary = true ∧ (x.rel = "prev" ∨ x.rel = "last"))
    (h2 : ∀ x ∈ es2, x.ordinary = true ∧ (x.rel = "prev" ∨ x.rel = "last"))
    (hn : nxt.ordinary = true ∧ nxt.rel = "next") :
    parseLinkHeader "" = false
      ∧ parseLinkHeader (renderHeader (es1 ++ es2)) = false
      ∧ parseLinkHeader (renderHeader (es1 ++ nxt :: es2)) = true := by
  refine ⟨rfl, ?_, ?_⟩
  · rw [parseLinkHeader_renderHeader, List.any_eq_false]
    · intro x hx
      have hrel : x.rel = "prev" ∨ x.rel = "last" := by
        rcases List.mem_append.mp hx with h | h
        · exact (h1 x h).2
        · exact (h2 x h).2
      rcases hrel with h | h <;> rw [h] <;> decide
    · intro x hx
      rcases List.mem_append.mp hx with h | h
      · exact (h1 x h).1
      · exact (h2 x h).1
  · rw [parseLinkHeader_renderHeader, List.any_eq_true]
    · exact ⟨nxt, by simp, by rw [hn.2]; decide⟩
    · intro x hx
      rcases List.mem_append.mp hx with h | h
      · exact (h1 x h).1
      · rcases List.mem_cons.mp h with h | h
        · rw [h]; exact hn.1
        · exact (h2 x h).1

/-- C6 at concrete headers: `prev` and `last` entries, then a `next` entry between them. -/
theorem C6_parseLinkHeader_witness :
    parseLinkHeader "" = false
      ∧ parseLinkHeader (renderHeader (pageB.links ++ linksLast)) = false
      ∧ parseLinkHeader (renderHeader (pageB.links ++ entryNext :: linksLast)) = true :=
  C6_parseLinkHeader_prev_last_next pageB.links linksLast entryNext
    (by decide) (by decide) (by decide)

/-- C7: what the code does at every collection, on a file system where
nothing fails: the first line written by `SaveToCSV` names its sixth column
`Focks`, so it is not the header row of the thirteen column names of the
specification (whose sixth name is `Forks`). -/
theorem C7_header_line_has_Focks (repos : List Repository) (filename : String) :
    (SaveToCSV healthyFS repos filename).file
        = some (csvHeader ++ String.join (repos.map csvRow))
      ∧ firstLine (csvHeader ++ String.join (repos.map csvRow))
        = "Name,Full Name,Description,Language,Stars,Focks,Clone URL,HTML URL,Created At,Updated At,Private,Fork,Archived"
      ∧ firstLine (csvHeader ++ String.join (repos.map csvRow)) ≠ ",".intercalate specColumns := by
  refine ⟨?_, firstLine_csvHeader_append _, ?_⟩
  · rw [saveToCSV_ok healthyFS repos filename rfl (fun _ => rfl)]
  · rw [firstLine_csvHeader_append]
    decide

/-- C8: for every record, the row written by `SaveToCSV` is the thirteen
cells joined by commas and ended by a line feed, where the description cell is
a double quote, the description with every double quote doubled and every
other character unchanged, and a double quote, and every other cell is the
field itself (strings verbatim, numbers by `%d`, booleans by `%t`); the code's
`ReplaceAll` is that doubling; `say "hi"` renders as `"say ""hi"""`. -/
theorem C8_description_cell_quoted (r : Repository) :
    csvRow r = r.Name ++ "," ++ r.FullName ++ "," ++ quotedCell r.Description ++ ","
        ++ r.Language ++ "," ++ formatInt r.Stars ++ "," ++ formatInt r.Forks ++ ","
        ++ r.CloneURL ++ "," ++ r.HTMLURL ++ "," ++ r.CreatedAt ++ "," ++ r.UpdatedAt ++ ","
        ++ formatBool r.Private ++ "," ++ formatBool r.Fork ++ "," ++ formatBool r.Archived
        ++ "\n"
      ∧ strings.ReplaceAll r.Description "\"" "\"\""
          = String.mk (r.Description.toList.flatMap
              (fun c => if c = '"' then ['"', '"'] else [c]))
      ∧ quotedCell r.Description
          = "\"" ++ strings.ReplaceAll r.Description "\"" "\"\"" ++ "\""
      ∧ quotedCell "say \"hi\"" = "\"say \"\"hi\"\"\""
      ∧ "\"" ++ strings.ReplaceAll "say \"hi\"" "\"" "\"\"" ++ "\"" = "\"say \"\"hi\"\"\"" := by
  refine ⟨?_, replaceAll_quote _, quotedCell_eq _, by decide, by decide⟩
  rw [csvRow_eq_cells]
  apply String.ext
  rw [String.data_append, intercalate_data]
  simp [specCells, List.intercalate, List.intersperse, String.data_append]

/-- C9: for every collection, when neither the creation of the file nor any
write fails, the text written by `SaveToCSV` is the header line followed by
one row per record, in collection order (so exactly n rows for n records);
each row is the record's thirteen cells Name, FullName, quoted Description,
Language, Stars, Forks, CloneURL, HTMLURL, CreatedAt, UpdatedAt, Private,
Fork, Archived joined by commas and ended by a line feed, as many cells as the
header line has names and in its order; Stars and Forks are decimal numerals
(reading them back gives the number) and the booleans are the literals `true`
and `false`. -/
theorem C9_csv_text (fs : FileSystem) (repos : List Repository) (filename : String)
    (hc : fs.createError filename = none) (hw : ∀ k, fs.writeError k = none) :
    SaveToCSV fs repos filename
        = { file := some (csvHeader
              ++ String.join (repos.map (fun r => ",".intercalate (specCells r) ++ "\n"))),
            err := none }
      ∧ (repos.map (fun r => ",".intercalate (specCells r) ++ "\n")).length = repos.length
      ∧ (∀ r : Repository, (specCells r).length = 13
          ∧ (specCells r).length = (strings.Split (firstLine csvHeader) ",").length)
      ∧ strings.Split (firstLine csvHeader) ","
          = ["Name", "Full Name", "Description", "Language", "Stars", "Focks", "Clone URL",
             "HTML URL", "Created At", "Updated At", "Private", "Fork", "Archived"]
      ∧ (∀ n : Int, readDecimal (formatInt n) = some n)
      ∧ formatBool true = "true" ∧ formatBool false = "false" := by
  have hsplit : strings.Split (firstLine csvHeader) ","
      = ["Name", "Full Name", "Description", "Language", "Stars", "Focks", "Clone URL",
         "HTML URL", "Created At", "Updated At", "Private", "Fork", "Archived"] := by decide
  refine ⟨?_, by simp, ?_, hsplit, readDecimal_formatInt, rfl, rfl⟩
  · rw [saveToCSV_ok fs repos filename hc hw]
    have hrows : repos.map csvRow
        = repos.map (fun r => ",".intercalate (specCells r) ++ "\n") :=
      List.map_congr_left (fun r _ => csvRow_eq_cells r)
    rw [hrows]
  · intro r
    rw [hsplit]
    exact ⟨rfl, rfl⟩

/-- C9 at a concrete collection of one record, on a file system where nothing fails. -/
theorem C9_csv_text_witness :
    SaveToCSV healthyFS [sampleRepo "a" "say \"hi\""] "out.csv"
        = { file := some (csvHeader ++ String.join ([sampleRepo "a" "say \"hi\""].map
              (fun r => ",".intercalate (specCells r) ++ "\n"))),
            err := none }
      ∧ ",".intercalate (specCells (sampleRepo "a" "say \"hi\"")) ++ "\n"
        = "a,octo/a,\"say \"\"hi\"\"\",Go,5,2,https://github.com/octo/x.git,https://github.com/octo/x,2024-01-01T00:00:00Z,2024-02-01T00:00:00Z,false,false,false\n" :=
  ⟨(C9_csv_text healthyFS [sampleRepo "a" "say \"hi\""] "out.csv" rfl (fun _ => rfl)).1,
   by decide⟩

/-- C10: what the code does at every client, token, target name and page
number: the URL of `ScrapeUserRepos` is the documented one; the URL of
`ScraperOrgRepos` has `per_page=100sort=updated`, without the `&` between the
two parameters, so it is not the documented URL; e.g. the one request of a run
on organisation `o` goes to that malformed URL. -/
theorem C10_org_url_lacks_separator (client : HttpClient) (token name : String) (page : Int) :
    pageURL userFormat (NewGitHubScraper client token) name page
        = "https://api.github.com/users/" ++ name ++ "/repos?page=" ++ formatInt page
            ++ "&per_page=100&sort=updated&direction=desc"
      ∧ pageURL orgFormat (NewGitHubScraper client token) name page
        = "https://api.github.com/orgs/" ++ name ++ "/repos?page=" ++ formatInt page
            ++ "&per_page=100sort=updated&direction=desc"
      ∧ pageURL orgFormat (NewGitHubScraper client token) name page
        ≠ "https://api.github.com/orgs/" ++ name ++ "/repos?page=" ++ formatInt page
            ++ "&per_page=100&sort=updated&direction=desc"
      ∧ (ScraperOrgRepos sampleLib (NewGitHubScraper emptyFirstPageClient "") "o" 1).map
          (fun out => out.requested)
        = some ["https://api.github.com/orgs/o/repos?page=1&per_page=100sort=updated&direction=desc"] := by
  have huser : pageURL userFormat (NewGitHubScraper client token) name page
      = "https://api.github.com/users/" ++ name ++ "/repos?page=" ++ formatInt page
          ++ "&per_page=100&sort=updated&direction=desc" := by
    apply String.ext
    simp only [String.data_append, List.append_assoc]
    rfl
  have horg : pageURL orgFormat (NewGitHubScraper client token) name page
      = "https://api.github.com/orgs/" ++ name ++ "/repos?page=" ++ formatInt page
          ++ "&per_page=100sort=updated&direction=desc" := by
    apply String.ext
    simp only [String.data_append, List.append_assoc]
    rfl
  refine ⟨huser, horg, ?_, by decide⟩
  rw [horg]
  intro h
  have hd := congrArg String.data h
  simp only [String.data_append] at hd
  have htail := List.append_cancel_left hd
  exact absurd htail (by decide)

/-- C16: for every list of repositories, `FilterRepos(repos, true, true, true)`
returns the records of `repos` themselves: the same records in the same order,
hence the same length. -/
theorem C16_FilterRepos_all_flags_identity (repos : List Repository) :
    (FilterRepos repos true true true).toList = repos
      ∧ (FilterRepos repos true true true).len = repos.length := by
  have h : (FilterRepos repos true true true).toList = repos := by
    rw [FilterRepos_eq_sliceOf, sliceOf_toList]
    simp [survives]
  exact ⟨h, by rw [Slice.len, h]⟩

/-- C18: `FilterRepos` composes flag-wise: filtering with (p1,f1,a1) and then with
(p2,f2,a2) returns the same slice as filtering once with (p1 and p2, f1 and f2,
a1 and a2). Hence it is idempotent for fixed flags, two filters commute, and
the result with fewer flags set is a sublist of the result with more flags set. -/
theorem C18_FilterRepos_composes (repos : List Repository) (p1 f1 a1 p2 f2 a2 : Bool) :
    FilterRepos (FilterRepos repos p1 f1 a1).toList p2 f2 a2
        = FilterRepos repos (p1 && p2) (f1 && f2) (a1 && a2)
      ∧ FilterRepos (FilterRepos repos p1 f1 a1).toList p1 f1 a1 = FilterRepos repos p1 f1 a1
      ∧ FilterRepos (FilterRepos repos p1 f1 a1).toList p2 f2 a2
        = FilterRepos (FilterRepos repos p2 f2 a2).toList p1 f1 a1
      ∧ ((FilterRepos repos p1 f1 a1).toList).Sublist
          (FilterRepos repos (p1 || p2) (f1 || f2) (a1 || a2)).toList := by
  have hcomp : ∀ (q1 g1 b1 q2 g2 b2 : Bool),
      FilterRepos (FilterRepos repos q1 g1 b1).toList q2 g2 b2
        = FilterRepos repos (q1 && q2) (g1 && g2) (b1 && b2) := by
    intro q1 g1 b1 q2 g2 b2
    rw [FilterRepos_eq_sliceOf, FilterRepos_eq_sliceOf, FilterRepos_eq_sliceOf, sliceOf_toList,
      List.filter_filter]
    congr 1
    apply List.filter_congr
    intro r _
    simp only [survives]
    generalize r.Private = x
    generalize r.Fork = y
    generalize r.Archived = z
    cases q1 <;> cases g1 <;> cases b1 <;> cases q2 <;> cases g2 <;> cases b2 <;>
      cases x <;> cases y <;> cases z <;> rfl
  refine ⟨hcomp _ _ _ _ _ _, ?_, ?_, ?_⟩
  · rw [hcomp]; simp
  · rw [hcomp, hcomp]
    simp [Bool.and_comm]
  · have hsub : FilterRepos repos p1 f1 a1
        = FilterRepos (FilterRepos repos (p1 || p2) (f1 || f2) (a1 || a2)).toList p1 f1 a1 := by
      rw [hcomp]
      cases p1 <;> cases f1 <;> cases a1 <;> simp
    rw [hsub, FilterRepos_eq_sliceOf _ _ _ (FilterRepos repos _ _ _).toList, sliceOf_toList]
    exact List.filter_sublist _

/-- C14: what the option loop does with the documented output selector: the
arguments `--output csv` and `--output both` leave the format at `json`, so
only the JSON export runs; no argument list without the misspelt `--ouput`
changes the format; the loop honours `--ouput` instead. -/
theorem C14_output_option_not_honoured :
    (parseOptions ["--output", "csv"] defaultOptions).outputFormat = "json"
      ∧ exportsFor (parseOptions ["--output", "csv"] defaultOptions).outputFormat = [Export.json]
      ∧ (parseOptions ["--output", "both"] defaultOptions).outputFormat = "json"
      ∧ exportsFor (parseOptions ["--output", "both"] defaultOptions).outputFormat = [Export.json]
      ∧ (∀ args : List String,
          (parseOptions (args.filter (fun a => a != "--ouput")) defaultOptions).outputFormat
            = "json")
      ∧ (parseOptions ["--ouput", "csv"] defaultOptions).outputFormat = "csv"
      ∧ exportsFor "csv" = [Export.csv] ∧ exportsFor "both" = [Export.json, Export.csv] := by
  refine ⟨by decide, by decide, by decide, by decide, ?_, by decide, by decide, by decide⟩
  intro args
  exact parseOptions_format_aux _ _ _ (le_refl _) (by simp [List.mem_filter])

/-- C15: what the option loop does with the filter flags: with no options they
are private excluded, forks included, archived excluded; `--include-forks`
sets includeForks to false, so a fork that the default keeps is filtered out;
the documented `--include-forked` changes nothing; `--include-private` and
`--include-archived` given first set their flag whatever follows. -/
theorem C15_include_forks_excludes_forks :
    (parseOptions [] defaultOptions).includePrivate = false
      ∧ (parseOptions [] defaultOptions).includeForks = true
      ∧ (parseOptions [] defaultOptions).includeArchived = false
      ∧ (parseOptions ["--include-forks"] defaultOptions).includeForks = false
      ∧ (parseOptions ["--include-forked"] defaultOptions) = defaultOptions
      ∧ (FilterRepos [forkRepo] false true false).toList = [forkRepo]
      ∧ (FilterRepos [forkRepo]
          (parseOptions ["--include-forks"] defaultOptions).includePrivate
          (parseOptions ["--include-forks"] defaultOptions).includeForks
          (parseOptions ["--include-forks"] defaultOptions).includeArchived).toList = []
      ∧ (∀ args : List String,
          (parseOptions ("--include-private" :: args) defaultOptions).includePrivate = true)
      ∧ (∀ args : List String,
          (parseOptions ("--include-archived" :: args) defaultOptions).includeArchived = true) := by
  refine ⟨by decide, by decide, by decide, by decide, by decide, by decide, by decide, ?_, ?_⟩
  · intro args
    rw [parseOptions_cons]
    simp only [show ¬ ("--include-private" : String) = "--token" by decide,
      show ¬ ("--include-private" : String) = "--ouput" by decide, if_false, if_true]
    exact parseOptions_private_aux _ _ _ (le_refl _) rfl
  · intro args
    rw [parseOptions_cons]
    simp only [show ¬ ("--include-archived" : String) = "--token" by decide,
      show ¬ ("--include-archived" : String) = "--ouput" by decide,
      show ¬ ("--include-archived" : String) = "--include-private" by decide,
      show ¬ ("--include-archived" : String) = "--include-forks" by decide, if_false, if_true]
    exact parseOptions_archived_aux _ _ _ (le_refl _) rfl

/-- C11 (as stated) fails on the sums: two records with 2^62 stars each give
`totalStars` = -2^63 in Go `int` arithmetic, not the sum 2^63. -/
theorem C11_star_sum_overflow_counterexample :
    (summaryLoop [starRepo "Go" 4611686018427387904, starRepo "Go" 4611686018427387904]).totalStars
        = -9223372036854775808
      ∧ ([starRepo "Go" 4611686018427387904, starRepo "Go" 4611686018427387904].map
          (fun r => r.Stars)).sum = 9223372036854775808
      ∧ (summaryLoop [starRepo "Go" 4611686018427387904,
            starRepo "Go" 4611686018427387904]).totalStars
        ≠ ([starRepo "Go" 4611686018427387904, starRepo "Go" 4611686018427387904].map
            (fun r => r.Stars)).sum := by
  refine ⟨by decide, by decide, by decide⟩

/-- C11 (amended): for every collection whose sums of Stars and of Forks lie
in the range of a 64-bit `int` (a Go slice has fewer than 2^63 records), the
aggregation in `PrintSummary` prints the number of records as the total and
yields totalStars = sum of Stars, totalForks = sum of Forks, privateCount,
forkCount, archivedCount = number of records with Private, Fork, Archived set,
and a language map that has, for each non-empty label carried by some record,
one entry with the number of records carrying it, and no other entry (none
for the empty label); its counts sum to the number of records with a
non-empty language. Without the range condition the two sums are the true
sums reduced to 64 bits. -/
theorem C11_summary_aggregation (repos : List Repository) (targetName : String)
    (hlen : (repos.length : Int) < 9223372036854775808)
    (hstars : -9223372036854775808 ≤ (repos.map (fun r => r.Stars)).sum
      ∧ (repos.map (fun r => r.Stars)).sum < 9223372036854775808)
    (hforks : -9223372036854775808 ≤ (repos.map (fun r => r.Forks)).sum
      ∧ (repos.map (fun r => r.Forks)).sum < 9223372036854775808) :
    (PrintSummary repos targetName).printed[1]?
        = some (Sprintf "Total repositories found: %d\n" [.int repos.length])
      ∧ (summaryLoop repos).totalStars = (repos.map (fun r => r.Stars)).sum
      ∧ (summaryLoop repos).totalForks = (repos.map (fun r => r.Forks)).sum
      ∧ (summaryLoop repos).privateCount = repos.countP (fun r => r.Private)
      ∧ (summaryLoop repos).forkCount = repos.countP (fun r => r.Fork)
      ∧ (summaryLoop repos).archivedCount = repos.countP (fun r => r.Archived)
      ∧ (∀ lang : String, (summaryLoop repos).languages.lookup lang
          = if lang ≠ "" ∧ 0 < languageCount repos lang
            then some (languageCount repos lang : Int) else none)
      ∧ ((summaryLoop repos).languages.map Prod.fst).Nodup
      ∧ ((summaryLoop repos).languages.map Prod.snd).sum
          = ((repos.countP (fun r => r.Language != "") : Nat) : Int)
      ∧ (summaryLoop repos).totalStars = wrapInt64 (repos.map (fun r => r.Stars)).sum
      ∧ (summaryLoop repos).totalForks = wrapInt64 (repos.map (fun r => r.Forks)).sum := by
  obtain ⟨hc1, hc2, hc3⟩ := summary_counts repos
  obtain ⟨hl1, hl2, _, hl4⟩ := summary_languages repos hlen
  have hcp : ∀ p : Repository → Bool, wrapInt64 ((repos.countP p : Nat) : Int)
      = ((repos.countP p : Nat) : Int) := by
    intro p
    have hle : ((repos.countP p : Nat) : Int) ≤ (repos.length : Int) := by
      exact_mod_cast List.countP_le_length _
    apply wrapInt64_id <;> omega
  refine ⟨?_, ?_, ?_, ?_, ?_, ?_, hl1, hl2, hl4, summary_totalStars repos,
    summary_totalForks repos⟩
  · unfold PrintSummary
    split <;> rfl
  · rw [summary_totalStars, wrapInt64_id _ hstars.1 hstars.2]
  · rw [summary_totalForks, wrapInt64_id _ hforks.1 hforks.2]
  · rw [hc1, hcp]
  · rw [hc2, hcp]
  · rw [hc3, hcp]

/-- C11 (amended) at the specification's example: languages Go, Go and none,
stars 5, 10 and 0 give total 3, 15 stars and the histogram with Go at 2. -/
theorem C11_summary_witness :
    ((summaryLoop [starRepo "Go" 5, starRepo "Go" 10, starRepo "" 0]).totalStars
        = ([starRepo "Go" 5, starRepo "Go" 10, starRepo "" 0].map (fun r => r.Stars)).sum)
      ∧ (summaryLoop [starRepo "Go" 5, starRepo "Go" 10, starRepo "" 0]).totalStars = 15
      ∧ (summaryLoop [starRepo "Go" 5, starRepo "Go" 10, starRepo "" 0]).languages = [("Go", 2)]
      ∧ (PrintSummary [starRepo "Go" 5, starRepo "Go" 10, starRepo "" 0] "octo").printed[1]?
          = some "Total repositories found: 3\n" :=
  ⟨(C11_summary_aggregation [starRepo "Go" 5, starRepo "Go" 10, starRepo "" 0] "octo"
      (by decide) (by decide) (by decide)).2.1,
   by decide, by decide, by decide⟩

/-- C17: for every string h, `parseLinkHeader(h)` equals the whole-header
substring test `strings.Contains(h, "rel=\"next\"")`: splitting on commas and
trimming each piece before the per-piece test never changes the answer. -/
theorem C17_parseLinkHeader_eq_contains (h : String) :
    parseLinkHeader h = strings.Contains h "rel=\"next\"" := by
  by_cases he : h = ""
  · subst he
    decide
  · have hsep : ("," : String) ≠ "" := by decide
    have hshape : parseLinkHeader h
        = ((strings.splitChars [','] h.data.length h.data).map String.mk).any
            (fun link => strings.containsChars needleChars
              (strings.trimSpaceChars link.data)) := by
      unfold parseLinkHeader strings.Split
      rw [if_neg he, if_neg hsep]
      rfl
    have hrhs : strings.Contains h "rel=\"next\"" = strings.containsChars needleChars h.data :=
      rfl
    rw [hshape, hrhs, splitChars_single _ _ _ (Nat.le_refl _)]
    have hany : ∀ l : List (List Char),
        (l.map String.mk).any (fun link : String => strings.containsChars needleChars
          (strings.trimSpaceChars link.data)) = l.any (strings.containsChars needleChars) := by
      intro l
      induction l with
      | nil => rfl
      | cons p ps ih => rw [List.map_cons, List.any_cons, List.any_cons, ih, contains_trim_needle]
    rw [hany]
    exact any_splitOn_contains needleChars 'r' ['e', 'l', '=', '"', 'n', 'e', 'x', 't', '"'] rfl
      (by decide) h.data

set_option maxRecDepth 100000 in
/-- C19: for every record whose Name, FullName, Language, CloneURL, HTMLURL,
CreatedAt and UpdatedAt contain no comma, no double quote and no line break,
reading the record's row with the standard CSV quoting rules yields exactly
13 cells, in header order, the third of which is the record's Description
exactly, whatever the Description contains; and for the record
`commaNameRepo`, whose Name holds a comma, the row yields 14 cells. -/
theorem C19_csv_row_reads_back (r : Repository) (h : plainFields r = true) :
    csvCells (csvRow r)
        = some [r.Name, r.FullName, r.Description, r.Language, formatInt r.Stars,
            formatInt r.Forks, r.CloneURL, r.HTMLURL, r.CreatedAt, r.UpdatedAt,
            formatBool r.Private, formatBool r.Fork, formatBool r.Archived]
      ∧ (csvCells (csvRow r)).map List.length = some 13
      ∧ (csvCells (csvRow r)).map (fun cells => cells[2]?) = some (some r.Description)
      ∧ (csvCells (csvRow commaNameRepo)).map List.length = some 14
      ∧ plainFields { commaNameRepo with Name := "ab" } = true := by
  have hrow := csvCells_csvRow r h
  refine ⟨hrow, by rw [hrow]; rfl, by rw [hrow]; rfl, by decide, by decide⟩

set_option maxRecDepth 100000 in
/-- C19 at a record whose description holds a comma, quotes and a line break. -/
theorem C19_csv_row_witness :
    csvCells (csvRow (sampleRepo "a" "say, \"hi\"\nbye"))
        = some [(sampleRepo "a" "say, \"hi\"\nbye").Name,
            (sampleRepo "a" "say, \"hi\"\nbye").FullName,
            (sampleRepo "a" "say, \"hi\"\nbye").Description,
            (sampleRepo "a" "say, \"hi\"\nbye").Language,
            formatInt (sampleRepo "a" "say, \"hi\"\nbye").Stars,
            formatInt (sampleRepo "a" "say, \"hi\"\nbye").Forks,
            (sampleRepo "a" "say, \"hi\"\nbye").CloneURL,
            (sampleRepo "a" "say, \"hi\"\nbye").HTMLURL,
            (sampleRepo "a" "say, \"hi\"\nbye").CreatedAt,
            (sampleRepo "a" "say, \"hi\"\nbye").UpdatedAt,
            formatBool (sampleRepo "a" "say, \"hi\"\nbye").Private,
            formatBool (sampleRepo "a" "say, \"hi\"\nbye").Fork,
            formatBool (sampleRepo "a" "say, \"hi\"\nbye").Archived]
      ∧ csvRow (sampleRepo "a" "say, \"hi\"\nbye")
        = "a,octo/a,\"say, \"\"hi\"\"\nbye\",Go,5,2,https://github.com/octo/x.git,https://github.com/octo/x,2024-01-01T00:00:00Z,2024-02-01T00:00:00Z,false,false,false\n" :=
  ⟨(C19_csv_row_reads_back (sampleRepo "a" "say, \"hi\"\nbye") (by decide)).1, by decide⟩

/-- C12: for every collection of repositories (whose int fields are Go ints,
within 64 bits), the text that the JSON exporter writes, decoded by the page
decoder, gives back the records of the collection: the same records in the
same order, every field equal; so a page whose body is that text is fetched
as those records. -/
theorem C12_json_round_trip (repos : Slice Repository) (filename : String)
    (hints : ∀ r ∈ repos.toList, intsInRange r = true) :
    SaveToJson healthyFS repos filename = { file := some (MarshalIndent repos), err := none }
      ∧ decodeRepos (MarshalIndent repos) = .ok repos.toList
      ∧ (∀ (gs : GitHubScraper) (url link : String),
          makeRequest jsonLib gs url
            = .ok { StatusCode := 200, Body := MarshalIndent repos, Link := link } →
          fetchReposPage jsonLib gs url = (repos.toList, parseLinkHeader link, none)) := by
  have hdec := decodeRepos_marshal repos hints
  refine ⟨rfl, hdec, ?_⟩
  intro gs url link hreq
  unfold fetchReposPage
  rw [hreq]
  have hlib : jsonLib.decodeRepos (MarshalIndent repos) = .ok repos.toList := hdec
  simp only [ne_eq, not_true_eq_false, if_false, hlib]

set_option maxRecDepth 100000 in
/-- C12 at a collection of two records with characters that the encoder escapes. -/
theorem C12_json_round_trip_witness :
    decodeRepos (MarshalIndent escapedRepos) = .ok escapedRepos.toList
      ∧ MarshalIndent (.of [namedRepo "a<b"])
        = "[\n \x7b\n  \"id\": 0,\n  \"name\": \"a\\u003cb\",\n  \"full_name\": \"\",\n  \"html_url\": \"\",\n  \"clone_url\": \"\",\n  \"ssh_url\": \"\",\n  \"description\": \"\",\n  \"language\": \"\",\n  \"stargazers_count\": 0,\n  \"forks_count\": 0,\n  \"created_at\": \"\",\n  \"updated_at\": \"\",\n  \"private\": false,\n  \"fork\": false,\n  \"archived\": false\n \x7d\n]" :=
  ⟨(C12_json_round_trip escapedRepos "out.json" (by decide)).2.1, by decide⟩

/-- C13: what the exporter writes for an empty collection of the pipeline:
`FilterRepos` returns a nil slice when no record survives (and the collector
returns one when the first page is empty), and `json.MarshalIndent` of a nil
slice is the text `null`, which is not a JSON array; only a non-nil slice is
written as an array (`[]` when it is empty). -/
theorem C13_empty_collection_exports_null (includePrivate includeForks includeArchived : Bool)
    (filename : String) :
    FilterRepos [] includePrivate includeForks includeArchived = .nil
      ∧ SaveToJson healthyFS (FilterRepos [] includePrivate includeForks includeArchived) filename
        = { file := some "null", err := none }
      ∧ SaveToJson healthyFS (FilterRepos [privateRepo] false true false) filename
        = { file := some "null", err := none }
      ∧ (ScrapeUserRepos sampleLib (NewGitHubScraper emptyFirstPageClient "") "u" 1).map
          (fun out => FilterRepos out.repos.toList false true false) = some .nil
      ∧ isJsonArray "null" = false
      ∧ MarshalIndent (.of []) = "[]"
      ∧ (∀ l : List Repository, isJsonArray (MarshalIndent (.of l)) = true) := by
  refine ⟨rfl, rfl, rfl, by decide, by decide, rfl, isJsonArray_marshal_of⟩

end RepoScraper
